import Mathlib

/-!
Verification of the data-validation engine specified for this repository.

The repository wires the TensorFlow Data Validation library into notebook
cells; the specification abstracts that recurring usage pattern into a
minimal, self-contained schema-validation engine (statistics computation,
schema store, validator, shard merge).  The engine itself is library code
that is not part of the repository sources, so the definitions below are
modelled from the specification text; the one piece of repository code that
is embedded directly from source is the `row_to_example` helper of the
`tfdv-covertype` notebook.
-/

namespace DV

/-- Modelled from the spec: feature kind enumeration of the data model
(NUMERIC, CATEGORICAL_STRING, CATEGORICAL_INT). -/
inductive FeatureKind
  | NUMERIC
  | CATEGORICAL_STRING
  | CATEGORICAL_INT
deriving DecidableEq

/-- True for the two categorical kinds. -/
def kindIsCategorical : FeatureKind → Bool
  | .NUMERIC => false
  | .CATEGORICAL_STRING => true
  | .CATEGORICAL_INT => true

/-- Modelled from the spec: a typed scalar cell value of a raw record
(numeric scalar or string); a missing cell is `Option.none` at the row
level. -/
inductive Value
  | num (q : ℚ)
  | str (s : String)
deriving DecidableEq

/-- Modelled from the spec: a raw record row, a mapping from feature name
to a typed scalar or null. -/
abbrev Row := List (String × Option Value)

/-- Modelled from the spec: per-feature descriptive statistics accumulator.
Numeric features carry count, missing count, min, max, sum, sum of squares
and a histogram (ordered buckets of lower bound, upper bound, count);
categorical features carry a frequency mapping from distinct value to
observed frequency, kept as an association list strictly sorted by key. -/
structure FeatureStatistics where
  name : String
  kind : FeatureKind
  count : Nat
  missing_count : Nat
  sum : ℚ
  sumSq : ℚ
  min : Option ℚ
  max : Option ℚ
  histogram : List (ℚ × ℚ × Nat)
  freq : List (String × Nat)
deriving DecidableEq

/-- Number of records in which the feature carries a value. -/
def FeatureStatistics.present (f : FeatureStatistics) : Nat :=
  f.count - f.missing_count

/-- Modelled from the spec: set of FeatureStatistics keyed by feature name
plus the total record count; features kept strictly sorted by name so that
the set of statistics has a canonical representation. -/
structure DatasetStatistics where
  features : List FeatureStatistics
  total_record_count : Nat
deriving DecidableEq

/-- The empty DatasetStatistics (no features, zero records). -/
def emptyStats : DatasetStatistics := ⟨[], 0⟩

/-- Look up the statistics of a feature by name. -/
def findStat (d : DatasetStatistics) (k : String) : Option FeatureStatistics :=
  d.features.find? (fun f => f.name == k)

/-- Sum of the histogram bucket counts. -/
def histSum (h : List (ℚ × ℚ × Nat)) : Nat :=
  (h.map (fun b => b.2.2)).sum

/-- Sum of the frequency-mapping values. -/
def freqSum (l : List (String × Nat)) : Nat :=
  (l.map Prod.snd).sum

/-- Bucket boundary list of a histogram. -/
def boundaries (h : List (ℚ × ℚ × Nat)) : List (ℚ × ℚ) :=
  h.map (fun b => (b.1, b.2.1))

/-- Executable strict order on character lists (lexicographic by code
point). -/
def charsLtb : List Char → List Char → Bool
  | [], [] => false
  | [], _ :: _ => true
  | _ :: _, [] => false
  | a :: s, b :: t => (decide (a.toNat < b.toNat)) || ((a.toNat == b.toNat) && charsLtb s t)

/-- Executable strict lexicographic order on strings. -/
def strLtb (a b : String) : Bool :=
  charsLtb a.data b.data

section SortedAssoc

variable {α : Type} (key : α → String) (comb : α → α → α)

/-- Insert an element into a key-sorted association list, combining with
the element already stored under an equal key. -/
def insWith (x : α) : List α → List α
  | [] => [x]
  | a :: t =>
    if strLtb (key x) (key a) then x :: a :: t
    else if strLtb (key a) (key x) then a :: insWith x t
    else comb a x :: t

/-- Union of two key-sorted association lists; elements of the second list
are inserted into the first, combining entries with equal keys. -/
def mergeS (l1 l2 : List α) : List α :=
  l2.foldl (fun acc x => insWith key comb x acc) l1

/-- Keys strictly increasing along the list. -/
def sortedKeys : List α → Bool
  | [] => true
  | [_] => true
  | a :: b :: t => strLtb (key a) (key b) && sortedKeys (b :: t)

/-- Look up the entry with the given key. -/
def findK (l : List α) (k : String) : Option α :=
  l.find? (fun a => key a == k)

/-- Pointwise combination of two optional entries. -/
def combOpt : Option α → Option α → Option α
  | some a, some b => some (comb a b)
  | some a, none => some a
  | none, y => y

end SortedAssoc

/-- Keys strictly increasing, as a pairwise proposition. -/
def keySorted {α : Type} (key : α → String) (l : List α) : Prop :=
  l.Pairwise fun a b => strLtb (key a) (key b) = true

/-- Pointwise combination of two optional rationals with a binary
operation; `none` (no observed value) is neutral. -/
def optComb (f : ℚ → ℚ → ℚ) : Option ℚ → Option ℚ → Option ℚ
  | some a, some b => some (f a b)
  | some a, none => some a
  | none, y => y

/-- Modelled from the spec: merge of two categorical frequency maps by
summing counts per key (union of keys). -/
def mergeFreq (l1 l2 : List (String × Nat)) : List (String × Nat) :=
  mergeS Prod.fst (fun a b => (a.1, a.2 + b.2)) l1 l2

/-- Bucket-wise sum of two histograms with identical boundaries. -/
def zipAdd (h1 h2 : List (ℚ × ℚ × Nat)) : List (ℚ × ℚ × Nat) :=
  List.zipWith (fun a b => (a.1, a.2.1, a.2.2 + b.2.2)) h1 h2

/-- Modelled from the spec: histograms merge bucket-wise only when the
bucket boundaries are identical; otherwise the histogram is recomputed
from the merged summary statistics, here as the single bucket spanning the
merged minimum and maximum and holding all present values. -/
def mergeHist (h1 h2 : List (ℚ × ℚ × Nat)) (m M : Option ℚ) (n : Nat) :
    List (ℚ × ℚ × Nat) :=
  if boundaries h1 = boundaries h2 then zipAdd h1 h2
  else
    match m, M with
    | some a, some b => [(a, b, n)]
    | _, _ => []

/-- Modelled from the spec: merge of two per-feature accumulators computed
over disjoint shards; counts, sums and sums of squares add, min and max
combine, frequency maps merge by summing counts per key, histograms merge
bucket-wise when boundaries agree. -/
def mergeFeature (f1 f2 : FeatureStatistics) : FeatureStatistics :=
  { name := f1.name
    kind := f1.kind
    count := f1.count + f2.count
    missing_count := f1.missing_count + f2.missing_count
    sum := f1.sum + f2.sum
    sumSq := f1.sumSq + f2.sumSq
    min := optComb min f1.min f2.min
    max := optComb max f1.max f2.max
    histogram := mergeHist f1.histogram f2.histogram
      (optComb min f1.min f2.min) (optComb max f1.max f2.max)
      (f1.present + f2.present)
    freq := mergeFreq f1.freq f2.freq }

/-- Modelled from the spec: commutative-associative merge of partial
DatasetStatistics computed over disjoint shards; features merge by name,
total record counts add. -/
def merge (d1 d2 : DatasetStatistics) : DatasetStatistics :=
  { features := mergeS FeatureStatistics.name mergeFeature d1.features d2.features
    total_record_count := d1.total_record_count + d2.total_record_count }

/-- Structural well-formedness of the histogram relative to the summary
fields: the histogram is empty exactly when no value is present, and a
nonempty histogram starts at the recorded minimum and ends at the recorded
maximum. -/
def histShapeOk (f : FeatureStatistics) : Bool :=
  match f.histogram.head?, f.histogram.getLast?, f.min, f.max with
  | none, _, none, none => f.present == 0
  | some b, some c, some m, some M =>
    decide (b.1 = m) && decide (c.2.1 = M) && decide (f.present ≠ 0)
  | _, _, _, _ => false

/-- Shape facts tying a histogram to its summary fields: bucket counts sum
to the present count, an empty histogram comes with no minimum, no maximum
and no present value, and a nonempty histogram starts at the minimum, ends
at the maximum and has a nonzero present count. -/
def histOk (h : List (ℚ × ℚ × Nat)) (m M : Option ℚ) (P : Nat) : Prop :=
  histSum h = P ∧ (h = [] → m = none ∧ M = none ∧ P = 0) ∧
    ∀ b t, h = b :: t → ∃ c, m = some b.1 ∧ M = some c.2.1 ∧
      (b :: t).getLast? = some c ∧ P ≠ 0

/-- Well-formedness of one FeatureStatistics: the invariant of the data
model (missing_count bounded by count, histogram bucket counts summing to
count - missing_count for numeric features, frequency values summing to
count - missing_count for categorical features) together with the
structural facts established by the statistics engine. -/
def FeatureStatistics.wfb (f : FeatureStatistics) : Bool :=
  decide (f.missing_count ≤ f.count) &&
  match f.kind with
  | .NUMERIC => f.freq.isEmpty && (histSum f.histogram == f.present) && histShapeOk f
  | _ =>
    f.histogram.isEmpty && f.min.isNone && f.max.isNone &&
    (freqSum f.freq == f.present) && sortedKeys Prod.fst f.freq

/-- Well-formedness of a DatasetStatistics: features strictly sorted by
name, each entry named consistently and well-formed. -/
def DatasetStatistics.wfb (d : DatasetStatistics) : Bool :=
  sortedKeys FeatureStatistics.name d.features && d.features.all FeatureStatistics.wfb

/-- Two shard statistics are compatible when features shared by name agree
on their kind (as statistics over disjoint shards of one record set do). -/
def compat (d1 d2 : DatasetStatistics) : Bool :=
  d1.features.all fun a => d2.features.all fun b => a.name != b.name || a.kind == b.kind

/-- Modelled from the spec: per-feature entry of the declarative schema
document: kind, minimum presence fraction, allowed-value domain for
categorical features, numeric range for numeric features, minimum domain
mass, optional drift threshold, and the environments in which the feature
is excluded from enforcement. -/
structure FeatureSchema where
  name : String
  kind : FeatureKind
  min_presence_fraction : Option ℚ
  domain_values : List String
  numeric_domain : Option (ℚ × ℚ)
  min_domain_mass : Option ℚ
  drift_threshold : Option ℚ
  excluded_environments : List String
deriving DecidableEq

/-- Modelled from the spec: the schema document, one entry per feature
name, plus the set of declared environments. -/
structure Schema where
  features : List FeatureSchema
  environments : List String
deriving DecidableEq

/-- Modelled from the spec: the error raised by the statistics engine when
a cell value conflicts irreconcilably with the declared or inferred
feature kind. -/
inductive ComputeError
  | InvalidRecordError
deriving DecidableEq

/-- The cell stored in a row under a feature name: `none` when the row has
no entry for the name, `some none` when the entry is null. -/
def rowValue (r : Row) (k : String) : Option (Option Value) :=
  (r.find? (fun p => p.1 == k)).map Prod.snd

/-- The values actually carried by a feature across the rows (nulls and
absent entries skipped). -/
def presentValues (rows : List Row) (k : String) : List Value :=
  rows.filterMap (fun r => (rowValue r k).bind id)

/-- Number of rows in which the feature carries no value (null cell or
absent entry). -/
def missingIn (rows : List Row) (k : String) : Nat :=
  rows.countP (fun r => ((rowValue r k).bind id).isNone)

/-- Insert a key into a strictly sorted list of keys, skipping
duplicates. -/
def insKey (k : String) : List String → List String
  | [] => [k]
  | a :: t =>
    if strLtb k a then k :: a :: t
    else if strLtb a k then a :: insKey k t
    else a :: t

/-- All feature names seen across the rows (union of keys), strictly
sorted. -/
def allKeys (rows : List Row) : List String :=
  rows.foldl (fun acc r => r.foldl (fun acc2 p => insKey p.1 acc2) acc) []

/-- Numeric reading of a cell; fails on text. -/
def toNum : Value → Option ℚ
  | .num q => some q
  | .str _ => none

/-- Categorical reading of a cell; both strings and numbers act as
category labels, which lets a caller reinterpret an integer-encoded column
as categorical. -/
def valueKey : Value → String
  | .str s => s
  | .num q => toString q

/-- Fold a binary operation over a list of rationals, `none` on the empty
list. -/
def optFold (f : ℚ → ℚ → ℚ) (l : List ℚ) : Option ℚ :=
  l.foldl (fun a q => some (match a with | none => q | some x => f x q)) none

/-- Executable rational addition (definitionally reducible form of
`a + b`). -/
def qadd (a b : ℚ) : ℚ :=
  mkRat (a.num * b.den + b.num * a.den) (a.den * b.den)

/-- Executable rational subtraction (definitionally reducible form of
`a - b`). -/
def qsub (a b : ℚ) : ℚ :=
  mkRat (a.num * b.den - b.num * a.den) (a.den * b.den)

/-- Executable rational multiplication (definitionally reducible form of
`a * b`). -/
def qmul (a b : ℚ) : ℚ :=
  mkRat (a.num * b.num) (a.den * b.den)

/-- Executable rational division (definitionally reducible form of
`a / b`). -/
def qdiv (a b : ℚ) : ℚ :=
  mkRat (a.num * b.den * (if b.num < 0 then -1 else 1)) (a.den * b.num.natAbs)

/-- Floor of a nonnegative rational (integer division of numerator by
denominator). -/
def qfloorNonneg (q : ℚ) : Nat :=
  q.num.toNat / q.den

/-- Lower boundary of bucket `i` of ten equal-width buckets over
`[m, M]`. -/
def bLow (m M : ℚ) (i : Nat) : ℚ :=
  qadd m (qdiv (qmul (qsub M m) i) 10)

/-- Index of the equal-width bucket receiving the value `q`. -/
def bucketIdx (m M q : ℚ) : Nat :=
  if m = M then 0 else Nat.min 9 (qfloorNonneg (qdiv (qmul (qsub q m) 10) (qsub M m)))

/-- Modelled from the spec: stream the observed values into a fixed number
of equal-width histogram buckets determined by the observed minimum and
maximum. -/
def histFor (m M : ℚ) (qs : List ℚ) : List (ℚ × ℚ × Nat) :=
  if m = M then [(m, M, qs.length)]
  else
    (List.range 10).map fun i =>
      (bLow m M i, bLow m M (i + 1), qs.countP (fun q => bucketIdx m M q == i))

/-- Build the frequency map of a list of category labels, strictly sorted
by key. -/
def buildFreq (keys : List String) : List (String × Nat) :=
  keys.foldl (fun acc s => insWith Prod.fst (fun a b => (a.1, a.2 + b.2)) (s, 1) acc) []

/-- Kind forced by the schema hint for a feature name, when the hint
declares it. -/
def hintKind (hint : Option Schema) (k : String) : Option FeatureKind :=
  hint.bind fun s => (s.features.find? (fun fs => fs.name == k)).map (·.kind)

/-- Modelled from the spec: per-feature kind, forced from the schema hint
when provided, otherwise inferred from the raw type of the first observed
value (numbers give NUMERIC, strings give CATEGORICAL_STRING). -/
def featureKind (rows : List Row) (hint : Option Schema) (k : String) : FeatureKind :=
  match hintKind hint k with
  | some kd => kd
  | none =>
    match presentValues rows k with
    | [] => .CATEGORICAL_STRING
    | v :: _ =>
      match v with
      | .num _ => .NUMERIC
      | .str _ => .CATEGORICAL_STRING

/-- Modelled from the spec: single-pass statistics of one feature.  A text
value in a column whose kind is fixed NUMERIC fails with
InvalidRecordError and is never coerced into a missing value. -/
def computeFeature (rows : List Row) (hint : Option Schema) (k : String) :
    Except ComputeError FeatureStatistics :=
  let vals := presentValues rows k
  match featureKind rows hint k with
  | .NUMERIC =>
    match vals.mapM toNum with
    | none => .error .InvalidRecordError
    | some qs =>
      let m? := optFold min qs
      let M? := optFold max qs
      .ok
        { name := k
          kind := .NUMERIC
          count := rows.length
          missing_count := rows.length - vals.length
          sum := qs.foldl qadd 0
          sumSq := qs.foldl (fun a q => qadd a (qmul q q)) 0
          min := m?
          max := M?
          histogram := match m?, M? with
            | some m, some M => histFor m M qs
            | _, _ => []
          freq := [] }
  | kd =>
    .ok
      { name := k
        kind := kd
        count := rows.length
        missing_count := rows.length - vals.length
        sum := 0
        sumSq := 0
        min := none
        max := none
        histogram := []
        freq := buildFreq (vals.map valueKey) }

/-- Modelled from the spec: `compute(records, schema_hint)`, one
FeatureStatistics per feature name seen across all rows, pure in its
inputs, failing with InvalidRecordError on an irreconcilable value. -/
def compute (rows : List Row) (hint : Option Schema) :
    Except ComputeError DatasetStatistics :=
  match (allKeys rows).mapM (computeFeature rows hint) with
  | .error e => .error e
  | .ok feats => .ok { features := feats, total_record_count := rows.length }

/-- Modelled from the spec: anomaly kind enumeration, in the declaration
order of the data model; UNEXPECTED_FEATURE additionally models the
WARNING-severity unexpected-feature finding of validation step 2, which
the data model section leaves out of its enumeration. -/
inductive AnomalyKind
  | MISSING_FEATURE
  | UNEXPECTED_STRING_VALUES
  | OUT_OF_RANGE
  | PRESENCE_BELOW_THRESHOLD
  | DOMAIN_MASS_BELOW_THRESHOLD
  | DISTRIBUTION_DRIFT
  | UNEXPECTED_FEATURE
deriving DecidableEq

/-- Position of an anomaly kind in the declaration order of the data
model. -/
def kindIndex : AnomalyKind → Nat
  | .MISSING_FEATURE => 0
  | .UNEXPECTED_STRING_VALUES => 1
  | .OUT_OF_RANGE => 2
  | .PRESENCE_BELOW_THRESHOLD => 3
  | .DOMAIN_MASS_BELOW_THRESHOLD => 4
  | .DISTRIBUTION_DRIFT => 5
  | .UNEXPECTED_FEATURE => 6

/-- Position of an anomaly kind in the order of the validation steps 1-6
of the validator algorithm. -/
def stepIndex : AnomalyKind → Nat
  | .MISSING_FEATURE => 1
  | .UNEXPECTED_FEATURE => 2
  | .PRESENCE_BELOW_THRESHOLD => 3
  | .UNEXPECTED_STRING_VALUES => 4
  | .DOMAIN_MASS_BELOW_THRESHOLD => 5
  | .OUT_OF_RANGE => 6
  | .DISTRIBUTION_DRIFT => 7

/-- Modelled from the spec: anomaly severity. -/
inductive Severity
  | ERROR
  | WARNING
deriving DecidableEq

/-- Modelled from the spec: one finding of the validator: feature name,
anomaly kind, severity, the offending values named by the finding, and
the out-of-range extent where applicable. -/
structure Anomaly where
  featureName : String
  kind : AnomalyKind
  severity : Severity
  values : List String
  extent : Option ℚ
deriving DecidableEq

/-- Insert an entry into a list sorted by descending frequency. -/
def insDesc (x : String × Nat) : List (String × Nat) → List (String × Nat)
  | [] => [x]
  | a :: t => if a.2 < x.2 then x :: a :: t else a :: insDesc x t

/-- Sort frequency entries by descending frequency. -/
def sortDesc (l : List (String × Nat)) : List (String × Nat) :=
  l.foldr insDesc []

/-- The frequency entries of a feature whose value lies outside the
allowed domain. -/
def offendingOf (st : FeatureStatistics) (dom : List String) : List (String × Nat) :=
  st.freq.filter fun p => !(dom.contains p.1)

/-- Normalized frequency of one category label. -/
def normFreq (st : FeatureStatistics) (k : String) : ℚ :=
  (match findK Prod.fst st.freq k with
   | some p => (p.2 : ℚ)
   | none => 0) / (st.present : ℚ)

/-- Modelled from the spec: L-infinity distance between the normalized
frequency or histogram distributions of two snapshots of one feature;
histograms compare bucket-wise only when their boundaries agree. -/
def driftDistance (kd : FeatureKind) (st pst : FeatureStatistics) : ℚ :=
  match kd with
  | .NUMERIC =>
    if boundaries st.histogram = boundaries pst.histogram then
      (List.zipWith
        (fun a b => |((a.2.2 : ℚ)) / (st.present : ℚ) - ((b.2.2 : ℚ)) / (pst.present : ℚ)|)
        st.histogram pst.histogram).foldl max 0
    else 0
  | _ =>
    ((st.freq.map Prod.fst ++ pst.freq.map Prod.fst).eraseDups.map
      (fun k => |normFreq st k - normFreq pst k|)).foldl max 0

/-- Validation step 1: a feature absent from the statistics
(missing_count equal to the total record count, or no entry at all). -/
def step1 (N : Nat) (st? : Option FeatureStatistics) (fs : FeatureSchema) : List Anomaly :=
  let absent := match st? with
    | none => true
    | some st => st.missing_count == N
  if absent then [⟨fs.name, .MISSING_FEATURE, .ERROR, [], none⟩] else []

/-- Validation step 3: presence below the declared minimum presence
fraction. -/
def step3 (N : Nat) (st? : Option FeatureStatistics) (fs : FeatureSchema) : List Anomaly :=
  match st?, fs.min_presence_fraction with
  | some st, some p =>
    if 1 - (st.missing_count : ℚ) / (N : ℚ) < p then
      [⟨fs.name, .PRESENCE_BELOW_THRESHOLD, .ERROR, [], none⟩]
    else []
  | _, _ => []

/-- Validation step 4: observed categorical values outside a non-empty
allowed domain, naming up to five offending values ordered by descending
frequency. -/
def step4 (st? : Option FeatureStatistics) (fs : FeatureSchema) : List Anomaly :=
  match st? with
  | some st =>
    if kindIsCategorical fs.kind && !(fs.domain_values.isEmpty) then
      let offending := offendingOf st fs.domain_values
      if 0 < freqSum offending then
        [⟨fs.name, .UNEXPECTED_STRING_VALUES, .ERROR,
          ((sortDesc offending).map Prod.fst).take 5, none⟩]
      else []
    else []
  | none => []

/-- Validation step 4, domain-mass variant: the fraction of observed
values inside the allowed domain falls below min_domain_mass. -/
def step4b (st? : Option FeatureStatistics) (fs : FeatureSchema) : List Anomaly :=
  match st?, fs.min_domain_mass with
  | some st, some dm =>
    if kindIsCategorical fs.kind then
      let u : Nat := freqSum (offendingOf st fs.domain_values)
      if ((st.count : ℚ) - (st.missing_count : ℚ) - (u : ℚ)) / (st.count : ℚ) < dm then
        [⟨fs.name, .DOMAIN_MASS_BELOW_THRESHOLD, .ERROR, [], none⟩]
      else []
    else []
  | _, _ => []

/-- Validation step 5: observed numeric minimum or maximum outside the
declared range, reporting the out-of-range extent. -/
def step5 (st? : Option FeatureStatistics) (fs : FeatureSchema) : List Anomaly :=
  match st?, fs.numeric_domain with
  | some st, some (lo, hi) =>
    if fs.kind == .NUMERIC then
      match st.min, st.max with
      | some a, some b =>
        if a < lo ∨ hi < b then
          [⟨fs.name, .OUT_OF_RANGE, .ERROR, [], some (max (lo - a) (b - hi))⟩]
        else []
      | _, _ => []
    else []
  | _, _ => []

/-- Validation step 6: distributional drift from the previous statistics
beyond the declared threshold. -/
def step6 (st? pst? : Option FeatureStatistics) (fs : FeatureSchema) : List Anomaly :=
  match st?, pst?, fs.drift_threshold with
  | some st, some pst, some t =>
    if t < driftDistance fs.kind st pst then
      [⟨fs.name, .DISTRIBUTION_DRIFT, .WARNING, [], none⟩]
    else []
  | _, _, _ => []

/-- The checks of one schema-declared feature, in the fixed order of the
validation steps. -/
def featureAnomalies (N : Nat) (st? pst? : Option FeatureStatistics)
    (fs : FeatureSchema) : List Anomaly :=
  step1 N st? fs ++ step3 N st? fs ++ step4 st? fs ++ step4b st? fs ++
    step5 st? fs ++ step6 st? pst? fs

/-- Whether the feature is excluded from the given environment. -/
def excludedIn (fs : FeatureSchema) (env : Option String) : Bool :=
  match env with
  | some e => fs.excluded_environments.contains e
  | none => false

/-- Modelled from the spec: `validate(stats, schema, environment,
previous_stats)`.  Per feature declared in the schema, in the declared
feature order, the checks of steps 1-6 run in their fixed order; a
feature excluded from the given environment has all of its checks
suppressed; features present in the statistics but not declared in the
schema are reported last as WARNING-severity unexpected-feature
findings. -/
def validate (stats : DatasetStatistics) (schema : Schema) (env : Option String)
    (prev? : Option DatasetStatistics) : List Anomaly :=
  ((schema.features.map fun fs =>
      if excludedIn fs env then []
      else
        featureAnomalies stats.total_record_count (findStat stats fs.name)
          (prev?.bind fun pd => findStat pd fs.name) fs)).flatten
  ++ ((stats.features.filter fun st =>
        !(schema.features.any fun fs => fs.name == st.name)).map
      fun st => ⟨st.name, .UNEXPECTED_FEATURE, .WARNING, [], none⟩)

/-- Modelled from the spec: error taxonomy of the schema store and of
deserialization. -/
inductive SchemaError
  | UnknownFeatureError
  | UnknownEnvironmentError
  | KindMismatchError
  | InvalidArgumentError
  | MalformedSchemaError
deriving DecidableEq

/-- Whether the schema declares a feature of the given name. -/
def hasFeature (s : Schema) (f : String) : Bool :=
  s.features.any fun fs => fs.name == f

/-- Kind of a declared feature (meaningful only when `hasFeature`). -/
def featureKindIn (s : Schema) (f : String) : Option FeatureKind :=
  (s.features.find? (fun fs => fs.name == f)).map (·.kind)

/-- Apply an update to the entry of the named feature. -/
def updateFeature (s : Schema) (f : String) (g : FeatureSchema → FeatureSchema) : Schema :=
  { s with features := s.features.map fun fs => if fs.name == f then g fs else fs }

/-- Modelled from the spec: `set_kind(feature, kind)`, failing with
UnknownFeatureError on an absent feature. -/
def set_kind (s : Schema) (f : String) (k : FeatureKind) : Except SchemaError Schema :=
  if hasFeature s f then .ok (updateFeature s f fun fs => { fs with kind := k })
  else .error .UnknownFeatureError

/-- Modelled from the spec: `set_numeric_domain(feature, min, max)`,
failing with KindMismatchError when the feature kind is not NUMERIC. -/
def set_numeric_domain (s : Schema) (f : String) (lo hi : ℚ) : Except SchemaError Schema :=
  match featureKindIn s f with
  | none => .error .UnknownFeatureError
  | some .NUMERIC => .ok (updateFeature s f fun fs => { fs with numeric_domain := some (lo, hi) })
  | some _ => .error .KindMismatchError

/-- Modelled from the spec: `set_categorical_domain(feature, values)`,
replacing the allowed-value set, failing with KindMismatchError when the
feature is not categorical. -/
def set_categorical_domain (s : Schema) (f : String) (vals : List String) :
    Except SchemaError Schema :=
  match featureKindIn s f with
  | none => .error .UnknownFeatureError
  | some kd =>
    if kindIsCategorical kd then
      .ok (updateFeature s f fun fs => { fs with domain_values := vals })
    else .error .KindMismatchError

/-- Modelled from the spec: `add_domain_value(feature, value)`, appending
to the allowed set idempotently. -/
def add_domain_value (s : Schema) (f : String) (v : String) : Except SchemaError Schema :=
  if hasFeature s f then
    .ok (updateFeature s f fun fs =>
      { fs with domain_values :=
          if fs.domain_values.contains v then fs.domain_values
          else fs.domain_values ++ [v] })
  else .error .UnknownFeatureError

/-- Modelled from the spec: `set_min_presence(feature, fraction)`, failing
with InvalidArgumentError when the fraction lies outside `[0, 1]`. -/
def set_min_presence (s : Schema) (f : String) (p : ℚ) : Except SchemaError Schema :=
  if 0 ≤ p ∧ p ≤ 1 then
    if hasFeature s f then
      .ok (updateFeature s f fun fs => { fs with min_presence_fraction := some p })
    else .error .UnknownFeatureError
  else .error .InvalidArgumentError

/-- Modelled from the spec: `declare_environment(name)`, idempotent. -/
def declare_environment (s : Schema) (e : String) : Schema :=
  if s.environments.contains e then s
  else { s with environments := s.environments ++ [e] }

/-- Modelled from the spec: `exclude_feature_from_environment(feature,
environment)`, failing with UnknownEnvironmentError when the environment
was not declared. -/
def exclude_feature_from_environment (s : Schema) (f : String) (e : String) :
    Except SchemaError Schema :=
  if s.environments.contains e then
    if hasFeature s f then
      .ok (updateFeature s f fun fs =>
        { fs with excluded_environments :=
            if fs.excluded_environments.contains e then fs.excluded_environments
            else fs.excluded_environments ++ [e] })
    else .error .UnknownFeatureError
  else .error .UnknownEnvironmentError

/-- Modelled from the spec: `infer(stats)`: per feature the statistics
kind is kept, the minimum presence fraction is the observed presence
fraction, the categorical domain copies the observed distinct values and
the numeric domain copies the observed range; no drift thresholds and no
environments by default. -/
def infer_schema (d : DatasetStatistics) : Schema :=
  { features := d.features.map fun f =>
      { name := f.name
        kind := f.kind
        min_presence_fraction :=
          some (1 - (f.missing_count : ℚ) / (d.total_record_count : ℚ))
        domain_values := if kindIsCategorical f.kind then f.freq.map Prod.fst else []
        numeric_domain :=
          match f.min, f.max with
          | some a, some b => some (a, b)
          | _, _ => none
        min_domain_mass := none
        drift_threshold := none
        excluded_environments := [] }
    environments := [] }

/-- Schemas reachable from an inferred baseline through the explicit
mutation API of the schema store. -/
inductive Built : Schema → Prop
  | infer (d : DatasetStatistics) : Built (infer_schema d)
  | kind_set {s s' f k} : Built s → set_kind s f k = .ok s' → Built s'
  | numeric_domain_set {s s' f lo hi} : Built s → set_numeric_domain s f lo hi = .ok s' → Built s'
  | categorical_domain_set {s s' f vals} : Built s →
      set_categorical_domain s f vals = .ok s' → Built s'
  | domain_value_added {s s' f v} : Built s → add_domain_value s f v = .ok s' → Built s'
  | min_presence_set {s s' f p} : Built s → set_min_presence s f p = .ok s' → Built s'
  | environment_declared {s e} : Built s → Built (declare_environment s e)
  | feature_excluded {s s' f e} : Built s →
      exclude_feature_from_environment s f e = .ok s' → Built s'

/-- Unary encoding of a natural number, terminated by a marker
character. -/
def encNat (n : Nat) : List Char :=
  List.replicate n '1' ++ ['0']

/-- Decoder of `encNat`, returning the value and the remaining input. -/
def decNat : List Char → Option (Nat × List Char)
  | '1' :: r => (decNat r).map fun p => (p.1 + 1, p.2)
  | '0' :: r => some (0, r)
  | _ => none

/-- Sign-and-magnitude encoding of an integer. -/
def encInt : Int → List Char
  | .ofNat n => '+' :: encNat n
  | .negSucc n => '-' :: encNat n

/-- Decoder of `encInt`. -/
def decInt : List Char → Option (Int × List Char)
  | '+' :: r => (decNat r).map fun p => (Int.ofNat p.1, p.2)
  | '-' :: r => (decNat r).map fun p => (Int.negSucc p.1, p.2)
  | _ => none

/-- Length-prefixed encoding of a string. -/
def encStr (s : String) : List Char :=
  encNat s.length ++ s.data

/-- Decoder of `encStr`. -/
def decStr (cs : List Char) : Option (String × List Char) :=
  (decNat cs).bind fun p =>
    if p.1 ≤ p.2.length then some (⟨p.2.take p.1⟩, p.2.drop p.1) else none

/-- Numerator-and-denominator encoding of a rational. -/
def encRat (q : ℚ) : List Char :=
  encInt q.num ++ encNat q.den

/-- Decoder of `encRat`. -/
def decRat (cs : List Char) : Option (ℚ × List Char) :=
  (decInt cs).bind fun p => (decNat p.2).map fun p2 => (mkRat p.1 p2.1, p2.2)

/-- Flagged encoding of an optional value. -/
def encOpt (enc : α → List Char) : Option α → List Char
  | none => ['n']
  | some a => 's' :: enc a

/-- Decoder of `encOpt`. -/
def decOpt (dec : List Char → Option (α × List Char)) (cs : List Char) :
    Option (Option α × List Char) :=
  match cs with
  | 'n' :: r => some (none, r)
  | 's' :: r => (dec r).map fun p => (some p.1, p.2)
  | _ => none

/-- Length-prefixed encoding of a list. -/
def encList (enc : α → List Char) (l : List α) : List Char :=
  encNat l.length ++ (l.map enc).flatten

/-- Decoder of a fixed number of consecutive encoded values. -/
def decListN (dec : List Char → Option (α × List Char)) :
    Nat → List Char → Option (List α × List Char)
  | 0, cs => some ([], cs)
  | n + 1, cs =>
    (dec cs).bind fun p => (decListN dec n p.2).map fun p2 => (p.1 :: p2.1, p2.2)

/-- Decoder of `encList`. -/
def decList (dec : List Char → Option (α × List Char)) (cs : List Char) :
    Option (List α × List Char) :=
  (decNat cs).bind fun p => decListN dec p.1 p.2

/-- One-character encoding of a feature kind. -/
def encKind : FeatureKind → List Char
  | .NUMERIC => ['N']
  | .CATEGORICAL_STRING => ['S']
  | .CATEGORICAL_INT => ['I']

/-- Decoder of `encKind`. -/
def decKind : List Char → Option (FeatureKind × List Char)
  | 'N' :: r => some (.NUMERIC, r)
  | 'S' :: r => some (.CATEGORICAL_STRING, r)
  | 'I' :: r => some (.CATEGORICAL_INT, r)
  | _ => none

/-- Encoding of a pair of rationals. -/
def encRat2 (p : ℚ × ℚ) : List Char :=
  encRat p.1 ++ encRat p.2

/-- Decoder of `encRat2`. -/
def decRat2 (cs : List Char) : Option ((ℚ × ℚ) × List Char) :=
  (decRat cs).bind fun p => (decRat p.2).map fun p2 => ((p.1, p2.1), p2.2)

/-- Encoding of one per-feature schema entry. -/
def encFeatureSchema (fs : FeatureSchema) : List Char :=
  encStr fs.name ++ encKind fs.kind ++ encOpt encRat fs.min_presence_fraction ++
    encList encStr fs.domain_values ++ encOpt encRat2 fs.numeric_domain ++
    encOpt encRat fs.min_domain_mass ++ encOpt encRat fs.drift_threshold ++
    encList encStr fs.excluded_environments

/-- Decoder of `encFeatureSchema`. -/
def decFeatureSchema (cs : List Char) : Option (FeatureSchema × List Char) :=
  (decStr cs).bind fun p1 =>
  (decKind p1.2).bind fun p2 =>
  (decOpt decRat p2.2).bind fun p3 =>
  (decList decStr p3.2).bind fun p4 =>
  (decOpt decRat2 p4.2).bind fun p5 =>
  (decOpt decRat p5.2).bind fun p6 =>
  (decOpt decRat p6.2).bind fun p7 =>
  (decList decStr p7.2).map fun p8 =>
  (⟨p1.1, p2.1, p3.1, p4.1, p5.1, p6.1, p7.1, p8.1⟩, p8.2)

/-- Encoding of a whole schema document. -/
def encSchema (s : Schema) : List Char :=
  encList encFeatureSchema s.features ++ encList encStr s.environments

/-- Decoder of `encSchema`. -/
def decSchema (cs : List Char) : Option (Schema × List Char) :=
  (decList decFeatureSchema cs).bind fun p1 =>
  (decList decStr p1.2).map fun p2 => (⟨p1.1, p2.1⟩, p2.2)

/-- Modelled from the spec: `serialize()`, the canonical textual document
of a schema. -/
def serialize (s : Schema) : String :=
  ⟨encSchema s⟩

/-- Modelled from the spec: `deserialize(text)`, failing with
MalformedSchemaError on structurally invalid input (including trailing
garbage) and never partially populating the store. -/
def deserialize (t : String) : Except SchemaError Schema :=
  match decSchema t.data with
  | some (s, []) => .ok s
  | _ => .error .MalformedSchemaError

/-- A scalar cell of a BigQuery result row, as handled by the notebook
helper `row_to_example` (embedded from the `tfdv-covertype` notebook
source): null, integer, float or string. -/
inductive BQValue
  | null
  | int (i : Int)
  | float (q : ℚ)
  | str (s : String)
deriving DecidableEq

/-- The value lists of one `tf.train.Feature` protocol-buffer message. -/
structure TFFeature where
  int64s : List Int
  floats : List ℚ
  bytes : List String
deriving DecidableEq

/-- `tf.train.Feature()`: a Feature carrying no values at all. -/
def emptyFeature : TFFeature := ⟨[], [], []⟩

/-- The runtime errors the Python helper can raise: a missing key in the
type map, or a value rejected by a protocol-buffer list constructor. -/
inductive PyError
  | KeyError
  | TypeError
deriving DecidableEq

/-- One entry conversion of `row_to_example`, embedded from the notebook
source: a null value yields an empty Feature before any type dispatch; an
INTEGER column accepts integers into an Int64List, a FLOAT column accepts
numbers into a FloatList, and any other declared type converts the value
with `tf.compat.as_bytes` into a BytesList, which accepts only text. -/
def convertValue (dt : String) (v : BQValue) : Except PyError TFFeature :=
  if v = BQValue.null then .ok emptyFeature
  else if dt == "INTEGER" then
    match v with
    | .int i => .ok ⟨[i], [], []⟩
    | _ => .error .TypeError
  else if dt == "FLOAT" then
    match v with
    | .int i => .ok ⟨[], [(i : ℚ)], []⟩
    | .float q => .ok ⟨[], [q], []⟩
    | _ => .error .TypeError
  else
    match v with
    | .str s => .ok ⟨[], [], [s]⟩
    | _ => .error .TypeError

/-- Embedded from the notebook source: `row_to_example(instance,
type_map)` looks each feature name up in the type map (a missing name
raises KeyError before the null check) and converts the cell value,
producing the feature mapping of a `tf.train.Example`. -/
def row_to_example (inst : List (String × BQValue))
    (type_map : List (String × String)) : Except PyError (List (String × TFFeature)) :=
  inst.mapM fun kv =>
    match type_map.find? (fun p => p.1 == kv.1) with
    | none => .error .KeyError
    | some p => (convertValue p.2 kv.2).map fun ft => (kv.1, ft)

/-- Pairwise-distinct feature names in a schema feature list. -/
def nodupNames : List FeatureSchema → Bool
  | [] => true
  | a :: t => !(t.any fun b => b.name == a.name) && nodupNames t

/-- Position of the first feature of the given name in a schema feature
list. -/
def idxOfName : List FeatureSchema → String → Nat
  | [], _ => 0
  | f :: t, n => if f.name = n then 0 else idxOfName t n + 1

/-- Deterministic report order: among anomalies of schema-declared
features, an earlier anomaly either belongs to an earlier declared feature
or to the same feature with an earlier validation step. -/
def reportOrdered (schema : Schema) (l : List Anomaly) : Prop :=
  l.Pairwise fun a b =>
    hasFeature schema a.featureName = true → hasFeature schema b.featureName = true →
      idxOfName schema.features a.featureName < idxOfName schema.features b.featureName ∨
        (idxOfName schema.features a.featureName = idxOfName schema.features b.featureName ∧
          stepIndex a.kind < stepIndex b.kind)

/-- Number of report anomalies of one feature and kind. -/
def countAnom (l : List Anomaly) (n : String) (k : AnomalyKind) : Nat :=
  (l.filter fun a => a.featureName == n && a.kind == k).length

/-- Observed frequency of one category label in a feature. -/
def freqIn (st : FeatureStatistics) (v : String) : Nat :=
  match findK Prod.fst st.freq v with
  | some p => p.2
  | none => 0

/-- Scenario statistics: a serving batch in which the label feature is
entirely absent. -/
def statsC : DatasetStatistics :=
  ⟨[⟨"label", .CATEGORICAL_STRING, 5, 5, 0, 0, none, none, [], []⟩], 5⟩

/-- Scenario schema: the label feature is excluded from the SERVING
environment. -/
def schemaC : Schema :=
  ⟨[⟨"label", .CATEGORICAL_STRING, none, [], none, none, none, ["SERVING"]⟩],
   ["TRAINING", "SERVING"]⟩

/-- Scenario statistics: the color feature shows green four times out of
ten records. -/
def statsB : DatasetStatistics :=
  ⟨[⟨"color", .CATEGORICAL_STRING, 10, 0, 0, 0, none, none, [],
     [("blue", 3), ("green", 4), ("red", 3)]⟩], 10⟩

/-- Scenario schema: the color feature is categorical with allowed domain
red and blue. -/
def schemaB : Schema :=
  ⟨[⟨"color", .CATEGORICAL_STRING, none, ["red", "blue"], none, none, none, []⟩], []⟩

/-- Scenario statistics: the delay feature with observed maximum 500. -/
def statsD : DatasetStatistics :=
  ⟨[⟨"delay", .NUMERIC, 10, 0, 0, 0, some 0, some 500, [(0, 500, 10)], []⟩], 10⟩

/-- Scenario schema: the delay feature is numeric with domain -60 to
480. -/
def schemaD : Schema :=
  ⟨[⟨"delay", .NUMERIC, none, [], some (-60, 480), none, none, []⟩], []⟩

/-- Scenario statistics: the airline feature missing in 3 of 1000
records. -/
def statsE : DatasetStatistics :=
  ⟨[⟨"airline", .CATEGORICAL_STRING, 1000, 3, 0, 0, none, none, [], [("AA", 997)]⟩], 1000⟩

/-- Scenario schema before requiring full presence of the airline
feature. -/
def schemaE0 : Schema :=
  ⟨[⟨"airline", .CATEGORICAL_STRING, none, [], none, none, none, []⟩], []⟩

/-- Scenario schema after `set_min_presence("airline", 1.0)`. -/
def schemaE : Schema :=
  ⟨[⟨"airline", .CATEGORICAL_STRING, some 1, [], none, none, none, []⟩], []⟩

/-- Statistics triggering both a presence violation and an unexpected
string value on the same feature. -/
def statsO : DatasetStatistics :=
  ⟨[⟨"c", .CATEGORICAL_STRING, 10, 1, 0, 0, none, none, [], [("green", 9)]⟩], 10⟩

/-- Schema requiring full presence and a domain containing only red for
the feature of `statsO`. -/
def schemaO : Schema :=
  ⟨[⟨"c", .CATEGORICAL_STRING, some 1, ["red"], none, none, none, []⟩], []⟩

/-- Concrete well-formed shard statistics. -/
def dsA : DatasetStatistics :=
  ⟨[⟨"x", .CATEGORICAL_STRING, 2, 1, 0, 0, none, none, [], [("a", 1)]⟩], 2⟩

/-- Concrete well-formed shard statistics sharing a feature with
`dsA`. -/
def dsB : DatasetStatistics :=
  ⟨[⟨"x", .CATEGORICAL_STRING, 3, 1, 0, 0, none, none, [], [("a", 1), ("b", 1)]⟩], 3⟩

/-- Concrete well-formed shard statistics with a numeric feature. -/
def dsC : DatasetStatistics :=
  ⟨[⟨"y", .NUMERIC, 1, 0, 5, 25, some 5, some 5, [(5, 5, 1)], []⟩], 1⟩

/-- Concrete rows whose second record carries text in a column fixed
NUMERIC by its first record. -/
def rowsW : List Row :=
  [[("x", some (.num 1))], [("x", some (.str "q"))]]

/-- Concrete rows of the statistics scenario: two numeric values and one
null. -/
def rowsA : List Row :=
  [[("x", some (.num 1))], [("x", some (.num 2))], [("x", none)]]

/-- The DatasetStatistics computed over `rowsA` (feature x: two numeric
values 1 and 2, one null). -/
def dW : DatasetStatistics :=
  ⟨[⟨"x", .NUMERIC, 3, 1, 3, 5, some 1, some 2,
      [(1, mkRat 11 10, 1), (mkRat 11 10, mkRat 6 5, 0), (mkRat 6 5, mkRat 13 10, 0),
       (mkRat 13 10, mkRat 7 5, 0), (mkRat 7 5, mkRat 3 2, 0), (mkRat 3 2, mkRat 8 5, 0),
       (mkRat 8 5, mkRat 17 10, 0), (mkRat 17 10, mkRat 9 5, 0), (mkRat 9 5, mkRat 19 10, 0),
       (mkRat 19 10, 2, 1)], []⟩], 3⟩

/-- Concrete row with a null cell and an integer cell. -/
def instW : List (String × BQValue) :=
  [("a", .null), ("b", .int 3)]

/-- Concrete type map declaring both columns INTEGER. -/
def tmW : List (String × String) :=
  [("a", "INTEGER"), ("b", "INTEGER")]

theorem char_toNat_inj {a b : Char} (h : a.toNat = b.toNat) : a = b :=
  Char.ofNat_toNat a ▸ Char.ofNat_toNat b ▸ congrArg Char.ofNat h

theorem string_data_inj {a b : String} (h : a.data = b.data) : a = b := by
  cases a
  cases b
  exact congrArg String.mk h

theorem charsLtb_cons {a b : Char} {s t : List Char} :
    charsLtb (a :: s) (b :: t) = true ↔
      a.toNat < b.toNat ∨ (a.toNat = b.toNat ∧ charsLtb s t = true) := by
  simp [charsLtb]

theorem charsLtb_irrefl (l : List Char) : charsLtb l l = false := by
  induction l with
  | nil => rfl
  | cons a t ih => simp [charsLtb, ih, Nat.lt_irrefl]

theorem charsLtb_trans :
    ∀ {l1 l2 l3 : List Char}, charsLtb l1 l2 = true → charsLtb l2 l3 = true →
      charsLtb l1 l3 = true
  | [], b :: t, _ :: _, _, _ => rfl
  | a :: s, b :: t, c :: u, h1, h2 => by
    rw [charsLtb_cons] at h1 h2 ⊢
    rcases h1 with h1 | ⟨h1e, h1r⟩
    · rcases h2 with h2 | ⟨h2e, _⟩
      · exact Or.inl (Nat.lt_trans h1 h2)
      · exact Or.inl (h2e ▸ h1)
    · rcases h2 with h2 | ⟨h2e, h2r⟩
      · exact Or.inl (h1e ▸ h2)
      · exact Or.inr ⟨h1e.trans h2e, charsLtb_trans h1r h2r⟩

theorem charsLtb_eq_of_not :
    ∀ {l1 l2 : List Char}, charsLtb l1 l2 = false → charsLtb l2 l1 = false → l1 = l2
  | [], [], _, _ => rfl
  | [], _ :: _, h1, _ => by simp [charsLtb] at h1
  | _ :: _, [], _, h2 => by simp [charsLtb] at h2
  | a :: s, b :: t, h1, h2 => by
    have h1' := h1
    have h2' := h2
    simp only [charsLtb, Bool.or_eq_false_iff, Bool.and_eq_false_iff,
      decide_eq_false_iff_not] at h1' h2'
    rcases Nat.lt_trichotomy a.toNat b.toNat with hlt | heq | hgt
    · exact absurd hlt h1'.1
    · have hab : a = b := char_toNat_inj heq
      subst hab
      rcases h1'.2 with hbe | hst
      · simp at hbe
      · rcases h2'.2 with hbe | hts
        · simp at hbe
        · exact congrArg (a :: ·) (charsLtb_eq_of_not hst hts)
    · exact absurd hgt h2'.1

theorem strLtb_irrefl (a : String) : strLtb a a = false :=
  charsLtb_irrefl a.data

theorem strLtb_trans {a b c : String} (h1 : strLtb a b = true) (h2 : strLtb b c = true) :
    strLtb a c = true :=
  charsLtb_trans h1 h2

theorem strLtb_eq_of_not {a b : String} (h1 : strLtb a b = false)
    (h2 : strLtb b a = false) : a = b :=
  string_data_inj (charsLtb_eq_of_not h1 h2)

theorem strLtb_asymm {a b : String} (h : strLtb a b = true) : strLtb b a = false := by
  by_contra hc
  have := strLtb_trans h (Bool.of_not_eq_false hc)
  rw [strLtb_irrefl] at this
  exact Bool.false_ne_true this

theorem strLtb_ne {a b : String} (h : strLtb a b = true) : a ≠ b := by
  intro he
  subst he
  rw [strLtb_irrefl] at h
  exact Bool.false_ne_true h

section SortedAssocLemmas

variable {α : Type} {key : α → String} {comb : α → α → α}

theorem keySorted_nil : keySorted key ([] : List α) :=
  List.Pairwise.nil

theorem sortedKeys_iff {l : List α} : sortedKeys key l = true ↔ keySorted key l := by
  induction l with
  | nil => simp [sortedKeys, keySorted]
  | cons a t ih =>
    cases t with
    | nil => simp [sortedKeys, keySorted]
    | cons b u =>
      rw [keySorted, List.pairwise_cons]
      constructor
      · intro h
        have h1 : strLtb (key a) (key b) = true := by
          have := h
          simp only [sortedKeys, Bool.and_eq_true] at this
          exact this.1
        have h2 : sortedKeys key (b :: u) = true := by
          have := h
          simp only [sortedKeys, Bool.and_eq_true] at this
          exact this.2
        have hp := ih.mp h2
        refine ⟨?_, hp⟩
        intro x hx
        rcases List.mem_cons.mp hx with rfl | hxu
        · exact h1
        · have hbs : strLtb (key b) (key x) = true := by
            rw [keySorted, List.pairwise_cons] at hp
            exact hp.1 x hxu
          exact strLtb_trans h1 hbs
      · rintro ⟨hall, hp⟩
        have h2 := ih.mpr hp
        simp only [sortedKeys, Bool.and_eq_true]
        exact ⟨hall b (List.mem_cons_self b u), h2⟩

theorem keySorted_cons_iff {a : α} {t : List α} :
    keySorted key (a :: t) ↔
      (∀ x ∈ t, strLtb (key a) (key x) = true) ∧ keySorted key t := by
  rw [keySorted, List.pairwise_cons]
  rfl

theorem findK_cons {a : α} {t : List α} {k : String} :
    findK key (a :: t) k = if key a == k then some a else findK key t k := by
  simp only [findK, List.find?]
  cases h : key a == k <;> simp

theorem findK_eq_none {l : List α} {k : String}
    (h : ∀ x ∈ l, key x ≠ k) : findK key l k = none := by
  apply List.find?_eq_none.mpr
  intro x hx
  simp only [beq_iff_eq]
  exact h x hx

theorem findK_mem {l : List α} {k : String} {a : α}
    (h : findK key l k = some a) : a ∈ l :=
  List.mem_of_find?_eq_some h

theorem findK_key {l : List α} {k : String} {a : α}
    (h : findK key l k = some a) : key a = k := by
  have := List.find?_some h
  simpa using this

theorem mem_insWith_key (hk : ∀ a b, key (comb a b) = key a) (x : α) (l : List α) :
    ∀ y ∈ insWith key comb x l, key y = key x ∨ ∃ z ∈ l, key y = key z := by
  intro y hy
  induction l with
  | nil =>
    simp only [insWith, List.mem_singleton] at hy
    exact Or.inl (hy ▸ rfl)
  | cons a t ih =>
    simp only [insWith] at hy
    by_cases h1 : strLtb (key x) (key a) = true
    · rw [if_pos h1] at hy
      rcases List.mem_cons.mp hy with rfl | hy2
      · exact Or.inl rfl
      · rcases List.mem_cons.mp hy2 with rfl | hy3
        · exact Or.inr ⟨y, List.mem_cons_self _ _, rfl⟩
        · exact Or.inr ⟨y, List.mem_cons_of_mem _ hy3, rfl⟩
    · rw [if_neg h1] at hy
      by_cases h2 : strLtb (key a) (key x) = true
      · rw [if_pos h2] at hy
        rcases List.mem_cons.mp hy with rfl | hy2
        · exact Or.inr ⟨y, List.mem_cons_self _ _, rfl⟩
        · rcases ih hy2 with h | ⟨z, hz, he⟩
          · exact Or.inl h
          · exact Or.inr ⟨z, List.mem_cons_of_mem _ hz, he⟩
      · rw [if_neg h2] at hy
        rcases List.mem_cons.mp hy with rfl | hy2
        · exact Or.inr ⟨a, List.mem_cons_self _ _, hk a x⟩
        · exact Or.inr ⟨y, List.mem_cons_of_mem _ hy2, rfl⟩

theorem insWith_keySorted (hk : ∀ a b, key (comb a b) = key a) (x : α) {l : List α}
    (hs : keySorted key l) : keySorted key (insWith key comb x l) := by
  induction l with
  | nil =>
    simp only [insWith]
    exact List.pairwise_singleton _ _
  | cons a t ih =>
    rw [keySorted_cons_iff] at hs
    simp only [insWith]
    by_cases h1 : strLtb (key x) (key a) = true
    · rw [if_pos h1]
      rw [keySorted_cons_iff]
      refine ⟨?_, keySorted_cons_iff.mpr hs⟩
      intro z hz
      rcases List.mem_cons.mp hz with rfl | hz2
      · exact h1
      · exact strLtb_trans h1 (hs.1 z hz2)
    · rw [if_neg h1]
      by_cases h2 : strLtb (key a) (key x) = true
      · rw [if_pos h2]
        rw [keySorted_cons_iff]
        refine ⟨?_, ih hs.2⟩
        intro z hz
        rcases mem_insWith_key hk x t z hz with he | ⟨w, hw, he⟩
        · rw [he]
          exact h2
        · rw [he]
          exact hs.1 w hw
      · rw [if_neg h2]
        rw [keySorted_cons_iff]
        refine ⟨?_, hs.2⟩
        intro z hz
        rw [hk a x]
        exact hs.1 z hz

theorem findK_insWith_self (hk : ∀ a b, key (comb a b) = key a) (x : α) {l : List α}
    (hs : keySorted key l) :
    findK key (insWith key comb x l) (key x) =
      some (match findK key l (key x) with
            | some a => comb a x
            | none => x) := by
  induction l with
  | nil => simp [insWith, findK, List.find?]
  | cons a t ih =>
    rw [keySorted_cons_iff] at hs
    simp only [insWith]
    by_cases h1 : strLtb (key x) (key a) = true
    · rw [if_pos h1]
      have hne : key a ≠ key x := fun h => strLtb_ne h1 h.symm
      have hnone : findK key (a :: t) (key x) = none := by
        apply findK_eq_none
        intro z hz
        rcases List.mem_cons.mp hz with rfl | hz2
        · exact hne
        · exact fun h => strLtb_ne (strLtb_trans h1 (hs.1 z hz2)) h.symm
      rw [hnone]
      rw [findK_cons]
      simp
    · rw [if_neg h1]
      by_cases h2 : strLtb (key a) (key x) = true
      · rw [if_pos h2]
        have hne : key a ≠ key x := strLtb_ne h2
        rw [findK_cons, findK_cons]
        have hbe : (key a == key x) = false := beq_eq_false_iff_ne.mpr hne
        rw [hbe]
        simp only [Bool.false_eq_true, if_false]
        exact ih hs.2
      · rw [if_neg h2]
        have he : key a = key x := strLtb_eq_of_not (by simpa using h2) (by simpa using h1)
        rw [findK_cons, findK_cons]
        rw [beq_iff_eq.mpr (hk a x ▸ he), beq_iff_eq.mpr he]
        simp

theorem findK_insWith_ne (hk : ∀ a b, key (comb a b) = key a) (x : α) {l : List α}
    {k : String} (hne : k ≠ key x) :
    findK key (insWith key comb x l) k = findK key l k := by
  induction l with
  | nil =>
    simp only [insWith, findK, List.find?]
    rw [show (key x == k) = false from beq_eq_false_iff_ne.mpr fun h => hne h.symm]
  | cons a t ih =>
    simp only [insWith]
    by_cases h1 : strLtb (key x) (key a) = true
    · rw [if_pos h1]
      rw [findK_cons]
      rw [show (key x == k) = false from beq_eq_false_iff_ne.mpr fun h => hne h.symm]
      simp
    · rw [if_neg h1]
      by_cases h2 : strLtb (key a) (key x) = true
      · rw [if_pos h2]
        rw [findK_cons, findK_cons]
        cases hbe : key a == k
        · simp only [Bool.false_eq_true, if_false]
          exact ih
        · simp
      · rw [if_neg h2]
        have he : key a = key x := strLtb_eq_of_not (by simpa using h2) (by simpa using h1)
        rw [findK_cons, findK_cons]
        rw [show (key (comb a x) == k) = false from
          beq_eq_false_iff_ne.mpr (by rw [hk a x, he]; exact fun h => hne h.symm)]
        rw [show (key a == k) = false from
          beq_eq_false_iff_ne.mpr (by rw [he]; exact fun h => hne h.symm)]
        simp

theorem mergeS_nil (l : List α) : mergeS key comb l [] = l := rfl

theorem mergeS_cons (l1 : List α) (x : α) (t : List α) :
    mergeS key comb l1 (x :: t) = mergeS key comb (insWith key comb x l1) t := rfl

theorem mergeS_keySorted (hk : ∀ a b, key (comb a b) = key a) {l1 : List α}
    (l2 : List α) (hs : keySorted key l1) :
    keySorted key (mergeS key comb l1 l2) := by
  induction l2 generalizing l1 with
  | nil => exact hs
  | cons x t ih =>
    rw [mergeS_cons]
    exact ih (insWith_keySorted hk x hs)

theorem findK_mergeS (hk : ∀ a b, key (comb a b) = key a) {l1 l2 : List α}
    (hs1 : keySorted key l1) (hs2 : keySorted key l2) (k : String) :
    findK key (mergeS key comb l1 l2) k =
      combOpt comb (findK key l1 k) (findK key l2 k) := by
  induction l2 generalizing l1 with
  | nil =>
    rw [mergeS_nil]
    cases findK key l1 k <;> rfl
  | cons x t ih =>
    rw [keySorted_cons_iff] at hs2
    rw [mergeS_cons]
    rw [ih (insWith_keySorted hk x hs1) hs2.2]
    by_cases he : k = key x
    · subst he
      have htn : findK key t (key x) = none := by
        apply findK_eq_none
        intro z hz
        exact fun h => strLtb_ne (hs2.1 z hz) h.symm
      rw [htn, findK_insWith_self hk x hs1, findK_cons, beq_iff_eq.mpr rfl]
      simp only [if_true]
      cases findK key l1 (key x) <;> rfl
    · rw [findK_insWith_ne hk x he, findK_cons,
        beq_eq_false_iff_ne.mpr fun h => he h.symm]
      simp

theorem keySorted_ext {l1 l2 : List α} (hs1 : keySorted key l1) (hs2 : keySorted key l2)
    (h : ∀ k, findK key l1 k = findK key l2 k) : l1 = l2 := by
  induction l1 generalizing l2 with
  | nil =>
    cases l2 with
    | nil => rfl
    | cons b t2 =>
      have hb := h (key b)
      rw [findK_cons, beq_iff_eq.mpr rfl] at hb
      simp only [findK, List.find?_nil, if_true] at hb
      exact absurd hb (by simp)
  | cons a t1 ih =>
    cases l2 with
    | nil =>
      have ha := h (key a)
      rw [findK_cons, beq_iff_eq.mpr rfl] at ha
      simp only [findK, List.find?_nil, if_true] at ha
      exact absurd ha (by simp)
    | cons b t2 =>
      rw [keySorted_cons_iff] at hs1 hs2
      have hab : a = b := by
        have ha := h (key a)
        rw [findK_cons, beq_iff_eq.mpr rfl] at ha
        simp only [if_true] at ha
        rw [findK_cons] at ha
        by_cases he : key b = key a
        · rw [beq_iff_eq.mpr he] at ha
          simp only [if_true] at ha
          exact Option.some_inj.mp ha
        · rw [beq_eq_false_iff_ne.mpr he] at ha
          simp only [Bool.false_eq_true, if_false] at ha
          have hmem := findK_mem ha.symm
          have hba : strLtb (key b) (key a) = true := by
            have hz := hs2.1 a hmem
            rwa [findK_key ha.symm] at hz
          have hb := h (key b)
          rw [findK_cons] at hb
          rw [beq_eq_false_iff_ne.mpr fun hh => he hh.symm] at hb
          simp only [Bool.false_eq_true, if_false] at hb
          rw [findK_cons, beq_iff_eq.mpr rfl] at hb
          simp only [if_true] at hb
          have hmem2 := findK_mem hb
          have hab2 : strLtb (key a) (key b) = true := by
            have hz := hs1.1 b hmem2
            rwa [findK_key hb] at hz
          have hcontra := strLtb_trans hab2 hba
          rw [strLtb_irrefl] at hcontra
          exact absurd hcontra (by simp)
      subst hab
      congr 1
      apply ih hs1.2 hs2.2
      intro k
      by_cases he : key a = k
      · have h1 : findK key t1 k = none := by
          apply findK_eq_none
          intro z hz
          exact fun hzk => strLtb_ne (hs1.1 z hz) (hzk.trans he.symm).symm
        have h2 : findK key t2 k = none := by
          apply findK_eq_none
          intro z hz
          exact fun hzk => strLtb_ne (hs2.1 z hz) (hzk.trans he.symm).symm
        rw [h1, h2]
      · have hk := h k
        rw [findK_cons, findK_cons, beq_eq_false_iff_ne.mpr he] at hk
        simpa using hk

theorem mergeS_comm (hk : ∀ a b, key (comb a b) = key a) {l1 l2 : List α}
    (hs1 : keySorted key l1) (hs2 : keySorted key l2)
    (hcomm : ∀ a ∈ l1, ∀ b ∈ l2, key a = key b → comb a b = comb b a) :
    mergeS key comb l1 l2 = mergeS key comb l2 l1 := by
  apply keySorted_ext (mergeS_keySorted hk l2 hs1) (mergeS_keySorted hk l1 hs2)
  intro k
  rw [findK_mergeS hk hs1 hs2, findK_mergeS hk hs2 hs1]
  cases h1 : findK key l1 k with
  | none => cases h2 : findK key l2 k <;> rfl
  | some a =>
    cases h2 : findK key l2 k with
    | none => rfl
    | some b =>
      have := hcomm a (findK_mem h1) b (findK_mem h2)
        ((findK_key h1).trans (findK_key h2).symm)
      simp [combOpt, this]

theorem mergeS_assoc (hk : ∀ a b, key (comb a b) = key a) {l1 l2 l3 : List α}
    (hs1 : keySorted key l1) (hs2 : keySorted key l2) (hs3 : keySorted key l3)
    (hassoc : ∀ a ∈ l1, ∀ b ∈ l2, ∀ c ∈ l3,
      key a = key b → key b = key c → comb (comb a b) c = comb a (comb b c)) :
    mergeS key comb (mergeS key comb l1 l2) l3 =
      mergeS key comb l1 (mergeS key comb l2 l3) := by
  apply keySorted_ext (mergeS_keySorted hk l3 (mergeS_keySorted hk l2 hs1))
    (mergeS_keySorted hk (mergeS key comb l2 l3) hs1)
  intro k
  rw [findK_mergeS hk (mergeS_keySorted hk l2 hs1) hs3,
    findK_mergeS hk hs1 hs2,
    findK_mergeS hk hs1 (mergeS_keySorted hk l3 hs2),
    findK_mergeS hk hs2 hs3]
  cases h1 : findK key l1 k with
  | none => cases h2 : findK key l2 k <;> cases h3 : findK key l3 k <;> rfl
  | some a =>
    cases h2 : findK key l2 k with
    | none => cases h3 : findK key l3 k <;> rfl
    | some b =>
      cases h3 : findK key l3 k with
      | none => rfl
      | some c =>
        have := hassoc a (findK_mem h1) b (findK_mem h2) c (findK_mem h3)
          ((findK_key h1).trans (findK_key h2).symm)
          ((findK_key h2).trans (findK_key h3).symm)
        simp [combOpt, this]

end SortedAssocLemmas

theorem optComb_comm {f : ℚ → ℚ → ℚ} (hf : ∀ a b, f a b = f b a) :
    ∀ x y, optComb f x y = optComb f y x
  | none, none => rfl
  | none, some _ => rfl
  | some _, none => rfl
  | some a, some b => by simp [optComb, hf a b]

theorem optComb_assoc {f : ℚ → ℚ → ℚ} (hf : ∀ a b c, f (f a b) c = f a (f b c)) :
    ∀ x y z, optComb f (optComb f x y) z = optComb f x (optComb f y z)
  | none, none, none => rfl
  | none, none, some _ => rfl
  | none, some _, none => rfl
  | none, some _, some _ => rfl
  | some _, none, none => rfl
  | some _, none, some _ => rfl
  | some _, some _, none => rfl
  | some a, some b, some c => by simp [optComb, hf a b c]

theorem optComb_none_right {f : ℚ → ℚ → ℚ} : ∀ x, optComb f x none = x
  | none => rfl
  | some _ => rfl

theorem optComb_eq_none {f : ℚ → ℚ → ℚ} :
    ∀ {x y}, optComb f x y = none → x = none ∧ y = none
  | none, none, _ => ⟨rfl, rfl⟩

theorem boundaries_eq_nil {h : List (ℚ × ℚ × Nat)} (hb : boundaries h = []) : h = [] := by
  cases h with
  | nil => rfl
  | cons b t => simp [boundaries] at hb

theorem boundaries_zipAdd :
    ∀ {h1 h2 : List (ℚ × ℚ × Nat)}, boundaries h1 = boundaries h2 →
      boundaries (zipAdd h1 h2) = boundaries h1
  | [], [], _ => rfl
  | [], _ :: _, hb => by simp [boundaries] at hb
  | _ :: _, [], hb => by simp [boundaries] at hb
  | b1 :: t1, b2 :: t2, hb => by
    simp only [boundaries, List.map_cons, List.cons.injEq] at hb
    simp only [zipAdd, List.zipWith_cons_cons, boundaries, List.map_cons, List.cons.injEq]
    exact ⟨trivial, boundaries_zipAdd hb.2⟩

theorem histSum_zipAdd :
    ∀ {h1 h2 : List (ℚ × ℚ × Nat)}, boundaries h1 = boundaries h2 →
      histSum (zipAdd h1 h2) = histSum h1 + histSum h2
  | [], [], _ => rfl
  | [], _ :: _, hb => by simp [boundaries] at hb
  | _ :: _, [], hb => by simp [boundaries] at hb
  | b1 :: t1, b2 :: t2, hb => by
    simp only [boundaries, List.map_cons, List.cons.injEq] at hb
    simp only [zipAdd, List.zipWith_cons_cons, histSum, List.map_cons, List.sum_cons]
    have ih := histSum_zipAdd hb.2
    simp only [zipAdd, histSum] at ih
    rw [ih]
    omega

theorem zipAdd_comm :
    ∀ {h1 h2 : List (ℚ × ℚ × Nat)}, boundaries h1 = boundaries h2 →
      zipAdd h1 h2 = zipAdd h2 h1
  | [], [], _ => rfl
  | [], _ :: _, hb => by simp [boundaries] at hb
  | _ :: _, [], hb => by simp [boundaries] at hb
  | b1 :: t1, b2 :: t2, hb => by
    simp only [boundaries, List.map_cons, List.cons.injEq, Prod.mk.injEq] at hb
    simp only [zipAdd, List.zipWith_cons_cons, List.cons.injEq, Prod.mk.injEq]
    refine ⟨⟨hb.1.1, hb.1.2, Nat.add_comm _ _⟩, ?_⟩
    exact zipAdd_comm hb.2

theorem mergeHist_comm (h1 h2 : List (ℚ × ℚ × Nat)) (m M : Option ℚ) (n : Nat) :
    mergeHist h1 h2 m M n = mergeHist h2 h1 m M n := by
  unfold mergeHist
  by_cases hb : boundaries h1 = boundaries h2
  · rw [if_pos hb, if_pos hb.symm, zipAdd_comm hb]
  · rw [if_neg hb, if_neg (fun h => hb h.symm)]

theorem wfb_le {f : FeatureStatistics} (h : f.wfb = true) : f.missing_count ≤ f.count := by
  unfold FeatureStatistics.wfb at h
  rw [Bool.and_eq_true] at h
  exact of_decide_eq_true h.1

theorem wfb_numeric {f : FeatureStatistics} (h : f.wfb = true) (hk : f.kind = .NUMERIC) :
    f.freq = [] ∧ histSum f.histogram = f.present ∧ histShapeOk f = true := by
  unfold FeatureStatistics.wfb at h
  rw [hk] at h
  simp only [Bool.and_eq_true, beq_iff_eq, List.isEmpty_iff] at h
  exact ⟨h.2.1.1, h.2.1.2, h.2.2⟩

theorem wfb_categorical {f : FeatureStatistics} (h : f.wfb = true)
    (hk : kindIsCategorical f.kind = true) :
    f.histogram = [] ∧ f.min = none ∧ f.max = none ∧ freqSum f.freq = f.present ∧
      sortedKeys Prod.fst f.freq = true := by
  unfold FeatureStatistics.wfb at h
  cases hkk : f.kind with
  | NUMERIC => rw [hkk] at hk; simp [kindIsCategorical] at hk
  | CATEGORICAL_STRING =>
    rw [hkk] at h
    simp only [Bool.and_eq_true, beq_iff_eq, List.isEmpty_iff, Option.isNone_iff_eq_none] at h
    exact ⟨h.2.1.1.1.1, h.2.1.1.1.2, h.2.1.1.2, h.2.1.2, h.2.2⟩
  | CATEGORICAL_INT =>
    rw [hkk] at h
    simp only [Bool.and_eq_true, beq_iff_eq, List.isEmpty_iff, Option.isNone_iff_eq_none] at h
    exact ⟨h.2.1.1.1.1, h.2.1.1.1.2, h.2.1.1.2, h.2.1.2, h.2.2⟩

theorem histShape_nil {f : FeatureStatistics} (h : histShapeOk f = true)
    (he : f.histogram = []) : f.min = none ∧ f.max = none ∧ f.present = 0 := by
  unfold histShapeOk at h
  rw [he] at h
  simp only [List.head?_nil, List.getLast?_nil] at h
  cases hm : f.min with
  | some m => rw [hm] at h; cases f.max <;> simp at h
  | none =>
    rw [hm] at h
    cases hM : f.max with
    | some M => rw [hM] at h; simp at h
    | none =>
      rw [hM] at h
      simp only [Nat.beq_eq_true_eq] at h
      exact ⟨rfl, rfl, by simpa using h⟩

theorem histShape_cons {f : FeatureStatistics} (h : histShapeOk f = true)
    {b : ℚ × ℚ × Nat} {t : List (ℚ × ℚ × Nat)} (he : f.histogram = b :: t) :
    ∃ m M c, f.min = some m ∧ f.max = some M ∧ b.1 = m ∧
      (b :: t).getLast? = some c ∧ c.2.1 = M ∧ f.present ≠ 0 := by
  unfold histShapeOk at h
  rw [he] at h
  simp only [List.head?_cons] at h
  cases hl : (b :: t).getLast? with
  | none => simp [List.getLast?_eq_getLast] at hl
  | some c =>
    rw [hl] at h
    cases hm : f.min with
    | none => rw [hm] at h; cases f.max <;> simp at h
    | some m =>
      rw [hm] at h
      cases hM : f.max with
      | none => rw [hM] at h; simp at h
      | some M =>
        rw [hM] at h
        simp only [Bool.and_eq_true, decide_eq_true_eq] at h
        exact ⟨m, M, c, rfl, rfl, h.1.1, rfl, h.1.2, h.2⟩

theorem freqAdd_key : ∀ a b : String × Nat, ((a.1, a.2 + b.2) : String × Nat).1 = a.1 :=
  fun _ _ => rfl

theorem freqSum_insWith (x : String × Nat) (l : List (String × Nat)) :
    freqSum (insWith Prod.fst (fun a b => (a.1, a.2 + b.2)) x l) = freqSum l + x.2 := by
  induction l with
  | nil => simp [insWith, freqSum]
  | cons a t ih =>
    simp only [insWith]
    by_cases h1 : strLtb x.1 a.1 = true
    · rw [if_pos h1]
      simp only [freqSum, List.map_cons, List.sum_cons]
      omega
    · rw [if_neg h1]
      by_cases h2 : strLtb a.1 x.1 = true
      · rw [if_pos h2]
        simp only [freqSum, List.map_cons, List.sum_cons] at ih ⊢
        omega
      · rw [if_neg h2]
        simp only [freqSum, List.map_cons, List.sum_cons]
        omega

theorem freqSum_mergeFreq (l1 l2 : List (String × Nat)) :
    freqSum (mergeFreq l1 l2) = freqSum l1 + freqSum l2 := by
  unfold mergeFreq
  induction l2 generalizing l1 with
  | nil => rw [mergeS_nil]; simp [freqSum]
  | cons x t ih =>
    rw [mergeS_cons, ih, freqSum_insWith]
    simp only [freqSum, List.map_cons, List.sum_cons]
    omega

theorem present_mergeFeature {f1 f2 : FeatureStatistics}
    (h1 : f1.missing_count ≤ f1.count) (h2 : f2.missing_count ≤ f2.count) :
    (mergeFeature f1 f2).present = f1.present + f2.present := by
  simp only [mergeFeature, FeatureStatistics.present]
  omega

theorem mergeFreq_keySorted {l1 : List (String × Nat)} (l2 : List (String × Nat))
    (hs : keySorted Prod.fst l1) : keySorted Prod.fst (mergeFreq l1 l2) :=
  mergeS_keySorted freqAdd_key l2 hs

theorem mergeFeature_comm {f1 f2 : FeatureStatistics} (hname : f1.name = f2.name)
    (hkind : f1.kind = f2.kind) (hs1 : keySorted Prod.fst f1.freq)
    (hs2 : keySorted Prod.fst f2.freq) :
    mergeFeature f1 f2 = mergeFeature f2 f1 := by
  have hfr : mergeFreq f1.freq f2.freq = mergeFreq f2.freq f1.freq := by
    unfold mergeFreq
    apply mergeS_comm freqAdd_key hs1 hs2
    intro a _ b _ hab
    simp only [Prod.mk.injEq]
    exact ⟨hab, Nat.add_comm _ _⟩
  have hmin : optComb min f1.min f2.min = optComb min f2.min f1.min :=
    optComb_comm min_comm f1.min f2.min
  have hmax : optComb max f1.max f2.max = optComb max f2.max f1.max :=
    optComb_comm max_comm f1.max f2.max
  simp only [mergeFeature, FeatureStatistics.mk.injEq]
  refine ⟨hname, hkind, Nat.add_comm _ _, Nat.add_comm _ _, add_comm _ _, add_comm _ _,
    hmin, hmax, ?_, hfr⟩
  rw [hmin, hmax, Nat.add_comm f1.present f2.present]
  exact mergeHist_comm f1.histogram f2.histogram _ _ _

theorem histShapeOk_nil_intro {f : FeatureStatistics} (hh : f.histogram = [])
    (hm : f.min = none) (hM : f.max = none) (hp : f.present = 0) :
    histShapeOk f = true := by
  unfold histShapeOk
  rw [hh, hm, hM]
  simp [hp]

theorem histShapeOk_cons_intro {f : FeatureStatistics} {b c : ℚ × ℚ × Nat}
    {t : List (ℚ × ℚ × Nat)} {m M : ℚ} (hh : f.histogram = b :: t) (hm : f.min = some m)
    (hM : f.max = some M) (hb1 : b.1 = m) (hl : (b :: t).getLast? = some c)
    (hc : c.2.1 = M) (hp : f.present ≠ 0) : histShapeOk f = true := by
  unfold histShapeOk
  rw [hh, hm, hM]
  simp only [List.head?_cons, hl]
  simp [hb1, hc, hp]

theorem hist_nil_of_min_none {f : FeatureStatistics} (h : histShapeOk f = true)
    (hm : f.min = none) : f.histogram = [] := by
  cases hh : f.histogram with
  | nil => rfl
  | cons b t =>
    obtain ⟨m, _, _, hm', _⟩ := histShape_cons h hh
    rw [hm] at hm'
    exact absurd hm' (by simp)

theorem boundaries_cons_cons {b1 : ℚ × ℚ × Nat} {t1 h2 : List (ℚ × ℚ × Nat)}
    (hb : boundaries (b1 :: t1) = boundaries h2) :
    ∃ b2 t2, h2 = b2 :: t2 ∧ b1.1 = b2.1 ∧ b1.2.1 = b2.2.1 := by
  cases h2 with
  | nil => simp [boundaries] at hb
  | cons b2 t2 =>
    simp only [boundaries, List.map_cons, List.cons.injEq, Prod.mk.injEq] at hb
    exact ⟨b2, t2, rfl, hb.1.1, hb.1.2⟩

theorem getLast_upper_zipAdd {h1 h2 : List (ℚ × ℚ × Nat)} {c1 : ℚ × ℚ × Nat}
    (hb : boundaries h1 = boundaries h2) (hl : h1.getLast? = some c1) :
    ∃ cz, (zipAdd h1 h2).getLast? = some cz ∧ cz.2.1 = c1.2.1 := by
  have hz := boundaries_zipAdd hb
  have e1 : (boundaries (zipAdd h1 h2)).getLast? = (boundaries h1).getLast? := by rw [hz]
  unfold boundaries at e1
  rw [List.getLast?_map, List.getLast?_map, hl] at e1
  cases hcz : (zipAdd h1 h2).getLast? with
  | none => rw [hcz] at e1; exact absurd e1 (by simp)
  | some cz =>
    rw [hcz] at e1
    have e2 : cz.1 = c1.1 ∧ cz.2.1 = c1.2.1 := by simpa using e1
    exact ⟨cz, rfl, e2.2⟩

theorem wfb_intro_numeric {f : FeatureStatistics} (hk : f.kind = .NUMERIC)
    (hle : f.missing_count ≤ f.count) (hfr : f.freq = [])
    (hsum : histSum f.histogram = f.present) (hsh : histShapeOk f = true) :
    f.wfb = true := by
  unfold FeatureStatistics.wfb
  rw [hk]
  simp [hle, hfr, hsum, hsh]

theorem wfb_intro_categorical {f : FeatureStatistics}
    (hk : kindIsCategorical f.kind = true) (hle : f.missing_count ≤ f.count)
    (hh : f.histogram = []) (hm : f.min = none) (hM : f.max = none)
    (hfs : freqSum f.freq = f.present) (hso : sortedKeys Prod.fst f.freq = true) :
    f.wfb = true := by
  unfold FeatureStatistics.wfb
  cases hkk : f.kind with
  | NUMERIC => rw [hkk] at hk; simp [kindIsCategorical] at hk
  | CATEGORICAL_STRING => simp [hle, hh, hm, hM, hfs, hso]
  | CATEGORICAL_INT => simp [hle, hh, hm, hM, hfs, hso]

theorem min_some_of_hist_cons {f : FeatureStatistics} (hsh : histShapeOk f = true)
    {b : ℚ × ℚ × Nat} {t : List (ℚ × ℚ × Nat)} (hh : f.histogram = b :: t) :
    ∃ m M, f.min = some m ∧ f.max = some M := by
  obtain ⟨m, M, c, hm, hM, _⟩ := histShape_cons hsh hh
  exact ⟨m, M, hm, hM⟩

theorem mergeFeature_wfb {f1 f2 : FeatureStatistics} (h1 : f1.wfb = true)
    (h2 : f2.wfb = true) (hkind : f1.kind = f2.kind) :
    (mergeFeature f1 f2).wfb = true := by
  have hle1 := wfb_le h1
  have hle2 := wfb_le h2
  set g := mergeFeature f1 f2 with hg
  have hkg : g.kind = f1.kind := rfl
  have hcg : g.count = f1.count + f2.count := rfl
  have hmg : g.missing_count = f1.missing_count + f2.missing_count := rfl
  have hming : g.min = optComb min f1.min f2.min := rfl
  have hmaxg : g.max = optComb max f1.max f2.max := rfl
  have hhg : g.histogram = mergeHist f1.histogram f2.histogram
      (optComb min f1.min f2.min) (optComb max f1.max f2.max)
      (f1.present + f2.present) := rfl
  have hfg : g.freq = mergeFreq f1.freq f2.freq := rfl
  have hle : g.missing_count ≤ g.count := by
    rw [hcg, hmg]
    omega
  have hpres : g.present = f1.present + f2.present := by
    rw [FeatureStatistics.present, hcg, hmg, FeatureStatistics.present,
      FeatureStatistics.present]
    omega
  cases hk1 : f1.kind with
  | NUMERIC =>
    have hn1 := wfb_numeric h1 hk1
    have hn2 := wfb_numeric h2 (hkind.symm.trans hk1)
    apply wfb_intro_numeric (hkg.trans hk1) hle
    · rw [hfg, hn1.1, hn2.1]
      rfl
    · by_cases hb : boundaries f1.histogram = boundaries f2.histogram
      · have hzip : g.histogram = zipAdd f1.histogram f2.histogram := by
          rw [hhg]
          unfold mergeHist
          rw [if_pos hb]
        rw [hzip, histSum_zipAdd hb, hn1.2.1, hn2.2.1, hpres]
      · have hmm : ∃ a b, optComb min f1.min f2.min = some a ∧
            optComb max f1.max f2.max = some b := by
          rcases hh1 : f1.histogram with _ | ⟨b1, t1⟩
          · rcases hh2 : f2.histogram with _ | ⟨b2, t2⟩
            · exact absurd (by rw [hh1, hh2]) hb
            · have hs1 := histShape_nil hn1.2.2 hh1
              obtain ⟨m2, M2, hm2, hM2⟩ := min_some_of_hist_cons hn2.2.2 hh2
              exact ⟨m2, M2, by simp [optComb, hs1.1, hm2], by simp [optComb, hs1.2.1, hM2]⟩
          · obtain ⟨m1, M1, hm1, hM1⟩ := min_some_of_hist_cons hn1.2.2 hh1
            rcases hm2 : f2.min with _ | m2
            · rcases hM2 : f2.max with _ | M2
              · exact ⟨m1, M1, by simp [optComb, hm1, hm2], by simp [optComb, hM1, hM2]⟩
              · exact ⟨m1, max M1 M2,
                  by simp [optComb, hm1, hm2], by simp [optComb, hM1, hM2]⟩
            · rcases hM2 : f2.max with _ | M2
              · exact ⟨min m1 m2, M1,
                  by simp [optComb, hm1, hm2], by simp [optComb, hM1, hM2]⟩
              · exact ⟨min m1 m2, max M1 M2,
                  by simp [optComb, hm1, hm2], by simp [optComb, hM1, hM2]⟩
        obtain ⟨a, b, hma, hMb⟩ := hmm
        have hbucket : g.histogram = [(a, b, f1.present + f2.present)] := by
          rw [hhg]
          unfold mergeHist
          rw [if_neg hb, hma, hMb]
        rw [hbucket, hpres]
        simp [histSum]
    · by_cases hb : boundaries f1.histogram = boundaries f2.histogram
      · have hzip : g.histogram = zipAdd f1.histogram f2.histogram := by
          rw [hhg]
          unfold mergeHist
          rw [if_pos hb]
        rcases hh1 : f1.histogram with _ | ⟨b1, t1⟩
        · have hh2 : f2.histogram = [] := by
            apply boundaries_eq_nil
            rw [← hb, hh1]
            rfl
          have hs1 := histShape_nil hn1.2.2 hh1
          have hs2 := histShape_nil hn2.2.2 hh2
          apply histShapeOk_nil_intro
          · rw [hzip, hh1, hh2]
            rfl
          · rw [hming]
            simp [optComb, hs1.1, hs2.1]
          · rw [hmaxg]
            simp [optComb, hs1.2.1, hs2.2.1]
          · rw [hpres, hs1.2.2, hs2.2.2]
        · obtain ⟨m1, M1, c1, hm1, hM1, hb1, hl1, hc1, hp1⟩ := histShape_cons hn1.2.2 hh1
          have hb' : boundaries (b1 :: t1) = boundaries f2.histogram := by
            rw [← hh1]
            exact hb
          obtain ⟨b2, t2, hh2, hbb1, _⟩ := boundaries_cons_cons hb'
          obtain ⟨m2, M2, c2, hm2, hM2, hb2, hl2, hc2, _⟩ := histShape_cons hn2.2.2 hh2
          have hm12 : m1 = m2 := by
            rw [← hb1, ← hb2, hbb1]
          have hM12 : M1 = M2 := by
            have e1 : (boundaries f1.histogram).getLast? =
                (boundaries f2.histogram).getLast? := by
              rw [hb]
            unfold boundaries at e1
            rw [List.getLast?_map, List.getLast?_map, hh1, hh2, hl1, hl2] at e1
            have e2 : c1.1 = c2.1 ∧ c1.2.1 = c2.2.1 := by simpa using e1
            rw [← hc1, ← hc2, e2.2]
          have hl1' : f1.histogram.getLast? = some c1 := by
            rw [hh1]
            exact hl1
          obtain ⟨cz, hcz, hczc⟩ := getLast_upper_zipAdd hb hl1'
          have hzipcons : zipAdd f1.histogram f2.histogram =
              (b1.1, b1.2.1, b1.2.2 + b2.2.2) :: zipAdd t1 t2 := by
            rw [hh1, hh2]
            rfl
          have hhh : g.histogram = (b1.1, b1.2.1, b1.2.2 + b2.2.2) :: zipAdd t1 t2 :=
            hzip.trans hzipcons
          have hmin2 : g.min = some m1 := by
            rw [hming, hm1, hm2, ← hm12]
            simp [optComb, min_self]
          have hmax2 : g.max = some M1 := by
            rw [hmaxg, hM1, hM2, ← hM12]
            simp [optComb, max_self]
          have hlast2 : ((b1.1, b1.2.1, b1.2.2 + b2.2.2) :: zipAdd t1 t2).getLast? =
              some cz := by
            rw [← hzipcons]
            exact hcz
          have hpne2 : g.present ≠ 0 := by
            rw [hpres]
            omega
          exact histShapeOk_cons_intro hhh hmin2 hmax2 hb1 hlast2 (hczc.trans hc1) hpne2
      · have hmm : ∃ a b, optComb min f1.min f2.min = some a ∧
            optComb max f1.max f2.max = some b := by
          rcases hh1 : f1.histogram with _ | ⟨b1, t1⟩
          · rcases hh2 : f2.histogram with _ | ⟨b2, t2⟩
            · exact absurd (by rw [hh1, hh2]) hb
            · have hs1 := histShape_nil hn1.2.2 hh1
              obtain ⟨m2, M2, hm2, hM2⟩ := min_some_of_hist_cons hn2.2.2 hh2
              exact ⟨m2, M2, by simp [optComb, hs1.1, hm2], by simp [optComb, hs1.2.1, hM2]⟩
          · obtain ⟨m1, M1, hm1, hM1⟩ := min_some_of_hist_cons hn1.2.2 hh1
            rcases hm2 : f2.min with _ | m2
            · rcases hM2 : f2.max with _ | M2
              · exact ⟨m1, M1, by simp [optComb, hm1, hm2], by simp [optComb, hM1, hM2]⟩
              · exact ⟨m1, max M1 M2,
                  by simp [optComb, hm1, hm2], by simp [optComb, hM1, hM2]⟩
            · rcases hM2 : f2.max with _ | M2
              · exact ⟨min m1 m2, M1,
                  by simp [optComb, hm1, hm2], by simp [optComb, hM1, hM2]⟩
              · exact ⟨min m1 m2, max M1 M2,
                  by simp [optComb, hm1, hm2], by simp [optComb, hM1, hM2]⟩
        obtain ⟨a, b, hma, hMb⟩ := hmm
        have hbucket : g.histogram = [(a, b, f1.present + f2.present)] := by
          rw [hhg]
          unfold mergeHist
          rw [if_neg hb, hma, hMb]
        have hpne : f1.present + f2.present ≠ 0 := by
          rcases hh1 : f1.histogram with _ | ⟨b1, t1⟩
          · rcases hh2 : f2.histogram with _ | ⟨b2, t2⟩
            · exact absurd (by rw [hh1, hh2]) hb
            · obtain ⟨_, _, _, _, _, _, _, _, hp2⟩ := histShape_cons hn2.2.2 hh2
              omega
          · obtain ⟨_, _, _, _, _, _, _, _, hp1⟩ := histShape_cons hn1.2.2 hh1
            omega
        have hpne2 : g.present ≠ 0 := by
          rw [hpres]
          exact hpne
        exact histShapeOk_cons_intro hbucket (hming.trans hma) (hmaxg.trans hMb)
          rfl rfl rfl hpne2
  | CATEGORICAL_STRING =>
    have hc1 := wfb_categorical h1 (by rw [hk1]; rfl)
    have hc2 := wfb_categorical h2 (by rw [← hkind, hk1]; rfl)
    apply wfb_intro_categorical (show kindIsCategorical g.kind = true by rw [hkg, hk1]; rfl) hle
    · rw [hhg, hc1.1, hc2.1]
      unfold mergeHist
      rw [if_pos rfl]
      rfl
    · rw [hming, hc1.2.1, hc2.2.1]
      rfl
    · rw [hmaxg, hc1.2.2.1, hc2.2.2.1]
      rfl
    · rw [hfg, freqSum_mergeFreq, hc1.2.2.2.1, hc2.2.2.2.1, hpres]
    · rw [hfg, sortedKeys_iff]
      exact mergeFreq_keySorted f2.freq (sortedKeys_iff.mp hc1.2.2.2.2)
  | CATEGORICAL_INT =>
    have hc1 := wfb_categorical h1 (by rw [hk1]; rfl)
    have hc2 := wfb_categorical h2 (by rw [← hkind, hk1]; rfl)
    apply wfb_intro_categorical (show kindIsCategorical g.kind = true by rw [hkg, hk1]; rfl) hle
    · rw [hhg, hc1.1, hc2.1]
      unfold mergeHist
      rw [if_pos rfl]
      rfl
    · rw [hming, hc1.2.1, hc2.2.1]
      rfl
    · rw [hmaxg, hc1.2.2.1, hc2.2.2.1]
      rfl
    · rw [hfg, freqSum_mergeFreq, hc1.2.2.2.1, hc2.2.2.2.1, hpres]
    · rw [hfg, sortedKeys_iff]
      exact mergeFreq_keySorted f2.freq (sortedKeys_iff.mp hc1.2.2.2.2)

theorem qmin_absorb (x y : ℚ) : min x (min x y) = min x y := by
  rw [← min_assoc, min_self]

theorem qmin_absorb2 (x y : ℚ) : min y (min x y) = min x y := by
  rw [min_left_comm, min_self]

theorem qmax_absorb (x y : ℚ) : max x (max x y) = max x y := by
  rw [← max_assoc, max_self]

theorem qmax_absorb2 (x y : ℚ) : max y (max x y) = max x y := by
  rw [max_left_comm, max_self]

theorem wfb_numeric_histOk {f : FeatureStatistics} (h : f.wfb = true)
    (hk : f.kind = .NUMERIC) : histOk f.histogram f.min f.max f.present := by
  have hn := wfb_numeric h hk
  refine ⟨hn.2.1, fun hh => ?_, fun b t hh => ?_⟩
  · have := histShape_nil hn.2.2 hh
    exact this
  · obtain ⟨m, M, c, hm, hM, hb1, hl, hc, hp⟩ := histShape_cons hn.2.2 hh
    exact ⟨c, by rw [hm, hb1], by rw [hM, hc], hl, hp⟩

theorem histOk_singleton {h : List (ℚ × ℚ × Nat)} {m M : Option ℚ} {P : Nat} {x y : ℚ}
    (o : histOk h m M P) (hb : boundaries h = [(x, y)]) :
    ∃ c, h = [c] ∧ c.1 = x ∧ c.2.1 = y ∧ c.2.2 = P ∧ m = some x ∧ M = some y := by
  cases h with
  | nil => simp [boundaries] at hb
  | cons b t =>
    have hbt : t = [] ∧ b.1 = x ∧ b.2.1 = y := by
      simp only [boundaries, List.map_cons, List.cons.injEq, Prod.mk.injEq] at hb
      refine ⟨?_, hb.1.1, hb.1.2⟩
      have := hb.2
      cases t with
      | nil => rfl
      | cons c u => simp at this
    obtain ⟨ht, hbx, hby⟩ := hbt
    subst ht
    obtain ⟨c, hm, hM, hl, _⟩ := o.2.2 b [] rfl
    have hcb : c = b := by
      simp only [List.getLast?_singleton, Option.some_inj] at hl
      exact hl.symm
    subst hcb
    have hsum : c.2.2 = P := by
      have := o.1
      simpa [histSum] using this
    exact ⟨c, rfl, hbx, hby, hsum, by rw [hm, hbx], by rw [hM, hby]⟩

theorem histOk_nil_of_min_none {h : List (ℚ × ℚ × Nat)} {m M : Option ℚ} {P : Nat}
    (o : histOk h m M P) (hm : m = none) : h = [] := by
  cases hh : h with
  | nil => rfl
  | cons b t =>
    obtain ⟨c, hm', _⟩ := o.2.2 b t hh
    rw [hm] at hm'
    exact absurd hm' (by simp)

theorem mismatch_some {h1 h2 : List (ℚ × ℚ × Nat)} {m1 M1 m2 M2 : Option ℚ}
    {P1 P2 : Nat} (o1 : histOk h1 m1 M1 P1) (o2 : histOk h2 m2 M2 P2)
    (hb : boundaries h1 ≠ boundaries h2) :
    ∃ a b, optComb min m1 m2 = some a ∧ optComb max M1 M2 = some b := by
  cases hh1 : h1 with
  | nil =>
    cases hh2 : h2 with
    | nil => exact absurd (by rw [hh1, hh2]) hb
    | cons b2 t2 =>
      have hn1 := o1.2.1 hh1
      obtain ⟨c, hm2, hM2, _⟩ := o2.2.2 b2 t2 hh2
      exact ⟨b2.1, c.2.1, by rw [hn1.1, hm2]; rfl, by rw [hn1.2.1, hM2]; rfl⟩
  | cons b1 t1 =>
    obtain ⟨c1, hm1, hM1, _⟩ := o1.2.2 b1 t1 hh1
    cases hh2 : h2 with
    | nil =>
      have hn2 := o2.2.1 hh2
      exact ⟨b1.1, c1.2.1, by rw [hm1, hn2.1]; rfl, by rw [hM1, hn2.2.1]; rfl⟩
    | cons b2 t2 =>
      obtain ⟨c2, hm2, hM2, _⟩ := o2.2.2 b2 t2 hh2
      exact ⟨min b1.1 b2.1, max c1.2.1 c2.2.1,
        by rw [hm1, hm2]; rfl, by rw [hM1, hM2]; rfl⟩

theorem zipAdd_assoc :
    ∀ {h1 h2 h3 : List (ℚ × ℚ × Nat)}, boundaries h1 = boundaries h2 →
      boundaries h2 = boundaries h3 →
      zipAdd (zipAdd h1 h2) h3 = zipAdd h1 (zipAdd h2 h3)
  | [], [], [], _, _ => rfl
  | [], _ :: _, _, hb, _ => by simp [boundaries] at hb
  | _ :: _, [], _, hb, _ => by simp [boundaries] at hb
  | _ :: _, _ :: _, [], _, hb => by simp [boundaries] at hb
  | b1 :: t1, b2 :: t2, b3 :: t3, hb12, hb23 => by
    simp only [boundaries, List.map_cons, List.cons.injEq, Prod.mk.injEq] at hb12 hb23
    simp only [zipAdd, List.zipWith_cons_cons, List.cons.injEq, Prod.mk.injEq]
    refine ⟨⟨trivial, trivial, Nat.add_assoc _ _ _⟩, ?_⟩
    exact zipAdd_assoc hb12.2 hb23.2

theorem mergeHist_eq_zip {h1 h2 : List (ℚ × ℚ × Nat)} {m M : Option ℚ} {n : Nat}
    (hb : boundaries h1 = boundaries h2) :
    mergeHist h1 h2 m M n = zipAdd h1 h2 := by
  unfold mergeHist
  rw [if_pos hb]

theorem mergeHist_eq_match {h1 h2 : List (ℚ × ℚ × Nat)} {m M : Option ℚ} {n : Nat}
    (hb : boundaries h1 ≠ boundaries h2) :
    mergeHist h1 h2 m M n =
      (match m, M with
       | some a, some b => [(a, b, n)]
       | _, _ => []) := by
  unfold mergeHist
  rw [if_neg hb]

theorem mergeHist_eq_bucket {h1 h2 : List (ℚ × ℚ × Nat)} {m M : Option ℚ} {n : Nat}
    {a b : ℚ} (hb : boundaries h1 ≠ boundaries h2) (hm : m = some a)
    (hM : M = some b) : mergeHist h1 h2 m M n = [(a, b, n)] := by
  rw [mergeHist_eq_match hb, hm, hM]

theorem optComb_some_self {f : ℚ → ℚ → ℚ} (hidem : ∀ a, f a a = a) (a : ℚ) :
    optComb f (some a) (some a) = some a := by
  simp [optComb, hidem a]

theorem comb_absorb {f : ℚ → ℚ → ℚ} (hassoc : ∀ a b c, f (f a b) c = f a (f b c))
    (hidem : ∀ a, f a a = a) {x y : Option ℚ} {a : ℚ} (h : optComb f x y = some a) :
    optComb f x (optComb f y (some a)) = some a := by
  rw [← optComb_assoc hassoc, h]
  exact optComb_some_self hidem a

theorem mergeHist_assoc {h1 h2 h3 : List (ℚ × ℚ × Nat)} {m1 M1 m2 M2 m3 M3 : Option ℚ}
    {P1 P2 P3 : Nat} (o1 : histOk h1 m1 M1 P1) (o2 : histOk h2 m2 M2 P2)
    (o3 : histOk h3 m3 M3 P3) :
    mergeHist (mergeHist h1 h2 (optComb min m1 m2) (optComb max M1 M2) (P1 + P2)) h3
        (optComb min (optComb min m1 m2) m3) (optComb max (optComb max M1 M2) M3)
        (P1 + P2 + P3) =
      mergeHist h1 (mergeHist h2 h3 (optComb min m2 m3) (optComb max M2 M3) (P2 + P3))
        (optComb min m1 (optComb min m2 m3)) (optComb max M1 (optComb max M2 M3))
        (P1 + (P2 + P3)) := by
  have hma : ∀ a b c : ℚ, min (min a b) c = min a (min b c) := fun a b c => by
    rw [min_assoc]
  have hMa : ∀ a b c : ℚ, max (max a b) c = max a (max b c) := fun a b c => by
    rw [max_assoc]
  have hmi : ∀ a : ℚ, min a a = a := fun a => min_self a
  have hMi : ∀ a : ℚ, max a a = a := fun a => max_self a
  rw [optComb_assoc hma m1 m2 m3, optComb_assoc hMa M1 M2 M3, Nat.add_assoc P1 P2 P3]
  by_cases hb12 : boundaries h1 = boundaries h2
  · by_cases hb23 : boundaries h2 = boundaries h3
    · rw [mergeHist_eq_zip hb12, mergeHist_eq_zip hb23,
        mergeHist_eq_zip (show boundaries (zipAdd h1 h2) = boundaries h3 by
          rw [boundaries_zipAdd hb12]; exact hb12.trans hb23),
        mergeHist_eq_zip (show boundaries h1 = boundaries (zipAdd h2 h3) by
          rw [boundaries_zipAdd hb23]; exact hb12)]
      exact zipAdd_assoc hb12 hb23
    · obtain ⟨a23, b23, ha23, hA23⟩ := mismatch_some o2 o3 hb23
      rw [mergeHist_eq_zip hb12,
        mergeHist_eq_match (show boundaries (zipAdd h1 h2) ≠ boundaries h3 by
          rw [boundaries_zipAdd hb12, hb12]; exact hb23),
        mergeHist_eq_bucket hb23 ha23 hA23]
      by_cases hB1 : boundaries h1 = [(a23, b23)]
      · obtain ⟨c1, he1, hc1x, hc1y, hc1P, hm1, hM1⟩ := histOk_singleton o1 hB1
        rw [mergeHist_eq_zip (show boundaries h1 = boundaries [(a23, b23, P2 + P3)] by
          rw [hB1]; rfl)]
        have hvmin : optComb min m1 (optComb min m2 m3) = some a23 := by
          rw [hm1, ha23]
          exact optComb_some_self hmi a23
        have hvmax : optComb max M1 (optComb max M2 M3) = some b23 := by
          rw [hM1, hA23]
          exact optComb_some_self hMi b23
        rw [hvmin, hvmax, he1]
        simp only [zipAdd, List.zipWith_cons_cons, List.zipWith_nil_right,
          List.zipWith_nil_left]
        rw [hc1x, hc1y, hc1P]
      · rw [mergeHist_eq_match (show boundaries h1 ≠ boundaries [(a23, b23, P2 + P3)]
          from hB1)]
  · obtain ⟨a12, b12, ha12, hA12⟩ := mismatch_some o1 o2 hb12
    by_cases hb23 : boundaries h2 = boundaries h3
    · rw [mergeHist_eq_bucket hb12 ha12 hA12, mergeHist_eq_zip hb23,
        mergeHist_eq_match (show boundaries h1 ≠ boundaries (zipAdd h2 h3) by
          rw [boundaries_zipAdd hb23]; exact hb12)]
      by_cases hB3 : boundaries h3 = [(a12, b12)]
      · obtain ⟨c3, he3, hc3x, hc3y, hc3P, hm3, hM3⟩ := histOk_singleton o3 hB3
        rw [mergeHist_eq_zip (show boundaries [(a12, b12, P1 + P2)] = boundaries h3 by
          rw [hB3]; rfl)]
        have hvmin : optComb min m1 (optComb min m2 m3) = some a12 := by
          rw [hm3]
          exact comb_absorb hma hmi ha12
        have hvmax : optComb max M1 (optComb max M2 M3) = some b12 := by
          rw [hM3]
          exact comb_absorb hMa hMi hA12
        rw [hvmin, hvmax, he3]
        simp only [zipAdd, List.zipWith_cons_cons, List.zipWith_nil_right,
          List.zipWith_nil_left]
        rw [hc3P, Nat.add_assoc]
      · rw [mergeHist_eq_match (show boundaries [(a12, b12, P1 + P2)] ≠ boundaries h3 by
          intro hcon
          exact hB3 hcon.symm)]
    · obtain ⟨a23, b23, ha23, hA23⟩ := mismatch_some o2 o3 hb23
      rw [mergeHist_eq_bucket hb12 ha12 hA12, mergeHist_eq_bucket hb23 ha23 hA23]
      by_cases hB3 : boundaries h3 = [(a12, b12)]
      · obtain ⟨c3, he3, hc3x, hc3y, hc3P, hm3, hM3⟩ := histOk_singleton o3 hB3
        rw [mergeHist_eq_zip (show boundaries [(a12, b12, P1 + P2)] = boundaries h3 by
          rw [hB3]; rfl)]
        have hvmin : optComb min m1 (optComb min m2 m3) = some a12 := by
          rw [hm3]
          exact comb_absorb hma hmi ha12
        have hvmax : optComb max M1 (optComb max M2 M3) = some b12 := by
          rw [hM3]
          exact comb_absorb hMa hMi hA12
        by_cases hB1 : boundaries h1 = [(a23, b23)]
        · obtain ⟨c1, he1, hc1x, hc1y, hc1P, hm1, hM1⟩ := histOk_singleton o1 hB1
          rw [mergeHist_eq_zip (show boundaries h1 = boundaries [(a23, b23, P2 + P3)] by
            rw [hB1]; rfl)]
          have hvmin2 : optComb min m1 (optComb min m2 m3) = some a23 := by
            rw [hm1, ha23]
            exact optComb_some_self hmi a23
          have hvmax2 : optComb max M1 (optComb max M2 M3) = some b23 := by
            rw [hM1, hA23]
            exact optComb_some_self hMi b23
          have hae : a12 = a23 := Option.some_inj.mp (hvmin.symm.trans hvmin2)
          have hbe : b12 = b23 := Option.some_inj.mp (hvmax.symm.trans hvmax2)
          rw [he3, he1]
          simp only [zipAdd, List.zipWith_cons_cons, List.zipWith_nil_right,
            List.zipWith_nil_left]
          rw [hc3P, hc1x, hc1y, hc1P, hae, hbe, Nat.add_assoc]
        · rw [mergeHist_eq_match (show boundaries h1 ≠ boundaries [(a23, b23, P2 + P3)]
            from hB1)]
          rw [hvmin, hvmax, he3]
          simp only [zipAdd, List.zipWith_cons_cons, List.zipWith_nil_right,
            List.zipWith_nil_left]
          rw [hc3P, Nat.add_assoc]
      · rw [mergeHist_eq_match (show boundaries [(a12, b12, P1 + P2)] ≠ boundaries h3 by
          intro hcon
          exact hB3 hcon.symm)]
        by_cases hB1 : boundaries h1 = [(a23, b23)]
        · obtain ⟨c1, he1, hc1x, hc1y, hc1P, hm1, hM1⟩ := histOk_singleton o1 hB1
          rw [mergeHist_eq_zip (show boundaries h1 = boundaries [(a23, b23, P2 + P3)] by
            rw [hB1]; rfl)]
          have hvmin2 : optComb min m1 (optComb min m2 m3) = some a23 := by
            rw [hm1, ha23]
            exact optComb_some_self hmi a23
          have hvmax2 : optComb max M1 (optComb max M2 M3) = some b23 := by
            rw [hM1, hA23]
            exact optComb_some_self hMi b23
          rw [hvmin2, hvmax2, he1]
          simp only [zipAdd, List.zipWith_cons_cons, List.zipWith_nil_right,
            List.zipWith_nil_left]
          rw [hc1x, hc1y, hc1P]
        · rw [mergeHist_eq_match (show boundaries h1 ≠ boundaries [(a23, b23, P2 + P3)]
            from hB1)]

theorem wfb_freq_sorted {f : FeatureStatistics} (h : f.wfb = true) :
    keySorted Prod.fst f.freq := by
  cases hk : f.kind with
  | NUMERIC =>
    rw [(wfb_numeric h hk).1]
    exact keySorted_nil
  | CATEGORICAL_STRING =>
    exact sortedKeys_iff.mp (wfb_categorical h (by rw [hk]; rfl)).2.2.2.2
  | CATEGORICAL_INT =>
    exact sortedKeys_iff.mp (wfb_categorical h (by rw [hk]; rfl)).2.2.2.2

theorem mergeFreq_assoc {l1 l2 l3 : List (String × Nat)} (s1 : keySorted Prod.fst l1)
    (s2 : keySorted Prod.fst l2) (s3 : keySorted Prod.fst l3) :
    mergeFreq (mergeFreq l1 l2) l3 = mergeFreq l1 (mergeFreq l2 l3) := by
  unfold mergeFreq
  apply mergeS_assoc freqAdd_key s1 s2 s3
  intro a _ b _ c _ hab _
  simp only [Prod.mk.injEq]
  exact ⟨trivial, Nat.add_assoc _ _ _⟩

theorem mergeFeature_assoc {f1 f2 f3 : FeatureStatistics} (h1 : f1.wfb = true)
    (h2 : f2.wfb = true) (h3 : f3.wfb = true) (hk12 : f1.kind = f2.kind)
    (hk23 : f2.kind = f3.kind) :
    mergeFeature (mergeFeature f1 f2) f3 = mergeFeature f1 (mergeFeature f2 f3) := by
  have hma : ∀ a b c : ℚ, min (min a b) c = min a (min b c) := fun a b c => by
    rw [min_assoc]
  have hMa : ∀ a b c : ℚ, max (max a b) c = max a (max b c) := fun a b c => by
    rw [max_assoc]
  have hp12 : (mergeFeature f1 f2).present = f1.present + f2.present :=
    present_mergeFeature (wfb_le h1) (wfb_le h2)
  have hp23 : (mergeFeature f2 f3).present = f2.present + f3.present :=
    present_mergeFeature (wfb_le h2) (wfb_le h3)
  simp only [mergeFeature, FeatureStatistics.mk.injEq]
  simp only [mergeFeature] at hp12 hp23
  rw [hp12, hp23]
  refine ⟨trivial, trivial, Nat.add_assoc _ _ _, Nat.add_assoc _ _ _, add_assoc _ _ _,
    add_assoc _ _ _, optComb_assoc hma _ _ _, optComb_assoc hMa _ _ _, ?_, ?_⟩
  · cases hk : f1.kind with
    | NUMERIC =>
      exact mergeHist_assoc (wfb_numeric_histOk h1 hk)
        (wfb_numeric_histOk h2 (hk12.symm.trans hk))
        (wfb_numeric_histOk h3 ((hk12.trans hk23).symm.trans hk))
    | CATEGORICAL_STRING =>
      have e1 := (wfb_categorical h1 (by rw [hk]; rfl)).1
      have e2 := (wfb_categorical h2 (by rw [← hk12, hk]; rfl)).1
      have e3 := (wfb_categorical h3 (by rw [← hk23, ← hk12, hk]; rfl)).1
      rw [e1, e2, e3]
      simp [mergeHist, zipAdd, boundaries]
    | CATEGORICAL_INT =>
      have e1 := (wfb_categorical h1 (by rw [hk]; rfl)).1
      have e2 := (wfb_categorical h2 (by rw [← hk12, hk]; rfl)).1
      have e3 := (wfb_categorical h3 (by rw [← hk23, ← hk12, hk]; rfl)).1
      rw [e1, e2, e3]
      simp [mergeHist, zipAdd, boundaries]
  · exact mergeFreq_assoc (wfb_freq_sorted h1) (wfb_freq_sorted h2) (wfb_freq_sorted h3)

theorem findK_self {α : Type} {key : α → String} {l : List α} (hs : keySorted key l)
    {x : α} (hx : x ∈ l) : findK key l (key x) = some x := by
  induction l with
  | nil => exact absurd hx (List.not_mem_nil x)
  | cons a t ih =>
    rw [keySorted_cons_iff] at hs
    rcases List.mem_cons.mp hx with rfl | hxt
    · rw [findK_cons, beq_iff_eq.mpr rfl]
      simp
    · have hne : key a ≠ key x := strLtb_ne (hs.1 x hxt)
      rw [findK_cons, beq_eq_false_iff_ne.mpr hne]
      simp only [Bool.false_eq_true, if_false]
      exact ih hs.2 hxt

theorem statsWf_sorted {d : DatasetStatistics} (h : d.wfb = true) :
    keySorted FeatureStatistics.name d.features := by
  unfold DatasetStatistics.wfb at h
  rw [Bool.and_eq_true] at h
  exact sortedKeys_iff.mp h.1

theorem statsWf_all {d : DatasetStatistics} (h : d.wfb = true) :
    ∀ f ∈ d.features, f.wfb = true := by
  unfold DatasetStatistics.wfb at h
  rw [Bool.and_eq_true] at h
  intro f hf
  exact List.all_eq_true.mp h.2 f hf

theorem compat_kinds {d1 d2 : DatasetStatistics} (h : compat d1 d2 = true) :
    ∀ a ∈ d1.features, ∀ b ∈ d2.features, a.name = b.name → a.kind = b.kind := by
  unfold compat at h
  intro a ha b hb hn
  have h1 := List.all_eq_true.mp h a ha
  have h2 := List.all_eq_true.mp h1 b hb
  rcases Bool.or_eq_true_iff.mp h2 with hne | hk
  · rw [bne_iff_ne] at hne
    exact absurd hn hne
  · exact beq_iff_eq.mp hk

theorem mergeFeature_name (f1 f2 : FeatureStatistics) :
    (mergeFeature f1 f2).name = f1.name := rfl

theorem merge_empty_right (s : DatasetStatistics) : merge s emptyStats = s := by
  cases s with
  | mk fs t =>
    unfold merge emptyStats
    simp only [mergeS_nil, DatasetStatistics.mk.injEq]
    exact ⟨trivial, Nat.add_zero t⟩

theorem merge_comm_of {a b : DatasetStatistics} (ha : a.wfb = true) (hb : b.wfb = true)
    (hc : compat a b = true) : merge a b = merge b a := by
  unfold merge
  rw [DatasetStatistics.mk.injEq]
  constructor
  · apply mergeS_comm mergeFeature_name (statsWf_sorted ha) (statsWf_sorted hb)
    intro x hx y hy hxy
    exact mergeFeature_comm hxy (compat_kinds hc x hx y hy hxy)
      (wfb_freq_sorted (statsWf_all ha x hx)) (wfb_freq_sorted (statsWf_all hb y hy))
  · exact Nat.add_comm _ _

theorem merge_assoc_of {a b c : DatasetStatistics} (ha : a.wfb = true)
    (hb : b.wfb = true) (hc : c.wfb = true) (hab : compat a b = true)
    (hbc : compat b c = true) : merge (merge a b) c = merge a (merge b c) := by
  unfold merge
  rw [DatasetStatistics.mk.injEq]
  constructor
  · apply mergeS_assoc mergeFeature_name (statsWf_sorted ha) (statsWf_sorted hb)
      (statsWf_sorted hc)
    intro x hx y hy z hz hxy hyz
    exact mergeFeature_assoc (statsWf_all ha x hx) (statsWf_all hb y hy)
      (statsWf_all hc z hz) (compat_kinds hab x hx y hy hxy)
      (compat_kinds hbc y hy z hz hyz)
  · exact Nat.add_assoc _ _ _

theorem merge_wfb {a b : DatasetStatistics} (ha : a.wfb = true) (hb : b.wfb = true)
    (hc : compat a b = true) : (merge a b).wfb = true := by
  have hsa := statsWf_sorted ha
  have hsb := statsWf_sorted hb
  have hsm : keySorted FeatureStatistics.name (merge a b).features :=
    mergeS_keySorted mergeFeature_name b.features hsa
  unfold DatasetStatistics.wfb
  rw [Bool.and_eq_true]
  refine ⟨sortedKeys_iff.mpr hsm, List.all_eq_true.mpr ?_⟩
  intro f hf
  have hfind : findK FeatureStatistics.name (merge a b).features f.name = some f :=
    findK_self hsm hf
  have hchar := findK_mergeS mergeFeature_name hsa hsb f.name
  have hfind2 : findK FeatureStatistics.name
      (mergeS FeatureStatistics.name mergeFeature a.features b.features) f.name =
        some f := hfind
  rw [hfind2] at hchar
  cases h1 : findK FeatureStatistics.name a.features f.name with
  | none =>
    cases h2 : findK FeatureStatistics.name b.features f.name with
    | none =>
      rw [h1, h2] at hchar
      exact absurd hchar (by simp [combOpt])
    | some y =>
      rw [h1, h2] at hchar
      simp only [combOpt, Option.some_inj] at hchar
      rw [hchar]
      exact statsWf_all hb y (findK_mem h2)
  | some x =>
    cases h2 : findK FeatureStatistics.name b.features f.name with
    | none =>
      rw [h1, h2] at hchar
      simp only [combOpt, Option.some_inj] at hchar
      rw [hchar]
      exact statsWf_all ha x (findK_mem h1)
    | some y =>
      rw [h1, h2] at hchar
      simp only [combOpt, Option.some_inj] at hchar
      rw [hchar]
      exact mergeFeature_wfb (statsWf_all ha x (findK_mem h1))
        (statsWf_all hb y (findK_mem h2))
        (compat_kinds hc x (findK_mem h1) y (findK_mem h2)
          ((findK_key h1).trans (findK_key h2).symm))

/-- C2: the merge operation on partial DatasetStatistics has the empty
DatasetStatistics as an identity element, and it is commutative and
associative on well-formed shard statistics whose shared features agree in
kind, as statistics computed over disjoint shards of one record set do. -/
theorem C2_merge_algebra :
    (∀ s : DatasetStatistics, merge s emptyStats = s) ∧
    (∀ a b : DatasetStatistics, a.wfb = true → b.wfb = true → compat a b = true →
      merge a b = merge b a) ∧
    (∀ a b c : DatasetStatistics, a.wfb = true → b.wfb = true → c.wfb = true →
      compat a b = true → compat b c = true →
      merge (merge a b) c = merge a (merge b c)) :=
  ⟨merge_empty_right, fun _ _ ha hb hc => merge_comm_of ha hb hc,
    fun _ _ _ ha hb hc hab hbc => merge_assoc_of ha hb hc hab hbc⟩

/-- Witness for C2 at concrete shard statistics. -/
theorem C2_merge_algebra_witness :
    merge dsA emptyStats = dsA ∧ merge dsA dsB = merge dsB dsA ∧
      merge (merge dsA dsB) dsC = merge dsA (merge dsB dsC) :=
  ⟨C2_merge_algebra.1 dsA,
    C2_merge_algebra.2.1 dsA dsB (by decide) (by decide) (by decide),
    C2_merge_algebra.2.2 dsA dsB dsC (by decide) (by decide) (by decide) (by decide)
      (by decide)⟩

theorem den_cast_ne {q : ℚ} : ((q.den : ℚ)) ≠ 0 := by
  exact_mod_cast q.den_nz

theorem qadd_eq (a b : ℚ) : qadd a b = a + b := by
  unfold qadd
  rw [Rat.mkRat_eq_div]
  rw [show a + b = (a.num : ℚ) / a.den + (b.num : ℚ) / b.den by
    rw [Rat.num_div_den, Rat.num_div_den]]
  rw [div_add_div _ _ den_cast_ne den_cast_ne]
  push_cast
  ring_nf

theorem qsub_eq (a b : ℚ) : qsub a b = a - b := by
  unfold qsub
  rw [Rat.mkRat_eq_div]
  rw [show a - b = (a.num : ℚ) / a.den - (b.num : ℚ) / b.den by
    rw [Rat.num_div_den, Rat.num_div_den]]
  rw [div_sub_div _ _ den_cast_ne den_cast_ne]
  push_cast
  ring_nf

theorem qmul_eq (a b : ℚ) : qmul a b = a * b := by
  unfold qmul
  rw [Rat.mkRat_eq_div]
  rw [show a * b = ((a.num : ℚ) / a.den) * ((b.num : ℚ) / b.den) by
    rw [Rat.num_div_den, Rat.num_div_den]]
  rw [div_mul_div_comm]
  push_cast
  ring_nf

theorem qdiv_eq (a b : ℚ) : qdiv a b = a / b := by
  unfold qdiv
  by_cases hb0 : b = 0
  · subst hb0
    simp
  · have hbn : b.num ≠ 0 := fun h => hb0 (Rat.num_eq_zero.mp h)
    have hbnq : ((b.num : ℚ)) ≠ 0 := by exact_mod_cast hbn
    have hrhs : a / b = ((a.num : ℚ) / a.den) / ((b.num : ℚ) / b.den) := by
      rw [Rat.num_div_den, Rat.num_div_den]
    rcases lt_or_ge b.num 0 with hlt | hge
    · rw [if_pos hlt, Rat.mkRat_eq_div, hrhs]
      push_cast
      rw [Int.cast_natAbs, Int.cast_abs, abs_of_neg (show ((b.num : ℚ)) < 0 by exact_mod_cast hlt)]
      field_simp
    · rw [if_neg (not_lt.mpr hge), Rat.mkRat_eq_div, hrhs]
      push_cast
      rw [Int.cast_natAbs, Int.cast_abs, abs_of_nonneg (show (0 : ℚ) ≤ (b.num : ℚ) by exact_mod_cast hge)]
      field_simp

theorem bLow_zero (m M : ℚ) : bLow m M 0 = m := by
  unfold bLow
  rw [qadd_eq, qdiv_eq, qmul_eq, qsub_eq]
  push_cast
  ring

theorem bLow_ten (m M : ℚ) : bLow m M 10 = M := by
  unfold bLow
  rw [qadd_eq, qdiv_eq, qmul_eq, qsub_eq]
  push_cast
  ring

theorem sum_map_add {α : Type} (l : List α) (g h : α → Nat) :
    (l.map (fun a => g a + h a)).sum = (l.map g).sum + (l.map h).sum := by
  induction l with
  | nil => rfl
  | cons a t ih =>
    simp only [List.map_cons, List.sum_cons, ih]
    omega

theorem sum_indicator_zero {k : Nat} {l : List Nat} (h : ∀ i ∈ l, k ≠ i) :
    (l.map (fun i => if k == i then 1 else 0)).sum = 0 := by
  induction l with
  | nil => rfl
  | cons a t ih =>
    simp only [List.map_cons, List.sum_cons]
    rw [beq_eq_false_iff_ne.mpr (h a (List.mem_cons_self a t))]
    simp only [Bool.false_eq_true, if_false, Nat.zero_add]
    exact ih fun i hi => h i (List.mem_cons_of_mem a hi)

theorem sum_indicator_range {k n : Nat} (h : k < n) :
    ((List.range n).map (fun i => if k == i then 1 else 0)).sum = 1 := by
  induction n with
  | zero => omega
  | succ n ih =>
    rw [List.range_succ]
    simp only [List.map_append, List.sum_append, List.map_cons, List.map_nil,
      List.sum_cons, List.sum_nil]
    by_cases hk : k = n
    · subst hk
      rw [sum_indicator_zero fun i hi => Nat.ne_of_gt (List.mem_range.mp hi)]
      simp
    · have hkn : k < n := lt_of_le_of_ne (Nat.lt_succ_iff.mp h) hk
      rw [ih hkn, beq_eq_false_iff_ne.mpr hk]
      simp

theorem sum_countP_range {f : ℚ → Nat} {n : Nat} (l : List ℚ) (h : ∀ q ∈ l, f q < n) :
    ((List.range n).map (fun i => l.countP (fun q => f q == i))).sum = l.length := by
  induction l with
  | nil => simp [List.countP_nil]
  | cons q t ih =>
    have hrw : ((List.range n).map (fun i => (q :: t).countP (fun x => f x == i))) =
        (List.range n).map (fun i =>
          t.countP (fun x => f x == i) + if f q == i then 1 else 0) := by
      apply List.map_congr_left
      intro i _
      rw [List.countP_cons]
    rw [hrw, sum_map_add]
    rw [ih fun x hx => h x (List.mem_cons_of_mem q hx)]
    rw [sum_indicator_range (h q (List.mem_cons_self q t))]
    simp [List.length_cons]

theorem bucketIdx_lt (m M q : ℚ) : bucketIdx m M q < 10 := by
  unfold bucketIdx
  by_cases h : m = M
  · rw [if_pos h]
    omega
  · rw [if_neg h]
    exact Nat.lt_succ_of_le (Nat.min_le_left _ _)

theorem histSum_histFor (m M : ℚ) (qs : List ℚ) :
    histSum (histFor m M qs) = qs.length := by
  unfold histFor
  by_cases h : m = M
  · rw [if_pos h]
    simp [histSum]
  · rw [if_neg h]
    have hb : ∀ q ∈ qs, bucketIdx m M q < 10 := fun q _ => bucketIdx_lt m M q
    have := sum_countP_range qs hb
    unfold histSum
    rw [List.map_map]
    exact this

theorem histFor_head (m M : ℚ) (qs : List ℚ) :
    ∃ b t, histFor m M qs = b :: t ∧ b.1 = m := by
  unfold histFor
  by_cases h : m = M
  · rw [if_pos h]
    exact ⟨(m, M, qs.length), [], rfl, rfl⟩
  · rw [if_neg h]
    rw [show List.range 10 = 0 :: [1, 2, 3, 4, 5, 6, 7, 8, 9] from rfl]
    simp only [List.map_cons]
    exact ⟨_, _, rfl, bLow_zero m M⟩

theorem histFor_last (m M : ℚ) (qs : List ℚ) :
    ∃ c, (histFor m M qs).getLast? = some c ∧ c.2.1 = M := by
  unfold histFor
  by_cases h : m = M
  · rw [if_pos h]
    exact ⟨(m, M, qs.length), rfl, rfl⟩
  · rw [if_neg h]
    rw [show List.range 10 = [0, 1, 2, 3, 4, 5, 6, 7, 8, 9] from rfl]
    simp only [List.map_cons, List.map_nil]
    refine ⟨_, rfl, ?_⟩
    show bLow m M (9 + 1) = M
    exact bLow_ten m M

theorem optFold_some_acc (f : ℚ → ℚ → ℚ) :
    ∀ (t : List ℚ) (x : ℚ), ∃ v,
      t.foldl (fun a q => some (match a with | none => q | some y => f y q)) (some x) =
        some v := by
  intro t
  induction t with
  | nil => exact fun x => ⟨x, rfl⟩
  | cons q u ih => exact fun x => ih (f x q)

theorem optFold_cons (f : ℚ → ℚ → ℚ) (q : ℚ) (t : List ℚ) :
    ∃ v, optFold f (q :: t) = some v := by
  unfold optFold
  simp only [List.foldl_cons]
  exact optFold_some_acc f t q

theorem buildFreq_sorted (keys : List String) : keySorted Prod.fst (buildFreq keys) := by
  unfold buildFreq
  have hgen : ∀ (l : List String) (acc : List (String × Nat)), keySorted Prod.fst acc →
      keySorted Prod.fst (l.foldl
        (fun acc2 s => insWith Prod.fst (fun a b => (a.1, a.2 + b.2)) (s, 1) acc2) acc) := by
    intro l
    induction l with
    | nil => exact fun acc h => h
    | cons s t ih =>
      intro acc h
      exact ih _ (insWith_keySorted freqAdd_key (s, 1) h)
  exact hgen keys [] keySorted_nil

theorem buildFreq_sum (keys : List String) : freqSum (buildFreq keys) = keys.length := by
  unfold buildFreq
  have hgen : ∀ (l : List String) (acc : List (String × Nat)),
      freqSum (l.foldl
        (fun acc2 s => insWith Prod.fst (fun a b => (a.1, a.2 + b.2)) (s, 1) acc2) acc) =
        freqSum acc + l.length := by
    intro l
    induction l with
    | nil => exact fun acc => (Nat.add_zero _).symm
    | cons s t ih =>
      intro acc
      rw [List.foldl_cons, ih, freqSum_insWith]
      simp only [List.length_cons]
      omega
  rw [hgen keys []]
  simp [freqSum]

theorem length_filterMap_add_countP {α β : Type} (g : α → Option β) (l : List α) :
    (l.filterMap g).length + l.countP (fun a => (g a).isNone) = l.length := by
  induction l with
  | nil => rfl
  | cons a t ih =>
    cases hg : g a with
    | none =>
      rw [List.filterMap_cons_none hg, List.countP_cons_of_pos _ _ (by simp [hg])]
      simp only [List.length_cons]
      omega
    | some b =>
      rw [List.filterMap_cons_some hg, List.countP_cons_of_neg _ _ (by simp [hg])]
      simp only [List.length_cons]
      omega

theorem mapM_except_forall2 {α β ε : Type} (f : α → Except ε β) :
    ∀ {l : List α} {ys : List β}, l.mapM f = .ok ys →
      List.Forall₂ (fun a y => f a = .ok y) l ys := by
  intro l
  induction l with
  | nil =>
    intro ys h
    rw [List.mapM_nil] at h
    have hy : ys = [] := by
      have : (pure [] : Except ε (List β)) = .ok [] := rfl
      rw [this] at h
      exact (Except.ok.injEq _ _ ▸ congrArg id h) ▸ rfl
    subst hy
    exact List.Forall₂.nil
  | cons a t ih =>
    intro ys h
    rw [List.mapM_cons] at h
    cases hfa : f a with
    | error e =>
      rw [hfa] at h
      exact absurd h (by simp [Bind.bind, Except.bind])
    | ok b =>
      rw [hfa] at h
      cases hmt : t.mapM f with
      | error e =>
        rw [hmt] at h
        exact absurd h (by simp [Bind.bind, Except.bind])
      | ok bs =>
        rw [hmt] at h
        have hys : b :: bs = ys := by
          simpa [Bind.bind, Except.bind, pure, Except.pure] using h
        subst hys
        exact List.Forall₂.cons hfa (ih hmt)

theorem mapM_option_forall2 {α β : Type} (f : α → Option β) :
    ∀ {l : List α} {ys : List β}, l.mapM f = some ys →
      List.Forall₂ (fun a y => f a = some y) l ys := by
  intro l
  induction l with
  | nil =>
    intro ys h
    rw [List.mapM_nil] at h
    have hy : ys = [] := by simpa [pure] using h.symm
    subst hy
    exact List.Forall₂.nil
  | cons a t ih =>
    intro ys h
    rw [List.mapM_cons] at h
    cases hfa : f a with
    | none =>
      rw [hfa] at h
      exact absurd h (by simp [Bind.bind])
    | some b =>
      rw [hfa] at h
      cases hmt : t.mapM f with
      | none =>
        rw [hmt] at h
        exact absurd h (by simp [Bind.bind])
      | some bs =>
        rw [hmt] at h
        have hys : b :: bs = ys := by simpa [Bind.bind, pure] using h
        subst hys
        exact List.Forall₂.cons hfa (ih hmt)

theorem f2_mem_right {α β : Type} {P : α → β → Prop} :
    ∀ {l : List α} {ys : List β}, List.Forall₂ P l ys → ∀ y ∈ ys, ∃ a ∈ l, P a y := by
  intro l ys h
  induction h with
  | nil => exact fun y hy => absurd hy (List.not_mem_nil y)
  | cons hab _ ih =>
    intro y hy
    rcases List.mem_cons.mp hy with rfl | hy2
    · exact ⟨_, List.mem_cons_self _ _, hab⟩
    · obtain ⟨a, ha, hp⟩ := ih y hy2
      exact ⟨a, List.mem_cons_of_mem _ ha, hp⟩

theorem f2_mem_left {α β : Type} {P : α → β → Prop} :
    ∀ {l : List α} {ys : List β}, List.Forall₂ P l ys → ∀ a ∈ l, ∃ y ∈ ys, P a y := by
  intro l ys h
  induction h with
  | nil => exact fun a ha => absurd ha (List.not_mem_nil a)
  | cons hab _ ih =>
    intro a ha
    rcases List.mem_cons.mp ha with rfl | ha2
    · exact ⟨_, List.mem_cons_self _ _, hab⟩
    · obtain ⟨y, hy, hp⟩ := ih a ha2
      exact ⟨y, List.mem_cons_of_mem _ hy, hp⟩

theorem mem_insKey {k a : String} : ∀ {l : List String}, a ∈ insKey k l → a = k ∨ a ∈ l := by
  intro l
  induction l with
  | nil =>
    intro h
    rcases List.mem_cons.mp h with h1 | h1
    · exact Or.inl h1
    · exact absurd h1 (List.not_mem_nil a)
  | cons b t ih =>
    intro h
    unfold insKey at h
    by_cases h1 : strLtb k b = true
    · rw [if_pos h1] at h
      rcases List.mem_cons.mp h with h2 | h2
      · exact Or.inl h2
      · exact Or.inr h2
    · rw [if_neg h1] at h
      by_cases h2 : strLtb b k = true
      · rw [if_pos h2] at h
        rcases List.mem_cons.mp h with h3 | h3
        · exact Or.inr (List.mem_cons.mpr (Or.inl h3))
        · rcases ih h3 with h4 | h4
          · exact Or.inl h4
          · exact Or.inr (List.mem_cons_of_mem _ h4)
      · rw [if_neg h2] at h
        exact Or.inr h

theorem insKey_mem_self (k : String) : ∀ (l : List String), k ∈ insKey k l := by
  intro l
  induction l with
  | nil => exact List.mem_cons_self _ _
  | cons b t ih =>
    unfold insKey
    by_cases h1 : strLtb k b = true
    · rw [if_pos h1]
      exact List.mem_cons_self _ _
    · rw [if_neg h1]
      by_cases h2 : strLtb b k = true
      · rw [if_pos h2]
        exact List.mem_cons_of_mem _ ih
      · rw [if_neg h2]
        have hb : b = k :=
          strLtb_eq_of_not (Bool.of_not_eq_true h2) (Bool.of_not_eq_true h1)
        rw [hb]
        exact List.mem_cons_self _ _

theorem insKey_mem_mono (k a : String) : ∀ {l : List String}, a ∈ l → a ∈ insKey k l := by
  intro l
  induction l with
  | nil => exact fun h => absurd h (List.not_mem_nil a)
  | cons b t ih =>
    intro h
    unfold insKey
    by_cases h1 : strLtb k b = true
    · rw [if_pos h1]
      exact List.mem_cons_of_mem _ h
    · rw [if_neg h1]
      by_cases h2 : strLtb b k = true
      · rw [if_pos h2]
        rcases List.mem_cons.mp h with rfl | h3
        · exact List.mem_cons_self _ _
        · exact List.mem_cons_of_mem _ (ih h3)
      · rw [if_neg h2]
        exact h

theorem insKey_keySorted (k : String) : ∀ {l : List String},
    keySorted (fun s => s) l → keySorted (fun s => s) (insKey k l) := by
  intro l
  induction l with
  | nil =>
    intro _
    exact List.pairwise_singleton _ _
  | cons b t ih =>
    intro hs
    rw [keySorted_cons_iff] at hs
    unfold insKey
    by_cases h1 : strLtb k b = true
    · rw [if_pos h1, keySorted_cons_iff]
      refine ⟨?_, ?_⟩
      · intro x hx
        rcases List.mem_cons.mp hx with rfl | hx2
        · exact h1
        · exact strLtb_trans h1 (hs.1 x hx2)
      · rw [keySorted_cons_iff]
        exact hs
    · rw [if_neg h1]
      by_cases h2 : strLtb b k = true
      · rw [if_pos h2, keySorted_cons_iff]
        refine ⟨?_, ih hs.2⟩
        intro x hx
        rcases mem_insKey hx with rfl | hx2
        · exact h2
        · exact hs.1 x hx2
      · rw [if_neg h2, keySorted_cons_iff]
        exact hs

theorem rowFold_keySorted (r : Row) : ∀ (acc : List String),
    keySorted (fun s => s) acc →
    keySorted (fun s => s) (r.foldl (fun acc2 p => insKey p.1 acc2) acc) := by
  induction r with
  | nil => exact fun acc h => h
  | cons p t ih =>
    intro acc h
    exact ih _ (insKey_keySorted p.1 h)

theorem allKeys_keySorted (rows : List Row) : keySorted (fun s => s) (allKeys rows) := by
  unfold allKeys
  have hgen : ∀ (l : List Row) (acc : List String), keySorted (fun s => s) acc →
      keySorted (fun s => s)
        (l.foldl (fun acc r => r.foldl (fun acc2 p => insKey p.1 acc2) acc) acc) := by
    intro l
    induction l with
    | nil => exact fun acc h => h
    | cons r t ih => exact fun acc h => ih _ (rowFold_keySorted r acc h)
  exact hgen rows [] keySorted_nil

theorem rowFold_mem_mono (r : Row) (a : String) : ∀ (acc : List String), a ∈ acc →
    a ∈ r.foldl (fun acc2 p => insKey p.1 acc2) acc := by
  induction r with
  | nil => exact fun acc h => h
  | cons p t ih =>
    intro acc h
    exact ih _ (insKey_mem_mono p.1 a h)

theorem rowFold_mem_of (r : Row) (p : String × Option Value) (hp : p ∈ r) :
    ∀ (acc : List String), p.1 ∈ r.foldl (fun acc2 q => insKey q.1 acc2) acc := by
  induction r with
  | nil => exact absurd hp (List.not_mem_nil p)
  | cons q t ih =>
    intro acc
    rcases List.mem_cons.mp hp with rfl | h2
    · exact rowFold_mem_mono t p.1 _ (insKey_mem_self p.1 acc)
    · exact ih h2 _

theorem outerFold_mem_mono (a : String) : ∀ (l : List Row) (acc : List String), a ∈ acc →
    a ∈ l.foldl (fun acc r => r.foldl (fun acc2 p => insKey p.1 acc2) acc) acc := by
  intro l
  induction l with
  | nil => exact fun acc h => h
  | cons r t ih =>
    intro acc h
    exact ih _ (rowFold_mem_mono r a acc h)

theorem mem_allKeys_of {rows : List Row} {r : Row} {p : String × Option Value}
    (hr : r ∈ rows) (hp : p ∈ r) : p.1 ∈ allKeys rows := by
  unfold allKeys
  have hgen : ∀ (l : List Row) (acc : List String), r ∈ l →
      p.1 ∈ l.foldl (fun acc r => r.foldl (fun acc2 q => insKey q.1 acc2) acc) acc := by
    intro l
    induction l with
    | nil => exact fun acc h => absurd h (List.not_mem_nil r)
    | cons r0 t ih =>
      intro acc h
      rcases List.mem_cons.mp h with rfl | h2
      · exact outerFold_mem_mono p.1 t _ (rowFold_mem_of r p hp acc)
      · exact ih _ h2
  exact hgen rows [] hr

theorem mapM_toNum_none {s : String} : ∀ {vals : List Value}, Value.str s ∈ vals →
    vals.mapM toNum = none := by
  intro vals
  induction vals with
  | nil => exact fun h => absurd h (List.not_mem_nil _)
  | cons v t ih =>
    intro h
    rcases List.mem_cons.mp h with rfl | h2
    · rw [List.mapM_cons]
      rfl
    · cases hv : toNum v with
      | none =>
        rw [List.mapM_cons, hv]
        rfl
      | some q =>
        rw [List.mapM_cons, hv]
        show (t.mapM toNum >>= fun bs => pure (q :: bs)) = none
        rw [ih h2]
        rfl

theorem presentValues_length_add_missing (rows : List Row) (k : String) :
    (presentValues rows k).length + missingIn rows k = rows.length := by
  have h := length_filterMap_add_countP (fun r => (rowValue r k).bind id) rows
  unfold presentValues missingIn
  exact h

theorem computeFeature_ok_facts {rows : List Row} {hint : Option Schema} {k : String}
    {f : FeatureStatistics} (h : computeFeature rows hint k = .ok f) :
    f.name = k ∧ f.count = rows.length ∧ f.missing_count = missingIn rows k ∧
      f.wfb = true := by
  have hpm := presentValues_length_add_missing rows k
  unfold computeFeature at h
  simp only [] at h
  split at h
  · split at h
    · exact absurd h (by simp)
    · rename_i qs hqs
      have hlen : (presentValues rows k).length = qs.length :=
        List.Forall₂.length_eq (mapM_option_forall2 toNum hqs)
      injection h with hf
      subst hf
      refine ⟨rfl, rfl, ?_, ?_⟩
      · show rows.length - (presentValues rows k).length = missingIn rows k
        omega
      · cases qs with
        | nil =>
          simp only [List.length_nil] at hlen
          refine wfb_intro_numeric rfl (Nat.sub_le _ _) rfl ?_ ?_
          · show (0 : Nat) = rows.length - (rows.length - (presentValues rows k).length)
            omega
          · refine histShapeOk_nil_intro rfl rfl rfl ?_
            show rows.length - (rows.length - (presentValues rows k).length) = 0
            omega
        | cons q t =>
          simp only [List.length_cons] at hlen
          obtain ⟨m, hm⟩ := optFold_cons min q t
          obtain ⟨M, hM⟩ := optFold_cons max q t
          have hhist : (match optFold min (q :: t), optFold max (q :: t) with
              | some m, some M => histFor m M (q :: t)
              | _, _ => ([] : List (ℚ × ℚ × Nat))) = histFor m M (q :: t) := by
            rw [hm, hM]
          obtain ⟨b, t2, hbt, hb1⟩ := histFor_head m M (q :: t)
          obtain ⟨c, hlast, hc⟩ := histFor_last m M (q :: t)
          refine wfb_intro_numeric rfl (Nat.sub_le _ _) rfl ?_ ?_
          · show histSum (match optFold min (q :: t), optFold max (q :: t) with
                | some m, some M => histFor m M (q :: t)
                | _, _ => ([] : List (ℚ × ℚ × Nat))) =
              rows.length - (rows.length - (presentValues rows k).length)
            rw [hhist, histSum_histFor]
            simp only [List.length_cons]
            omega
          · refine histShapeOk_cons_intro (hhist.trans hbt) hm hM hb1 ?_ hc ?_
            · rw [← hbt]
              exact hlast
            · show rows.length - (rows.length - (presentValues rows k).length) ≠ 0
              omega
  · rename_i kdvar hne
    injection h with hf
    subst hf
    refine ⟨rfl, rfl, ?_, ?_⟩
    · show rows.length - (presentValues rows k).length = missingIn rows k
      omega
    · refine wfb_intro_categorical ?_ (Nat.sub_le _ _) rfl rfl rfl ?_ ?_
      · show kindIsCategorical (featureKind rows hint k) = true
        cases hkd2 : featureKind rows hint k with
        | NUMERIC => exact absurd hkd2 hne
        | CATEGORICAL_STRING => rfl
        | CATEGORICAL_INT => rfl
      · show freqSum (buildFreq ((presentValues rows k).map valueKey)) =
          rows.length - (rows.length - (presentValues rows k).length)
        rw [buildFreq_sum, List.length_map]
        omega
      · exact sortedKeys_iff.mpr (buildFreq_sorted _)

theorem f2_keySorted {keys : List String} {ys : List FeatureStatistics}
    (hs : keySorted (fun s => s) keys)
    (h2 : List.Forall₂ (fun k y => y.name = k) keys ys) :
    keySorted FeatureStatistics.name ys := by
  induction h2 with
  | nil => exact keySorted_nil
  | cons hky htail ih =>
    rw [keySorted_cons_iff] at hs ⊢
    refine ⟨?_, ih hs.2⟩
    intro y hy
    obtain ⟨k2, hk2, hp⟩ := f2_mem_right htail y hy
    rw [hp]
    have := hs.1 k2 hk2
    rwa [hky]

theorem compute_ok_features {rows : List Row} {hint : Option Schema} {d : DatasetStatistics}
    (h : compute rows hint = .ok d) :
    List.Forall₂ (fun k f => computeFeature rows hint k = .ok f) (allKeys rows) d.features ∧
      d.total_record_count = rows.length := by
  unfold compute at h
  split at h
  · exact absurd h (by simp)
  · rename_i feats hfeats
    injection h with hf
    subst hf
    exact ⟨mapM_except_forall2 (computeFeature rows hint) hfeats, rfl⟩

theorem compute_ok_wfb {rows : List Row} {hint : Option Schema} {d : DatasetStatistics}
    (h : compute rows hint = .ok d) : d.wfb = true := by
  obtain ⟨h2, _⟩ := compute_ok_features h
  unfold DatasetStatistics.wfb
  rw [Bool.and_eq_true]
  refine ⟨sortedKeys_iff.mpr ?_, List.all_eq_true.mpr ?_⟩
  · exact f2_keySorted (allKeys_keySorted rows)
      (List.Forall₂.imp (fun a b hab => (computeFeature_ok_facts hab).1) h2)
  · intro f hf
    obtain ⟨a, _, hp⟩ := f2_mem_right h2 f hf
    exact (computeFeature_ok_facts hp).2.2.2

theorem compute_ok_missing {rows : List Row} {hint : Option Schema} {d : DatasetStatistics}
    (h : compute rows hint = .ok d) :
    ∀ f ∈ d.features, f.missing_count = missingIn rows f.name := by
  obtain ⟨h2, _⟩ := compute_ok_features h
  intro f hf
  obtain ⟨a, _, hp⟩ := f2_mem_right h2 f hf
  obtain ⟨hn, _, hm, _⟩ := computeFeature_ok_facts hp
  rw [hn]
  exact hm

theorem compute_invalid_of_str {rows : List Row} {hint : Option Schema} {k s : String}
    (hkd : featureKind rows hint k = .NUMERIC)
    (hs : Value.str s ∈ presentValues rows k) :
    compute rows hint = .error .InvalidRecordError := by
  cases hc : compute rows hint with
  | error e =>
    cases e
    rfl
  | ok d =>
    exfalso
    obtain ⟨h2, _⟩ := compute_ok_features hc
    have hk : k ∈ allKeys rows := by
      have hs2 := hs
      unfold presentValues at hs2
      obtain ⟨r, hr, hrv⟩ := List.mem_filterMap.mp hs2
      have hex : ∃ p ∈ r, p.1 = k := by
        unfold rowValue at hrv
        cases hfind : r.find? (fun p => p.1 == k) with
        | none =>
          rw [hfind] at hrv
          simp at hrv
        | some p =>
          have hpk := List.find?_some hfind
          exact ⟨p, List.mem_of_find?_eq_some hfind, by simpa using hpk⟩
      obtain ⟨p, hp, hpk⟩ := hex
      rw [← hpk]
      exact mem_allKeys_of hr hp
    obtain ⟨f, _, hok⟩ := f2_mem_left h2 k hk
    unfold computeFeature at hok
    simp only [] at hok
    split at hok
    · split at hok
      · exact absurd hok (by simp)
      · rename_i qs hqs
        rw [mapM_toNum_none hs] at hqs
        exact absurd hqs (by simp)
    · rename_i kdvar hne
      exact hne hkd

/-- C7: every FeatureStatistics produced by `compute` sits in a well-formed
DatasetStatistics, the merge of well-formed compatible statistics is again
well-formed, and well-formedness forces the claimed invariants on every
feature entry: missing_count bounded by count, numeric histogram bucket
counts summing to count - missing_count, and categorical frequency values
summing to count - missing_count. -/
theorem C7_statistics_invariants :
    (∀ (rows : List Row) (hint : Option Schema) (d : DatasetStatistics),
      compute rows hint = .ok d → d.wfb = true) ∧
    (∀ d1 d2 : DatasetStatistics, d1.wfb = true → d2.wfb = true →
      compat d1 d2 = true → (merge d1 d2).wfb = true) ∧
    (∀ d : DatasetStatistics, d.wfb = true → ∀ f ∈ d.features,
      f.missing_count ≤ f.count ∧
      (f.kind = .NUMERIC → histSum f.histogram = f.count - f.missing_count) ∧
      (kindIsCategorical f.kind = true →
        freqSum f.freq = f.count - f.missing_count)) := by
  refine ⟨fun rows hint d h => compute_ok_wfb h,
    fun d1 d2 h1 h2 hc => merge_wfb h1 h2 hc, fun d hd f hf => ?_⟩
  have hw := statsWf_all hd f hf
  exact ⟨wfb_le hw, fun hk => (wfb_numeric hw hk).2.1,
    fun hk => (wfb_categorical hw hk).2.2.2.1⟩

/-- Witness for C7: the statistics computed over the concrete rows
`rowsA` are well-formed, the merge of the concrete well-formed shards
`dsA` and `dsB` is well-formed, and the invariants hold on the entries of
`dsA`. -/
theorem C7_statistics_invariants_witness :
    dW.wfb = true ∧ (merge dsA dsB).wfb = true ∧
      ∀ f ∈ dsA.features, f.missing_count ≤ f.count ∧
        (f.kind = .NUMERIC → histSum f.histogram = f.count - f.missing_count) ∧
        (kindIsCategorical f.kind = true →
          freqSum f.freq = f.count - f.missing_count) :=
  ⟨C7_statistics_invariants.1 rowsA none dW rfl,
    C7_statistics_invariants.2.1 dsA dsB (by decide) (by decide) (by decide),
    C7_statistics_invariants.2.2 dsA (by decide)⟩

/-- C9: `compute` fails with InvalidRecordError whenever some row carries
text in a column whose declared or inferred kind is NUMERIC, and on
success the missing count of every feature counts exactly the rows with a
null or absent cell, so a conflicting value is never silently converted
into a missing value. -/
theorem C9_invalid_record :
    (∀ (rows : List Row) (hint : Option Schema) (k s : String),
      featureKind rows hint k = .NUMERIC → Value.str s ∈ presentValues rows k →
      compute rows hint = .error .InvalidRecordError) ∧
    (∀ (rows : List Row) (hint : Option Schema) (d : DatasetStatistics),
      compute rows hint = .ok d →
      ∀ f ∈ d.features, f.missing_count = missingIn rows f.name) :=
  ⟨fun _ _ _ _ hkd hs => compute_invalid_of_str hkd hs,
    fun _ _ _ h => compute_ok_missing h⟩

/-- Witness for C9: the concrete rows `rowsW` fix column x NUMERIC by
their first record and carry text in their second record, so `compute`
fails; and on the successfully computed statistics of `rowsA` the missing
count of x counts exactly its one null cell. -/
theorem C9_invalid_record_witness :
    compute rowsW none = .error .InvalidRecordError ∧
      ∀ f ∈ dW.features, f.missing_count = missingIn rowsA f.name :=
  ⟨C9_invalid_record.1 rowsW none "x" "q" (by decide) (by decide),
    C9_invalid_record.2 rowsA none dW rfl⟩

theorem step1_shape (N : Nat) (st? : Option FeatureStatistics) (fs : FeatureSchema) :
    step1 N st? fs = [] ∨
      step1 N st? fs = [⟨fs.name, .MISSING_FEATURE, .ERROR, [], none⟩] := by
  unfold step1
  simp only []
  split
  · exact Or.inr rfl
  · exact Or.inl rfl

theorem step3_shape (N : Nat) (st? : Option FeatureStatistics) (fs : FeatureSchema) :
    step3 N st? fs = [] ∨
      step3 N st? fs = [⟨fs.name, .PRESENCE_BELOW_THRESHOLD, .ERROR, [], none⟩] := by
  unfold step3
  split
  · split
    · exact Or.inr rfl
    · exact Or.inl rfl
  · exact Or.inl rfl

theorem step4_shape (st? : Option FeatureStatistics) (fs : FeatureSchema) :
    step4 st? fs = [] ∨
      ∃ vs, step4 st? fs = [⟨fs.name, .UNEXPECTED_STRING_VALUES, .ERROR, vs, none⟩] := by
  unfold step4
  simp only []
  split
  · split
    · split
      · exact Or.inr ⟨_, rfl⟩
      · exact Or.inl rfl
    · exact Or.inl rfl
  · exact Or.inl rfl

theorem step4b_shape (st? : Option FeatureStatistics) (fs : FeatureSchema) :
    step4b st? fs = [] ∨
      step4b st? fs = [⟨fs.name, .DOMAIN_MASS_BELOW_THRESHOLD, .ERROR, [], none⟩] := by
  unfold step4b
  simp only []
  split
  · split
    · split
      · exact Or.inr rfl
      · exact Or.inl rfl
    · exact Or.inl rfl
  · exact Or.inl rfl

theorem step5_shape (st? : Option FeatureStatistics) (fs : FeatureSchema) :
    step5 st? fs = [] ∨
      ∃ e, step5 st? fs = [⟨fs.name, .OUT_OF_RANGE, .ERROR, [], some e⟩] := by
  unfold step5
  split
  · split
    · split
      · split
        · exact Or.inr ⟨_, rfl⟩
        · exact Or.inl rfl
      · exact Or.inl rfl
    · exact Or.inl rfl
  · exact Or.inl rfl

theorem step6_shape (st? pst? : Option FeatureStatistics) (fs : FeatureSchema) :
    step6 st? pst? fs = [] ∨
      step6 st? pst? fs = [⟨fs.name, .DISTRIBUTION_DRIFT, .WARNING, [], none⟩] := by
  unfold step6
  split
  · split
    · exact Or.inr rfl
    · exact Or.inl rfl
  · exact Or.inl rfl

theorem mem_step1_facts {N : Nat} {st? : Option FeatureStatistics} {fs : FeatureSchema}
    {a : Anomaly} (h : a ∈ step1 N st? fs) :
    a.featureName = fs.name ∧ a.kind = .MISSING_FEATURE ∧ a.severity = .ERROR := by
  rcases step1_shape N st? fs with hs | hs <;> rw [hs] at h
  · exact absurd h (List.not_mem_nil a)
  · rw [List.mem_singleton] at h
    subst h
    exact ⟨rfl, rfl, rfl⟩

theorem mem_step3_facts {N : Nat} {st? : Option FeatureStatistics} {fs : FeatureSchema}
    {a : Anomaly} (h : a ∈ step3 N st? fs) :
    a.featureName = fs.name ∧ a.kind = .PRESENCE_BELOW_THRESHOLD ∧ a.severity = .ERROR := by
  rcases step3_shape N st? fs with hs | hs <;> rw [hs] at h
  · exact absurd h (List.not_mem_nil a)
  · rw [List.mem_singleton] at h
    subst h
    exact ⟨rfl, rfl, rfl⟩

theorem mem_step4_facts {st? : Option FeatureStatistics} {fs : FeatureSchema}
    {a : Anomaly} (h : a ∈ step4 st? fs) :
    a.featureName = fs.name ∧ a.kind = .UNEXPECTED_STRING_VALUES ∧ a.severity = .ERROR := by
  rcases step4_shape st? fs with hs | ⟨vs, hs⟩ <;> rw [hs] at h
  · exact absurd h (List.not_mem_nil a)
  · rw [List.mem_singleton] at h
    subst h
    exact ⟨rfl, rfl, rfl⟩

theorem mem_step4b_facts {st? : Option FeatureStatistics} {fs : FeatureSchema}
    {a : Anomaly} (h : a ∈ step4b st? fs) :
    a.featureName = fs.name ∧ a.kind = .DOMAIN_MASS_BELOW_THRESHOLD ∧
      a.severity = .ERROR := by
  rcases step4b_shape st? fs with hs | hs <;> rw [hs] at h
  · exact absurd h (List.not_mem_nil a)
  · rw [List.mem_singleton] at h
    subst h
    exact ⟨rfl, rfl, rfl⟩

theorem mem_step5_facts {st? : Option FeatureStatistics} {fs : FeatureSchema}
    {a : Anomaly} (h : a ∈ step5 st? fs) :
    a.featureName = fs.name ∧ a.kind = .OUT_OF_RANGE ∧ a.severity = .ERROR := by
  rcases step5_shape st? fs with hs | ⟨e, hs⟩ <;> rw [hs] at h
  · exact absurd h (List.not_mem_nil a)
  · rw [List.mem_singleton] at h
    subst h
    exact ⟨rfl, rfl, rfl⟩

theorem mem_step6_facts {st? pst? : Option FeatureStatistics} {fs : FeatureSchema}
    {a : Anomaly} (h : a ∈ step6 st? pst? fs) :
    a.featureName = fs.name ∧ a.kind = .DISTRIBUTION_DRIFT ∧ a.severity = .WARNING := by
  rcases step6_shape st? pst? fs with hs | hs <;> rw [hs] at h
  · exact absurd h (List.not_mem_nil a)
  · rw [List.mem_singleton] at h
    subst h
    exact ⟨rfl, rfl, rfl⟩

theorem mem_featureAnomalies_name {N : Nat} {st? pst? : Option FeatureStatistics}
    {fs : FeatureSchema} {a : Anomaly} (h : a ∈ featureAnomalies N st? pst? fs) :
    a.featureName = fs.name := by
  unfold featureAnomalies at h
  rcases List.mem_append.mp h with h | h6
  rcases List.mem_append.mp h with h | h5
  rcases List.mem_append.mp h with h | h4b
  rcases List.mem_append.mp h with h | h4
  rcases List.mem_append.mp h with h1 | h3
  · exact (mem_step1_facts h1).1
  · exact (mem_step3_facts h3).1
  · exact (mem_step4_facts h4).1
  · exact (mem_step4b_facts h4b).1
  · exact (mem_step5_facts h5).1
  · exact (mem_step6_facts h6).1

theorem pairwise_len_le_one {R : Anomaly → Anomaly → Prop} :
    ∀ {l : List Anomaly}, l.length ≤ 1 → l.Pairwise R := by
  intro l
  cases l with
  | nil => exact fun _ => List.Pairwise.nil
  | cons a t =>
    cases t with
    | nil => exact fun _ => List.pairwise_singleton R a
    | cons b u =>
      intro h
      simp at h

theorem step_shape_len {l : List Anomaly} {x : Anomaly} (h : l = [] ∨ l = [x]) :
    l.length ≤ 1 := by
  rcases h with h | h <;> rw [h] <;> simp

theorem featureAnomalies_stepSorted (N : Nat) (st? pst? : Option FeatureStatistics)
    (fs : FeatureSchema) :
    (featureAnomalies N st? pst? fs).Pairwise
      (fun a b => stepIndex a.kind < stepIndex b.kind) := by
  have p1 : (step1 N st? fs).Pairwise (fun a b => stepIndex a.kind < stepIndex b.kind) :=
    pairwise_len_le_one (step_shape_len (step1_shape N st? fs))
  have p3 : (step3 N st? fs).Pairwise (fun a b => stepIndex a.kind < stepIndex b.kind) :=
    pairwise_len_le_one (step_shape_len (step3_shape N st? fs))
  have p4 : (step4 st? fs).Pairwise (fun a b => stepIndex a.kind < stepIndex b.kind) := by
    rcases step4_shape st? fs with hs | ⟨vs, hs⟩ <;> rw [hs]
    · exact List.Pairwise.nil
    · exact List.pairwise_singleton _ _
  have p4b : (step4b st? fs).Pairwise (fun a b => stepIndex a.kind < stepIndex b.kind) :=
    pairwise_len_le_one (step_shape_len (step4b_shape st? fs))
  have p5 : (step5 st? fs).Pairwise (fun a b => stepIndex a.kind < stepIndex b.kind) := by
    rcases step5_shape st? fs with hs | ⟨e, hs⟩ <;> rw [hs]
    · exact List.Pairwise.nil
    · exact List.pairwise_singleton _ _
  have p6 : (step6 st? pst? fs).Pairwise (fun a b => stepIndex a.kind < stepIndex b.kind) :=
    pairwise_len_le_one (step_shape_len (step6_shape st? pst? fs))
  unfold featureAnomalies
  rw [List.pairwise_append]
  refine ⟨?_, p6, ?_⟩
  · rw [List.pairwise_append]
    refine ⟨?_, p5, ?_⟩
    · rw [List.pairwise_append]
      refine ⟨?_, p4b, ?_⟩
      · rw [List.pairwise_append]
        refine ⟨?_, p4, ?_⟩
        · rw [List.pairwise_append]
          refine ⟨p1, p3, ?_⟩
          intro a ha b hb
          rw [(mem_step1_facts ha).2.1, (mem_step3_facts hb).2.1]
          decide
        · intro a ha b hb
          rcases List.mem_append.mp ha with h | h
          · rw [(mem_step1_facts h).2.1, (mem_step4_facts hb).2.1]
            decide
          · rw [(mem_step3_facts h).2.1, (mem_step4_facts hb).2.1]
            decide
      · intro a ha b hb
        rcases List.mem_append.mp ha with h | h4
        rcases List.mem_append.mp h with h | h3
        · rw [(mem_step1_facts h).2.1, (mem_step4b_facts hb).2.1]
          decide
        · rw [(mem_step3_facts h3).2.1, (mem_step4b_facts hb).2.1]
          decide
        · rw [(mem_step4_facts h4).2.1, (mem_step4b_facts hb).2.1]
          decide
    · intro a ha b hb
      rcases List.mem_append.mp ha with h | h4b
      rcases List.mem_append.mp h with h | h4
      rcases List.mem_append.mp h with h | h3
      · rw [(mem_step1_facts h).2.1, (mem_step5_facts hb).2.1]
        decide
      · rw [(mem_step3_facts h3).2.1, (mem_step5_facts hb).2.1]
        decide
      · rw [(mem_step4_facts h4).2.1, (mem_step5_facts hb).2.1]
        decide
      · rw [(mem_step4b_facts h4b).2.1, (mem_step5_facts hb).2.1]
        decide
  · intro a ha b hb
    rcases List.mem_append.mp ha with h | h5
    rcases List.mem_append.mp h with h | h4b
    rcases List.mem_append.mp h with h | h4
    rcases List.mem_append.mp h with h | h3
    · rw [(mem_step1_facts h).2.1, (mem_step6_facts hb).2.1]
      decide
    · rw [(mem_step3_facts h3).2.1, (mem_step6_facts hb).2.1]
      decide
    · rw [(mem_step4_facts h4).2.1, (mem_step6_facts hb).2.1]
      decide
    · rw [(mem_step4b_facts h4b).2.1, (mem_step6_facts hb).2.1]
      decide
    · rw [(mem_step5_facts h5).2.1, (mem_step6_facts hb).2.1]
      decide

theorem nodupNames_unique : ∀ {l : List FeatureSchema}, nodupNames l = true →
    ∀ {f1 f2 : FeatureSchema}, f1 ∈ l → f2 ∈ l → f1.name = f2.name → f1 = f2 := by
  intro l
  induction l with
  | nil =>
    intro _ f1 f2 h1
    exact absurd h1 (List.not_mem_nil f1)
  | cons a t ih =>
    intro hn f1 f2 h1 h2 hname
    unfold nodupNames at hn
    rw [Bool.and_eq_true] at hn
    have hany : t.any (fun b => b.name == a.name) = false := by
      have h0 := hn.1
      rwa [Bool.not_eq_true'] at h0
    have hno : ∀ b ∈ t, b.name ≠ a.name := by
      intro b hb hbn
      have hc : t.any (fun b => b.name == a.name) = true :=
        List.any_eq_true.mpr ⟨b, hb, beq_iff_eq.mpr hbn⟩
      rw [hany] at hc
      exact Bool.false_ne_true hc
    rcases List.mem_cons.mp h1 with rfl | h1t
    · rcases List.mem_cons.mp h2 with rfl | h2t
      · rfl
      · exact absurd hname.symm (hno f2 h2t)
    · rcases List.mem_cons.mp h2 with rfl | h2t
      · exact absurd hname (hno f1 h1t)
      · exact ih hn.2 h1t h2t hname

theorem mem_validate {stats : DatasetStatistics} {schema : Schema} {env : Option String}
    {prev? : Option DatasetStatistics} {a : Anomaly}
    (h : a ∈ validate stats schema env prev?) :
    (∃ fs ∈ schema.features, excludedIn fs env = false ∧
      a ∈ featureAnomalies stats.total_record_count (findStat stats fs.name)
        (prev?.bind fun pd => findStat pd fs.name) fs) ∨
    (a.kind = .UNEXPECTED_FEATURE ∧ a.severity = .WARNING ∧
      hasFeature schema a.featureName = false) := by
  unfold validate at h
  rcases List.mem_append.mp h with h | h
  · rw [List.mem_flatten] at h
    obtain ⟨l, hl, hal⟩ := h
    rw [List.mem_map] at hl
    obtain ⟨fs, hfs, hmap⟩ := hl
    subst hmap
    left
    by_cases hex : excludedIn fs env = true
    · rw [if_pos hex] at hal
      exact absurd hal (List.not_mem_nil a)
    · rw [if_neg hex] at hal
      exact ⟨fs, hfs, Bool.eq_false_iff.mpr hex, hal⟩
  · rw [List.mem_map] at h
    obtain ⟨st, hst, ha⟩ := h
    rw [List.mem_filter] at hst
    right
    subst ha
    refine ⟨rfl, rfl, ?_⟩
    have h2 := hst.2
    rwa [Bool.not_eq_true'] at h2

theorem validate_missing_mem {stats : DatasetStatistics} {schema : Schema}
    {env : Option String} {prev? : Option DatasetStatistics} {fs : FeatureSchema}
    (hfs : fs ∈ schema.features) (hex : excludedIn fs env = false)
    (habs : match findStat stats fs.name with
      | none => True
      | some st => st.missing_count = stats.total_record_count) :
    (⟨fs.name, .MISSING_FEATURE, .ERROR, [], none⟩ : Anomaly) ∈
      validate stats schema env prev? := by
  unfold validate
  apply List.mem_append_left
  rw [List.mem_flatten]
  refine ⟨_, List.mem_map.mpr ⟨fs, hfs, rfl⟩, ?_⟩
  rw [if_neg (by rw [hex]; exact Bool.false_ne_true)]
  unfold featureAnomalies
  apply List.mem_append_left
  apply List.mem_append_left
  apply List.mem_append_left
  apply List.mem_append_left
  apply List.mem_append_left
  unfold step1
  simp only []
  have hcond : (match findStat stats fs.name with
      | none => true
      | some st => st.missing_count == stats.total_record_count) = true := by
    cases hfind : findStat stats fs.name with
    | none => rfl
    | some st =>
      rw [hfind] at habs
      simp [habs]
  rw [if_pos hcond]
  exact List.mem_singleton.mpr rfl

theorem validate_excluded_silent {stats : DatasetStatistics} {schema : Schema}
    {env : Option String} {prev? : Option DatasetStatistics} {fs : FeatureSchema}
    (hnd : nodupNames schema.features = true) (hfs : fs ∈ schema.features)
    (hex : excludedIn fs env = true) :
    ∀ a ∈ validate stats schema env prev?, a.featureName ≠ fs.name := by
  intro a ha hname
  rcases mem_validate ha with ⟨fs2, hfs2, hex2, hmem⟩ | ⟨_, _, hnf⟩
  · have hn2 : a.featureName = fs2.name := mem_featureAnomalies_name hmem
    have heq : fs2 = fs := nodupNames_unique hnd hfs2 hfs (hn2.symm.trans hname)
    rw [heq, hex] at hex2
    exact absurd hex2 (by simp)
  · have hhf : hasFeature schema a.featureName = true := by
      unfold hasFeature
      refine List.any_eq_true.mpr ⟨fs, hfs, ?_⟩
      rw [hname]
      exact beq_self_eq_true _
    rw [hhf] at hnf
    exact absurd hnf (by simp)

/-- C1: a schema-declared feature entirely absent from the statistics
draws a MISSING_FEATURE anomaly of severity ERROR unless the feature is
excluded from the validation environment, in which case no anomaly of that
feature appears at all; on scenario C the serving validation is silent and
the training validation reports exactly the one missing label feature. -/
theorem C1_missing_feature :
    (∀ (stats : DatasetStatistics) (schema : Schema) (env : Option String)
       (prev? : Option DatasetStatistics) (fs : FeatureSchema),
      fs ∈ schema.features → excludedIn fs env = false →
      (match findStat stats fs.name with
        | none => True
        | some st => st.missing_count = stats.total_record_count) →
      (⟨fs.name, .MISSING_FEATURE, .ERROR, [], none⟩ : Anomaly) ∈
        validate stats schema env prev?) ∧
    (∀ (stats : DatasetStatistics) (schema : Schema) (env : Option String)
       (prev? : Option DatasetStatistics) (fs : FeatureSchema),
      nodupNames schema.features = true → fs ∈ schema.features →
      excludedIn fs env = true →
      ∀ a ∈ validate stats schema env prev?, a.featureName ≠ fs.name) ∧
    validate statsC schemaC (some "SERVING") none = [] ∧
    validate statsC schemaC (some "TRAINING") none =
      [⟨"label", .MISSING_FEATURE, .ERROR, [], none⟩] :=
  ⟨fun _ _ _ _ _ hfs hex habs => validate_missing_mem hfs hex habs,
    fun _ _ _ _ _ hnd hfs hex => validate_excluded_silent hnd hfs hex,
    by decide, by decide⟩

/-- Witness for C1: the missing label feature of scenario C is reported
when validating for the TRAINING environment. -/
theorem C1_missing_feature_witness :
    (⟨"label", .MISSING_FEATURE, .ERROR, [], none⟩ : Anomaly) ∈
      validate statsC schemaC (some "TRAINING") none :=
  C1_missing_feature.1 statsC schemaC (some "TRAINING") none
    ⟨"label", .CATEGORICAL_STRING, none, [], none, none, none, ["SERVING"]⟩
    (by decide) (by decide) rfl

theorem countAnom_append (l1 l2 : List Anomaly) (n : String) (k : AnomalyKind) :
    countAnom (l1 ++ l2) n k = countAnom l1 n k + countAnom l2 n k := by
  unfold countAnom
  rw [List.filter_append, List.length_append]

theorem countAnom_eq_zero_of {l : List Anomaly} {n : String} {k : AnomalyKind}
    (h : ∀ a ∈ l, a.featureName ≠ n ∨ a.kind ≠ k) : countAnom l n k = 0 := by
  unfold countAnom
  rw [List.length_eq_zero, List.filter_eq_nil_iff]
  intro a ha
  rcases h a ha with hn | hk
  · simp [hn]
  · simp [hk]

theorem countAnom_singleton_self (n : String) (k : AnomalyKind) (sv : Severity)
    (vs : List String) (e : Option ℚ) :
    countAnom [⟨n, k, sv, vs, e⟩] n k = 1 := by
  simp [countAnom]

theorem countAnom_flatten {g : FeatureSchema → List Anomaly}
    (hg : ∀ fs2 a, a ∈ g fs2 → a.featureName = fs2.name) :
    ∀ {l : List FeatureSchema}, nodupNames l = true → ∀ {fs : FeatureSchema}, fs ∈ l →
      ∀ k, countAnom ((l.map g).flatten) fs.name k = countAnom (g fs) fs.name k := by
  intro l
  induction l with
  | nil =>
    intro _ fs h
    exact absurd h (List.not_mem_nil fs)
  | cons b t ih =>
    intro hn fs hfs k
    unfold nodupNames at hn
    rw [Bool.and_eq_true] at hn
    have hany : t.any (fun c => c.name == b.name) = false := by
      have h0 := hn.1
      rwa [Bool.not_eq_true'] at h0
    rw [List.map_cons, List.flatten_cons, countAnom_append]
    rcases List.mem_cons.mp hfs with rfl | hft
    · have ht0 : countAnom ((t.map g).flatten) fs.name k = 0 := by
        apply countAnom_eq_zero_of
        intro a ha
        left
        rw [List.mem_flatten] at ha
        obtain ⟨l2, hl2, hal⟩ := ha
        rw [List.mem_map] at hl2
        obtain ⟨fs2, hfs2, rfl⟩ := hl2
        rw [hg fs2 a hal]
        intro heq
        have hc : t.any (fun c => c.name == fs.name) = true :=
          List.any_eq_true.mpr ⟨fs2, hfs2, beq_iff_eq.mpr heq⟩
        rw [hany] at hc
        exact Bool.false_ne_true hc
      rw [ht0, Nat.add_zero]
    · have hb0 : countAnom (g b) fs.name k = 0 := by
        apply countAnom_eq_zero_of
        intro a ha
        left
        rw [hg b a ha]
        intro hbn
        have hc : t.any (fun c => c.name == b.name) = true :=
          List.any_eq_true.mpr ⟨fs, hft, beq_iff_eq.mpr hbn.symm⟩
        rw [hany] at hc
        exact Bool.false_ne_true hc
      rw [hb0, ih hn.2 hft, Nat.zero_add]

theorem countAnom_unexpected_tail {l : List FeatureStatistics} {n : String}
    {k : AnomalyKind} (hk : k ≠ .UNEXPECTED_FEATURE) :
    countAnom (l.map fun st =>
      (⟨st.name, .UNEXPECTED_FEATURE, .WARNING, [], none⟩ : Anomaly)) n k = 0 := by
  apply countAnom_eq_zero_of
  intro a ha
  right
  rw [List.mem_map] at ha
  obtain ⟨st, _, rfl⟩ := ha
  exact fun hkk => hk hkk.symm

theorem countAnom_validate {stats : DatasetStatistics} {schema : Schema}
    {env : Option String} {prev? : Option DatasetStatistics} {fs : FeatureSchema}
    {k : AnomalyKind} (hnd : nodupNames schema.features = true)
    (hfs : fs ∈ schema.features) (hex : excludedIn fs env = false)
    (hk : k ≠ .UNEXPECTED_FEATURE) :
    countAnom (validate stats schema env prev?) fs.name k =
      countAnom (featureAnomalies stats.total_record_count (findStat stats fs.name)
        (prev?.bind fun pd => findStat pd fs.name) fs) fs.name k := by
  unfold validate
  rw [countAnom_append, countAnom_unexpected_tail hk, Nat.add_zero]
  have hg : ∀ fs2 a, a ∈ (if excludedIn fs2 env = true then [] else
      featureAnomalies stats.total_record_count (findStat stats fs2.name)
        (prev?.bind fun pd => findStat pd fs2.name) fs2) → a.featureName = fs2.name := by
    intro fs2 a ha
    by_cases hx : excludedIn fs2 env = true
    · rw [if_pos hx] at ha
      exact absurd ha (List.not_mem_nil a)
    · rw [if_neg hx] at ha
      exact mem_featureAnomalies_name ha
  rw [countAnom_flatten hg hnd hfs k, if_neg (by rw [hex]; exact Bool.false_ne_true)]

theorem mem_insDesc {x a : String × Nat} : ∀ {l : List (String × Nat)},
    a ∈ insDesc x l ↔ a = x ∨ a ∈ l := by
  intro l
  induction l with
  | nil => simp [insDesc]
  | cons b t ih =>
    unfold insDesc
    by_cases h1 : b.2 < x.2
    · rw [if_pos h1]
      simp [List.mem_cons]
    · rw [if_neg h1]
      rw [List.mem_cons, ih, List.mem_cons]
      tauto

theorem insDesc_sorted {x : String × Nat} : ∀ {l : List (String × Nat)},
    l.Pairwise (fun p q => q.2 ≤ p.2) → (insDesc x l).Pairwise (fun p q => q.2 ≤ p.2) := by
  intro l
  induction l with
  | nil =>
    intro _
    exact List.pairwise_singleton _ _
  | cons a t ih =>
    intro hs
    rw [List.pairwise_cons] at hs
    unfold insDesc
    by_cases h1 : a.2 < x.2
    · rw [if_pos h1, List.pairwise_cons]
      refine ⟨?_, List.pairwise_cons.mpr hs⟩
      intro q hq
      rcases List.mem_cons.mp hq with rfl | hq2
      · exact Nat.le_of_lt h1
      · exact Nat.le_trans (hs.1 q hq2) (Nat.le_of_lt h1)
    · rw [if_neg h1, List.pairwise_cons]
      refine ⟨?_, ih hs.2⟩
      intro q hq
      rcases mem_insDesc.mp hq with rfl | hq2
      · exact Nat.le_of_not_lt h1
      · exact hs.1 q hq2

theorem sortDesc_sorted (l : List (String × Nat)) :
    (sortDesc l).Pairwise (fun p q => q.2 ≤ p.2) := by
  unfold sortDesc
  induction l with
  | nil => exact List.Pairwise.nil
  | cons a t ih =>
    rw [List.foldr_cons]
    exact insDesc_sorted ih

theorem mem_sortDesc {a : String × Nat} : ∀ {l : List (String × Nat)},
    a ∈ sortDesc l ↔ a ∈ l := by
  intro l
  induction l with
  | nil => simp [sortDesc]
  | cons b t ih =>
    unfold sortDesc at ih ⊢
    rw [List.foldr_cons, mem_insDesc, ih, List.mem_cons]

theorem mem_offendingOf {st : FeatureStatistics} {dom : List String} {p : String × Nat}
    (hp : p ∈ offendingOf st dom) : p ∈ st.freq ∧ p.1 ∉ dom := by
  unfold offendingOf at hp
  rw [List.mem_filter] at hp
  refine ⟨hp.1, ?_⟩
  have h2 := hp.2
  rw [Bool.not_eq_true'] at h2
  intro hmem
  simp [hmem] at h2

theorem freqIn_of_mem {st : FeatureStatistics} {p : String × Nat}
    (hs : sortedKeys Prod.fst st.freq = true) (hp : p ∈ st.freq) :
    freqIn st p.1 = p.2 := by
  unfold freqIn
  rw [findK_self (sortedKeys_iff.mp hs) hp]

theorem step4_triggered {st : FeatureStatistics} {fs : FeatureSchema}
    (hk : kindIsCategorical fs.kind = true) (hne : fs.domain_values ≠ [])
    (hoff : 0 < freqSum (offendingOf st fs.domain_values)) :
    step4 (some st) fs =
      [⟨fs.name, .UNEXPECTED_STRING_VALUES, .ERROR,
        ((sortDesc (offendingOf st fs.domain_values)).map Prod.fst).take 5, none⟩] := by
  unfold step4
  simp only []
  rw [if_pos (by rw [hk]; simp [hne]), if_pos hoff]

theorem step4_silent {st : FeatureStatistics} {fs : FeatureSchema}
    (hoff : freqSum (offendingOf st fs.domain_values) = 0) :
    step4 (some st) fs = [] := by
  unfold step4
  simp only []
  by_cases hc : (kindIsCategorical fs.kind && !fs.domain_values.isEmpty) = true
  · rw [if_pos hc, if_neg (by rw [hoff]; exact Nat.lt_irrefl 0)]
  · rw [if_neg hc]

theorem countAnom_featureAnomalies_unexpected (N : Nat)
    (st? pst? : Option FeatureStatistics) (fs : FeatureSchema) :
    countAnom (featureAnomalies N st? pst? fs) fs.name .UNEXPECTED_STRING_VALUES =
      countAnom (step4 st? fs) fs.name .UNEXPECTED_STRING_VALUES := by
  unfold featureAnomalies
  rw [countAnom_append, countAnom_append, countAnom_append, countAnom_append,
    countAnom_append]
  have z1 : countAnom (step1 N st? fs) fs.name .UNEXPECTED_STRING_VALUES = 0 :=
    countAnom_eq_zero_of fun a ha => Or.inr (by rw [(mem_step1_facts ha).2.1]; decide)
  have z3 : countAnom (step3 N st? fs) fs.name .UNEXPECTED_STRING_VALUES = 0 :=
    countAnom_eq_zero_of fun a ha => Or.inr (by rw [(mem_step3_facts ha).2.1]; decide)
  have z4b : countAnom (step4b st? fs) fs.name .UNEXPECTED_STRING_VALUES = 0 :=
    countAnom_eq_zero_of fun a ha => Or.inr (by rw [(mem_step4b_facts ha).2.1]; decide)
  have z5 : countAnom (step5 st? fs) fs.name .UNEXPECTED_STRING_VALUES = 0 :=
    countAnom_eq_zero_of fun a ha => Or.inr (by rw [(mem_step5_facts ha).2.1]; decide)
  have z6 : countAnom (step6 st? pst? fs) fs.name .UNEXPECTED_STRING_VALUES = 0 :=
    countAnom_eq_zero_of fun a ha => Or.inr (by rw [(mem_step6_facts ha).2.1]; decide)
  rw [z1, z3, z4b, z5, z6]
  omega

theorem validate_mem_of_featureAnomalies {stats : DatasetStatistics} {schema : Schema}
    {env : Option String} {prev? : Option DatasetStatistics} {fs : FeatureSchema}
    {a : Anomaly} (hfs : fs ∈ schema.features) (hex : excludedIn fs env = false)
    (ha : a ∈ featureAnomalies stats.total_record_count (findStat stats fs.name)
      (prev?.bind fun pd => findStat pd fs.name) fs) :
    a ∈ validate stats schema env prev? := by
  unfold validate
  apply List.mem_append_left
  rw [List.mem_flatten]
  refine ⟨_, List.mem_map.mpr ⟨fs, hfs, rfl⟩, ?_⟩
  rw [if_neg (by rw [hex]; exact Bool.false_ne_true)]
  exact ha

theorem featureAnomalies_mem_step3 {N : Nat} {st? pst? : Option FeatureStatistics}
    {fs : FeatureSchema} {a : Anomaly} (h : a ∈ step3 N st? fs) :
    a ∈ featureAnomalies N st? pst? fs := by
  unfold featureAnomalies
  apply List.mem_append_left
  apply List.mem_append_left
  apply List.mem_append_left
  apply List.mem_append_left
  exact List.mem_append_right _ h

theorem featureAnomalies_mem_step4 {N : Nat} {st? pst? : Option FeatureStatistics}
    {fs : FeatureSchema} {a : Anomaly} (h : a ∈ step4 st? fs) :
    a ∈ featureAnomalies N st? pst? fs := by
  unfold featureAnomalies
  apply List.mem_append_left
  apply List.mem_append_left
  apply List.mem_append_left
  exact List.mem_append_right _ h

theorem featureAnomalies_mem_step5 {N : Nat} {st? pst? : Option FeatureStatistics}
    {fs : FeatureSchema} {a : Anomaly} (h : a ∈ step5 st? fs) :
    a ∈ featureAnomalies N st? pst? fs := by
  unfold featureAnomalies
  apply List.mem_append_left
  exact List.mem_append_right _ h

/-- C4: a categorical feature with a non-empty allowed domain draws exactly
one UNEXPECTED_STRING_VALUES anomaly of severity ERROR when observed
frequency mass falls outside the domain, the anomaly names at most five
offending values ordered by descending observed frequency, and no such
anomaly appears when no observed mass lies outside the domain; on scenario
B one anomaly cites green, and adding green to the domain removes it. -/
theorem C4_unexpected_string_values :
    (∀ (stats : DatasetStatistics) (schema : Schema) (env : Option String)
       (prev? : Option DatasetStatistics) (fs : FeatureSchema) (st : FeatureStatistics),
      nodupNames schema.features = true → fs ∈ schema.features →
      excludedIn fs env = false → findStat stats fs.name = some st →
      kindIsCategorical fs.kind = true → fs.domain_values ≠ [] →
      0 < freqSum (offendingOf st fs.domain_values) →
      countAnom (validate stats schema env prev?) fs.name .UNEXPECTED_STRING_VALUES = 1 ∧
      (⟨fs.name, .UNEXPECTED_STRING_VALUES, .ERROR,
        ((sortDesc (offendingOf st fs.domain_values)).map Prod.fst).take 5, none⟩ :
          Anomaly) ∈ validate stats schema env prev? ∧
      (((sortDesc (offendingOf st fs.domain_values)).map Prod.fst).take 5).length ≤ 5 ∧
      (∀ v ∈ ((sortDesc (offendingOf st fs.domain_values)).map Prod.fst).take 5,
        v ∉ fs.domain_values) ∧
      (sortedKeys Prod.fst st.freq = true →
        (((sortDesc (offendingOf st fs.domain_values)).map Prod.fst).take 5).Pairwise
          fun v w => freqIn st w ≤ freqIn st v)) ∧
    (∀ (stats : DatasetStatistics) (schema : Schema) (env : Option String)
       (prev? : Option DatasetStatistics) (fs : FeatureSchema) (st : FeatureStatistics),
      nodupNames schema.features = true → fs ∈ schema.features →
      excludedIn fs env = false → findStat stats fs.name = some st →
      freqSum (offendingOf st fs.domain_values) = 0 →
      countAnom (validate stats schema env prev?) fs.name
        .UNEXPECTED_STRING_VALUES = 0) ∧
    validate statsB schemaB none none =
      [⟨"color", .UNEXPECTED_STRING_VALUES, .ERROR, ["green"], none⟩] ∧
    add_domain_value schemaB "color" "green" =
      .ok ⟨[⟨"color", .CATEGORICAL_STRING, none, ["red", "blue", "green"], none, none,
        none, []⟩], []⟩ ∧
    validate statsB
      ⟨[⟨"color", .CATEGORICAL_STRING, none, ["red", "blue", "green"], none, none,
        none, []⟩], []⟩ none none = [] := by
  refine ⟨?_, ?_, by decide, by rfl, by decide⟩
  · intro stats schema env prev? fs st hnd hfs hex hfind hk hne hoff
    have hstep := step4_triggered hk hne hoff
    refine ⟨?_, ?_, ?_, ?_, ?_⟩
    · rw [countAnom_validate hnd hfs hex (by decide),
        countAnom_featureAnomalies_unexpected, hfind, hstep, countAnom_singleton_self]
    · apply validate_mem_of_featureAnomalies hfs hex
      apply featureAnomalies_mem_step4
      rw [hfind, hstep]
      exact List.mem_singleton.mpr rfl
    · rw [List.length_take]
      exact Nat.min_le_left _ _
    · intro v hv
      have hv2 : v ∈ (sortDesc (offendingOf st fs.domain_values)).map Prod.fst :=
        List.mem_of_mem_take hv
      rw [List.mem_map] at hv2
      obtain ⟨p, hp, rfl⟩ := hv2
      exact (mem_offendingOf (mem_sortDesc.mp hp)).2
    · intro hsf
      have P1 : (sortDesc (offendingOf st fs.domain_values)).Pairwise
          (fun p q => freqIn st q.1 ≤ freqIn st p.1) := by
        refine List.Pairwise.imp_of_mem ?_
          (sortDesc_sorted (offendingOf st fs.domain_values))
        intro p q hp hq hle
        rw [freqIn_of_mem hsf (mem_offendingOf (mem_sortDesc.mp hp)).1,
          freqIn_of_mem hsf (mem_offendingOf (mem_sortDesc.mp hq)).1]
        exact hle
      exact List.Pairwise.sublist (List.take_sublist 5 _) (List.pairwise_map.mpr P1)
  · intro stats schema env prev? fs st hnd hfs hex hfind hoff0
    rw [countAnom_validate hnd hfs hex (by decide),
      countAnom_featureAnomalies_unexpected, hfind, step4_silent hoff0]
    rfl

/-- Witness for C4 at scenario B: exactly one unexpected-values anomaly
for the color feature. -/
theorem C4_unexpected_string_values_witness :
    countAnom (validate statsB schemaB none none) "color" .UNEXPECTED_STRING_VALUES = 1 :=
  (C4_unexpected_string_values.1 statsB schemaB none none
    ⟨"color", .CATEGORICAL_STRING, none, ["red", "blue"], none, none, none, []⟩
    ⟨"color", .CATEGORICAL_STRING, 10, 0, 0, 0, none, none, [],
      [("blue", 3), ("green", 4), ("red", 3)]⟩
    (by decide) (by decide) (by decide) (by decide) (by decide) (by decide)
    (by decide)).1

theorem step3_triggered {N : Nat} {st : FeatureStatistics} {fs : FeatureSchema} {p : ℚ}
    (hp : fs.min_presence_fraction = some p)
    (hlt : 1 - (st.missing_count : ℚ) / (N : ℚ) < p) :
    step3 N (some st) fs = [⟨fs.name, .PRESENCE_BELOW_THRESHOLD, .ERROR, [], none⟩] := by
  unfold step3
  rw [hp]
  show (if 1 - (st.missing_count : ℚ) / (N : ℚ) < p then
      [(⟨fs.name, .PRESENCE_BELOW_THRESHOLD, .ERROR, [], none⟩ : Anomaly)] else []) = _
  rw [if_pos hlt]

theorem step3_silent {N : Nat} {st : FeatureStatistics} {fs : FeatureSchema} {p : ℚ}
    (hp : fs.min_presence_fraction = some p)
    (hge : ¬(1 - (st.missing_count : ℚ) / (N : ℚ) < p)) :
    step3 N (some st) fs = [] := by
  unfold step3
  rw [hp]
  show (if 1 - (st.missing_count : ℚ) / (N : ℚ) < p then
      [(⟨fs.name, .PRESENCE_BELOW_THRESHOLD, .ERROR, [], none⟩ : Anomaly)] else []) = _
  rw [if_neg hge]

theorem step5_triggered {st : FeatureStatistics} {fs : FeatureSchema} {lo hi a b : ℚ}
    (hkd : fs.kind = .NUMERIC) (hdom : fs.numeric_domain = some (lo, hi))
    (hmin : st.min = some a) (hmax : st.max = some b) (hout : a < lo ∨ hi < b) :
    step5 (some st) fs =
      [⟨fs.name, .OUT_OF_RANGE, .ERROR, [], some (max (lo - a) (b - hi))⟩] := by
  unfold step5
  rw [hdom]
  show (if (fs.kind == FeatureKind.NUMERIC) = true then
      match st.min, st.max with
      | some a, some b =>
        if a < lo ∨ hi < b then
          [(⟨fs.name, .OUT_OF_RANGE, .ERROR, [], some (max (lo - a) (b - hi))⟩ : Anomaly)]
        else []
      | _, _ => []
    else []) = _
  rw [if_pos (by rw [hkd]; rfl), hmin, hmax]
  show (if a < lo ∨ hi < b then
      [(⟨fs.name, .OUT_OF_RANGE, .ERROR, [], some (max (lo - a) (b - hi))⟩ : Anomaly)]
    else []) = _
  rw [if_pos hout]

theorem step5_silent {st : FeatureStatistics} {fs : FeatureSchema} {lo hi a b : ℚ}
    (hdom : fs.numeric_domain = some (lo, hi)) (hmin : st.min = some a)
    (hmax : st.max = some b) (hin : ¬(a < lo ∨ hi < b)) :
    step5 (some st) fs = [] := by
  unfold step5
  rw [hdom]
  by_cases hkd : (fs.kind == FeatureKind.NUMERIC) = true
  · show (if (fs.kind == FeatureKind.NUMERIC) = true then
        match st.min, st.max with
        | some a, some b =>
          if a < lo ∨ hi < b then
            [(⟨fs.name, .OUT_OF_RANGE, .ERROR, [],
              some (max (lo - a) (b - hi))⟩ : Anomaly)]
          else []
        | _, _ => []
      else []) = _
    rw [if_pos hkd, hmin, hmax]
    show (if a < lo ∨ hi < b then
        [(⟨fs.name, .OUT_OF_RANGE, .ERROR, [], some (max (lo - a) (b - hi))⟩ : Anomaly)]
      else []) = _
    rw [if_neg hin]
  · show (if (fs.kind == FeatureKind.NUMERIC) = true then
        match st.min, st.max with
        | some a, some b =>
          if a < lo ∨ hi < b then
            [(⟨fs.name, .OUT_OF_RANGE, .ERROR, [],
              some (max (lo - a) (b - hi))⟩ : Anomaly)]
          else []
        | _, _ => []
      else []) = _
    rw [if_neg hkd]

theorem countAnom_featureAnomalies_presence (N : Nat)
    (st? pst? : Option FeatureStatistics) (fs : FeatureSchema) :
    countAnom (featureAnomalies N st? pst? fs) fs.name .PRESENCE_BELOW_THRESHOLD =
      countAnom (step3 N st? fs) fs.name .PRESENCE_BELOW_THRESHOLD := by
  unfold featureAnomalies
  rw [countAnom_append, countAnom_append, countAnom_append, countAnom_append,
    countAnom_append]
  have z1 : countAnom (step1 N st? fs) fs.name .PRESENCE_BELOW_THRESHOLD = 0 :=
    countAnom_eq_zero_of fun a ha => Or.inr (by rw [(mem_step1_facts ha).2.1]; decide)
  have z4 : countAnom (step4 st? fs) fs.name .PRESENCE_BELOW_THRESHOLD = 0 :=
    countAnom_eq_zero_of fun a ha => Or.inr (by rw [(mem_step4_facts ha).2.1]; decide)
  have z4b : countAnom (step4b st? fs) fs.name .PRESENCE_BELOW_THRESHOLD = 0 :=
    countAnom_eq_zero_of fun a ha => Or.inr (by rw [(mem_step4b_facts ha).2.1]; decide)
  have z5 : countAnom (step5 st? fs) fs.name .PRESENCE_BELOW_THRESHOLD = 0 :=
    countAnom_eq_zero_of fun a ha => Or.inr (by rw [(mem_step5_facts ha).2.1]; decide)
  have z6 : countAnom (step6 st? pst? fs) fs.name .PRESENCE_BELOW_THRESHOLD = 0 :=
    countAnom_eq_zero_of fun a ha => Or.inr (by rw [(mem_step6_facts ha).2.1]; decide)
  rw [z1, z4, z4b, z5, z6]
  omega

theorem countAnom_featureAnomalies_range (N : Nat)
    (st? pst? : Option FeatureStatistics) (fs : FeatureSchema) :
    countAnom (featureAnomalies N st? pst? fs) fs.name .OUT_OF_RANGE =
      countAnom (step5 st? fs) fs.name .OUT_OF_RANGE := by
  unfold featureAnomalies
  rw [countAnom_append, countAnom_append, countAnom_append, countAnom_append,
    countAnom_append]
  have z1 : countAnom (step1 N st? fs) fs.name .OUT_OF_RANGE = 0 :=
    countAnom_eq_zero_of fun a ha => Or.inr (by rw [(mem_step1_facts ha).2.1]; decide)
  have z3 : countAnom (step3 N st? fs) fs.name .OUT_OF_RANGE = 0 :=
    countAnom_eq_zero_of fun a ha => Or.inr (by rw [(mem_step3_facts ha).2.1]; decide)
  have z4 : countAnom (step4 st? fs) fs.name .OUT_OF_RANGE = 0 :=
    countAnom_eq_zero_of fun a ha => Or.inr (by rw [(mem_step4_facts ha).2.1]; decide)
  have z4b : countAnom (step4b st? fs) fs.name .OUT_OF_RANGE = 0 :=
    countAnom_eq_zero_of fun a ha => Or.inr (by rw [(mem_step4b_facts ha).2.1]; decide)
  have z6 : countAnom (step6 st? pst? fs) fs.name .OUT_OF_RANGE = 0 :=
    countAnom_eq_zero_of fun a ha => Or.inr (by rw [(mem_step6_facts ha).2.1]; decide)
  rw [z1, z3, z4, z4b, z6]
  omega

/-- C6: a feature with a declared minimum presence fraction draws exactly
one PRESENCE_BELOW_THRESHOLD anomaly of severity ERROR when
1 - missing_count/total_record_count falls below the fraction, and none
otherwise; on scenario E, after set_min_presence("airline", 1), statistics
with 3 of 1000 records missing produce the presence anomaly. -/
theorem C6_presence_threshold :
    (∀ (stats : DatasetStatistics) (schema : Schema) (env : Option String)
       (prev? : Option DatasetStatistics) (fs : FeatureSchema) (st : FeatureStatistics)
       (p : ℚ),
      nodupNames schema.features = true → fs ∈ schema.features →
      excludedIn fs env = false → findStat stats fs.name = some st →
      fs.min_presence_fraction = some p →
      1 - (st.missing_count : ℚ) / (stats.total_record_count : ℚ) < p →
      countAnom (validate stats schema env prev?) fs.name
        .PRESENCE_BELOW_THRESHOLD = 1 ∧
      (⟨fs.name, .PRESENCE_BELOW_THRESHOLD, .ERROR, [], none⟩ : Anomaly) ∈
        validate stats schema env prev?) ∧
    (∀ (stats : DatasetStatistics) (schema : Schema) (env : Option String)
       (prev? : Option DatasetStatistics) (fs : FeatureSchema) (st : FeatureStatistics)
       (p : ℚ),
      nodupNames schema.features = true → fs ∈ schema.features →
      excludedIn fs env = false → findStat stats fs.name = some st →
      fs.min_presence_fraction = some p →
      ¬(1 - (st.missing_count : ℚ) / (stats.total_record_count : ℚ) < p) →
      countAnom (validate stats schema env prev?) fs.name
        .PRESENCE_BELOW_THRESHOLD = 0) ∧
    set_min_presence schemaE0 "airline" 1 = .ok schemaE := by
  refine ⟨?_, ?_, by rfl⟩
  · intro stats schema env prev? fs st p hnd hfs hex hfind hp hlt
    have hstep := step3_triggered hp hlt
    constructor
    · rw [countAnom_validate hnd hfs hex (by decide),
        countAnom_featureAnomalies_presence, hfind, hstep, countAnom_singleton_self]
    · apply validate_mem_of_featureAnomalies hfs hex
      apply featureAnomalies_mem_step3
      rw [hfind, hstep]
      exact List.mem_singleton.mpr rfl
  · intro stats schema env prev? fs st p hnd hfs hex hfind hp hge
    rw [countAnom_validate hnd hfs hex (by decide),
      countAnom_featureAnomalies_presence, hfind, step3_silent hp hge]
    rfl

/-- Witness for C6 at scenario E: exactly one presence anomaly for the
airline feature, whose presence 997/1000 falls below the declared minimum
presence 1. -/
theorem C6_presence_threshold_witness :
    countAnom (validate statsE schemaE none none) "airline"
      .PRESENCE_BELOW_THRESHOLD = 1 ∧
    (⟨"airline", .PRESENCE_BELOW_THRESHOLD, .ERROR, [], none⟩ : Anomaly) ∈
      validate statsE schemaE none none :=
  C6_presence_threshold.1 statsE schemaE none none
    ⟨"airline", .CATEGORICAL_STRING, some 1, [], none, none, none, []⟩
    ⟨"airline", .CATEGORICAL_STRING, 1000, 3, 0, 0, none, none, [], [("AA", 997)]⟩ 1
    (by decide) (by decide) (by decide) (by decide) rfl
    (by show (1 : ℚ) - ((3 : ℕ) : ℚ) / ((1000 : ℕ) : ℚ) < 1; norm_num)

/-- C5: a numeric feature with declared domain draws exactly one
OUT_OF_RANGE anomaly of severity ERROR when the observed minimum or
maximum leaves the domain, reporting the out-of-range extent, and none
when both stay inside; on scenario D the observed maximum 500 over the
domain up to 480 yields the anomaly with extent 20. -/
theorem C5_out_of_range :
    (∀ (stats : DatasetStatistics) (schema : Schema) (env : Option String)
       (prev? : Option DatasetStatistics) (fs : FeatureSchema) (st : FeatureStatistics)
       (lo hi a b : ℚ),
      nodupNames schema.features = true → fs ∈ schema.features →
      excludedIn fs env = false → findStat stats fs.name = some st →
      fs.kind = .NUMERIC → fs.numeric_domain = some (lo, hi) →
      st.min = some a → st.max = some b → (a < lo ∨ hi < b) →
      countAnom (validate stats schema env prev?) fs.name .OUT_OF_RANGE = 1 ∧
      (⟨fs.name, .OUT_OF_RANGE, .ERROR, [], some (max (lo - a) (b - hi))⟩ : Anomaly) ∈
        validate stats schema env prev?) ∧
    (∀ (stats : DatasetStatistics) (schema : Schema) (env : Option String)
       (prev? : Option DatasetStatistics) (fs : FeatureSchema) (st : FeatureStatistics)
       (lo hi a b : ℚ),
      nodupNames schema.features = true → fs ∈ schema.features →
      excludedIn fs env = false → findStat stats fs.name = some st →
      fs.numeric_domain = some (lo, hi) → st.min = some a → st.max = some b →
      ¬(a < lo ∨ hi < b) →
      countAnom (validate stats schema env prev?) fs.name .OUT_OF_RANGE = 0) ∧
    (⟨"delay", .OUT_OF_RANGE, .ERROR, [], some 20⟩ : Anomaly) ∈
      validate statsD schemaD none none := by
  have hgen : ∀ (stats : DatasetStatistics) (schema : Schema) (env : Option String)
      (prev? : Option DatasetStatistics) (fs : FeatureSchema) (st : FeatureStatistics)
      (lo hi a b : ℚ),
      nodupNames schema.features = true → fs ∈ schema.features →
      excludedIn fs env = false → findStat stats fs.name = some st →
      fs.kind = .NUMERIC → fs.numeric_domain = some (lo, hi) →
      st.min = some a → st.max = some b → (a < lo ∨ hi < b) →
      countAnom (validate stats schema env prev?) fs.name .OUT_OF_RANGE = 1 ∧
      (⟨fs.name, .OUT_OF_RANGE, .ERROR, [], some (max (lo - a) (b - hi))⟩ : Anomaly) ∈
        validate stats schema env prev? := by
    intro stats schema env prev? fs st lo hi a b hnd hfs hex hfind hkd hdom hmin hmax hout
    have hstep := step5_triggered hkd hdom hmin hmax hout
    constructor
    · rw [countAnom_validate hnd hfs hex (by decide),
        countAnom_featureAnomalies_range, hfind, hstep, countAnom_singleton_self]
    · apply validate_mem_of_featureAnomalies hfs hex
      apply featureAnomalies_mem_step5
      rw [hfind, hstep]
      exact List.mem_singleton.mpr rfl
  refine ⟨hgen, ?_, ?_⟩
  · intro stats schema env prev? fs st lo hi a b hnd hfs hex hfind hdom hmin hmax hin
    rw [countAnom_validate hnd hfs hex (by decide),
      countAnom_featureAnomalies_range, hfind, step5_silent hdom hmin hmax hin]
    rfl
  · have h := (hgen statsD schemaD none none
      ⟨"delay", .NUMERIC, none, [], some (-60, 480), none, none, []⟩
      ⟨"delay", .NUMERIC, 10, 0, 0, 0, some 0, some 500, [(0, 500, 10)], []⟩
      (-60) 480 0 500 (by decide) (by decide) (by decide) (by decide) rfl rfl rfl rfl
      (Or.inr (by norm_num))).2
    rw [show max ((-60 : ℚ) - 0) ((500 : ℚ) - 480) = 20 from by
      rw [max_eq_right (by norm_num)]; norm_num] at h
    exact h

/-- Witness for C5 at scenario D: exactly one out-of-range anomaly for the
delay feature with extent max(-60 - 0, 500 - 480). -/
theorem C5_out_of_range_witness :
    countAnom (validate statsD schemaD none none) "delay" .OUT_OF_RANGE = 1 :=
  (C5_out_of_range.1 statsD schemaD none none
    ⟨"delay", .NUMERIC, none, [], some (-60, 480), none, none, []⟩
    ⟨"delay", .NUMERIC, 10, 0, 0, 0, some 0, some 500, [(0, 500, 10)], []⟩
    (-60) 480 0 500 (by decide) (by decide) (by decide) (by decide) rfl rfl rfl rfl
    (Or.inr (by norm_num))).1

/-- C10: a feature whose cell value is null converts to the empty Feature
(no int64, float or bytes values) under every declared type, without
error; and in a successful `row_to_example` result every null-valued
input feature maps to that empty Feature, so a null never reaches the
type-specific conversion branches. -/
theorem C10_null_yields_empty_feature :
    (∀ dt : String, convertValue dt BQValue.null = .ok emptyFeature) ∧
    emptyFeature.int64s = [] ∧ emptyFeature.floats = [] ∧ emptyFeature.bytes = [] ∧
    (∀ (inst : List (String × BQValue)) (type_map : List (String × String))
       (out : List (String × TFFeature)) (k : String),
      row_to_example inst type_map = .ok out → (k, BQValue.null) ∈ inst →
      (k, emptyFeature) ∈ out) := by
  refine ⟨fun dt => rfl, rfl, rfl, rfl, ?_⟩
  intro inst type_map out k h hk
  have h2 := mapM_except_forall2 (fun kv : String × BQValue =>
    match type_map.find? (fun p => p.1 == kv.1) with
    | none => .error .KeyError
    | some p => (convertValue p.2 kv.2).map fun ft => (kv.1, ft)) h
  obtain ⟨y, hy, hp⟩ := f2_mem_left h2 (k, BQValue.null) hk
  have hp2 : (match type_map.find? (fun p => p.1 == k) with
      | none => Except.error PyError.KeyError
      | some p => Except.map (fun ft => (k, ft)) (convertValue p.2 BQValue.null)) =
      Except.ok y := hp
  cases hfind : type_map.find? (fun p => p.1 == k) with
  | none =>
    rw [hfind] at hp2
    exact absurd hp2 (by simp)
  | some p =>
    rw [hfind] at hp2
    injection hp2 with h3
    have h4 : (k, emptyFeature) = y := h3
    rw [h4]
    exact hy

/-- Witness for C10: the concrete row `instW` with a null cell for column
a and the all-INTEGER type map `tmW`. -/
theorem C10_null_yields_empty_feature_witness :
    convertValue "INTEGER" BQValue.null = .ok emptyFeature ∧
      ("a", emptyFeature) ∈ [("a", emptyFeature), ("b", (⟨[3], [], []⟩ : TFFeature))] :=
  ⟨C10_null_yields_empty_feature.1 "INTEGER",
    C10_null_yields_empty_feature.2.2.2.2 instW tmW
      [("a", emptyFeature), ("b", ⟨[3], [], []⟩)] "a" rfl (by decide)⟩

theorem idxOfName_cons_self {a : FeatureSchema} {t : List FeatureSchema} {n : String}
    (h : a.name = n) : idxOfName (a :: t) n = 0 := by
  show (if a.name = n then 0 else idxOfName t n + 1) = 0
  rw [if_pos h]

theorem idxOfName_cons_ne {a : FeatureSchema} {t : List FeatureSchema} {n : String}
    (h : a.name ≠ n) : idxOfName (a :: t) n = idxOfName t n + 1 := by
  show (if a.name = n then 0 else idxOfName t n + 1) = idxOfName t n + 1
  rw [if_neg h]

theorem idx_pairwise : ∀ {l : List FeatureSchema}, nodupNames l = true →
    l.Pairwise (fun f1 f2 => idxOfName l f1.name < idxOfName l f2.name) := by
  intro l
  induction l with
  | nil => exact fun _ => List.Pairwise.nil
  | cons a t ih =>
    intro hn
    unfold nodupNames at hn
    rw [Bool.and_eq_true] at hn
    have hany : t.any (fun b => b.name == a.name) = false := by
      have h0 := hn.1
      rwa [Bool.not_eq_true'] at h0
    have hno : ∀ b ∈ t, b.name ≠ a.name := by
      intro b hb hbn
      have hc : t.any (fun c => c.name == a.name) = true :=
        List.any_eq_true.mpr ⟨b, hb, beq_iff_eq.mpr hbn⟩
      rw [hany] at hc
      exact Bool.false_ne_true hc
    rw [List.pairwise_cons]
    constructor
    · intro f2 hf2
      rw [idxOfName_cons_self rfl, idxOfName_cons_ne (fun hh => hno f2 hf2 hh.symm)]
      exact Nat.succ_pos _
    · refine List.Pairwise.imp_of_mem ?_ (ih hn.2)
      intro f1 f2 h1m h2m hidx
      rw [idxOfName_cons_ne (fun hh => hno f1 h1m hh.symm),
        idxOfName_cons_ne (fun hh => hno f2 h2m hh.symm)]
      omega

theorem pairwise_of_all {R : Anomaly → Anomaly → Prop} :
    ∀ {l : List Anomaly}, (∀ a ∈ l, ∀ b, R a b) → l.Pairwise R := by
  intro l
  induction l with
  | nil => exact fun _ => List.Pairwise.nil
  | cons a t ih =>
    intro h
    exact List.Pairwise.cons (fun b _ => h a (List.mem_cons_self a t) b)
      (ih fun x hx b => h x (List.mem_cons_of_mem a hx) b)

theorem mem_unexpected_tail {schema : Schema} {l : List FeatureStatistics} {a : Anomaly}
    (ha : a ∈ (l.filter fun st =>
        !(schema.features.any fun fs => fs.name == st.name)).map
      fun st => (⟨st.name, .UNEXPECTED_FEATURE, .WARNING, [], none⟩ : Anomaly)) :
    hasFeature schema a.featureName = false := by
  rw [List.mem_map] at ha
  obtain ⟨st, hst, rfl⟩ := ha
  rw [List.mem_filter] at hst
  have h2 := hst.2
  rwa [Bool.not_eq_true'] at h2

theorem validate_reportOrdered (stats : DatasetStatistics) (schema : Schema)
    (env : Option String) (prev? : Option DatasetStatistics)
    (hnd : nodupNames schema.features = true) :
    reportOrdered schema (validate stats schema env prev?) := by
  unfold reportOrdered validate
  rw [List.pairwise_append]
  refine ⟨?_, ?_, ?_⟩
  · rw [List.pairwise_flatten]
    constructor
    · intro l hl
      rw [List.mem_map] at hl
      obtain ⟨fs, hfs, rfl⟩ := hl
      by_cases hx : excludedIn fs env = true
      · rw [if_pos hx]
        exact List.Pairwise.nil
      · rw [if_neg hx]
        refine List.Pairwise.imp_of_mem ?_
          (featureAnomalies_stepSorted stats.total_record_count (findStat stats fs.name)
            (prev?.bind fun pd => findStat pd fs.name) fs)
        intro a b ha hb hstep h1 h2
        right
        rw [mem_featureAnomalies_name ha, mem_featureAnomalies_name hb]
        exact ⟨rfl, hstep⟩
    · rw [List.pairwise_map]
      refine List.Pairwise.imp_of_mem ?_ (idx_pairwise hnd)
      intro fs1 fs2 h1m h2m hidx a ha b hb h1 h2
      left
      have ha2 : a.featureName = fs1.name := by
        by_cases hx : excludedIn fs1 env = true
        · rw [if_pos hx] at ha
          exact absurd ha (List.not_mem_nil a)
        · rw [if_neg hx] at ha
          exact mem_featureAnomalies_name ha
      have hb2 : b.featureName = fs2.name := by
        by_cases hx : excludedIn fs2 env = true
        · rw [if_pos hx] at hb
          exact absurd hb (List.not_mem_nil b)
        · rw [if_neg hx] at hb
          exact mem_featureAnomalies_name hb
      rw [ha2, hb2]
      exact hidx
  · apply pairwise_of_all
    intro a ha b h1 h2
    rw [mem_unexpected_tail ha] at h1
    exact absurd h1 (by simp)
  · intro a ha b hb h1 h2
    rw [mem_unexpected_tail hb] at h2
    exact absurd h2 (by simp)

/-- C8 (amended): the validation report is deterministically ordered:
anomalies of schema-declared features are grouped by feature in the
declared feature order, and within one feature the checks appear in the
fixed order of validation steps 1 through 6; that step order is not the
anomaly_kind declaration order of the data model. -/
theorem C8_report_order (stats : DatasetStatistics) (schema : Schema)
    (env : Option String) (prev? : Option DatasetStatistics)
    (hnd : nodupNames schema.features = true) :
    reportOrdered schema (validate stats schema env prev?) :=
  validate_reportOrdered stats schema env prev? hnd

/-- Witness for the amended C8 order at the concrete inputs of the
counterexample. -/
theorem C8_report_order_witness :
    reportOrdered schemaO (validate statsO schemaO none none) :=
  C8_report_order statsO schemaO none none (by decide)

/-- Counterexample for C8 as stated: on one feature triggering both the
presence check (step 3, kind index 3) and the domain check (step 4, kind
index 1), the report emits PRESENCE_BELOW_THRESHOLD before
UNEXPECTED_STRING_VALUES, so within a feature the anomalies do not follow
the anomaly_kind declaration order. -/
theorem C8_declaration_order_refuted :
    validate statsO schemaO none none =
      [⟨"c", .PRESENCE_BELOW_THRESHOLD, .ERROR, [], none⟩,
       ⟨"c", .UNEXPECTED_STRING_VALUES, .ERROR, ["green"], none⟩] ∧
    ¬ (validate statsO schemaO none none).Pairwise
        (fun a b => kindIndex a.kind ≤ kindIndex b.kind) := by
  have h3 : step3 10 (some (⟨"c", .CATEGORICAL_STRING, 10, 1, 0, 0, none, none, [],
        [("green", 9)]⟩ : FeatureStatistics))
      (⟨"c", .CATEGORICAL_STRING, some 1, ["red"], none, none, none, []⟩ :
        FeatureSchema) =
      [⟨"c", .PRESENCE_BELOW_THRESHOLD, .ERROR, [], none⟩] :=
    step3_triggered rfl (by show (1 : ℚ) - ((1 : ℕ) : ℚ) / ((10 : ℕ) : ℚ) < 1; norm_num)
  have h1 : validate statsO schemaO none none =
      [⟨"c", .PRESENCE_BELOW_THRESHOLD, .ERROR, [], none⟩,
       ⟨"c", .UNEXPECTED_STRING_VALUES, .ERROR, ["green"], none⟩] := by
    show ((step1 10 (some (⟨"c", .CATEGORICAL_STRING, 10, 1, 0, 0, none, none, [],
          [("green", 9)]⟩ : FeatureStatistics))
        (⟨"c", .CATEGORICAL_STRING, some 1, ["red"], none, none, none, []⟩ :
          FeatureSchema) ++
      step3 10 (some (⟨"c", .CATEGORICAL_STRING, 10, 1, 0, 0, none, none, [],
          [("green", 9)]⟩ : FeatureStatistics))
        (⟨"c", .CATEGORICAL_STRING, some 1, ["red"], none, none, none, []⟩ :
          FeatureSchema) ++
      step4 (some (⟨"c", .CATEGORICAL_STRING, 10, 1, 0, 0, none, none, [],
          [("green", 9)]⟩ : FeatureStatistics))
        (⟨"c", .CATEGORICAL_STRING, some 1, ["red"], none, none, none, []⟩ :
          FeatureSchema) ++
      step4b (some (⟨"c", .CATEGORICAL_STRING, 10, 1, 0, 0, none, none, [],
          [("green", 9)]⟩ : FeatureStatistics))
        (⟨"c", .CATEGORICAL_STRING, some 1, ["red"], none, none, none, []⟩ :
          FeatureSchema) ++
      step5 (some (⟨"c", .CATEGORICAL_STRING, 10, 1, 0, 0, none, none, [],
          [("green", 9)]⟩ : FeatureStatistics))
        (⟨"c", .CATEGORICAL_STRING, some 1, ["red"], none, none, none, []⟩ :
          FeatureSchema) ++
      step6 (some (⟨"c", .CATEGORICAL_STRING, 10, 1, 0, 0, none, none, [],
          [("green", 9)]⟩ : FeatureStatistics)) none
        (⟨"c", .CATEGORICAL_STRING, some 1, ["red"], none, none, none, []⟩ :
          FeatureSchema)) ++ []) ++ [] =
      [⟨"c", .PRESENCE_BELOW_THRESHOLD, .ERROR, [], none⟩,
       ⟨"c", .UNEXPECTED_STRING_VALUES, .ERROR, ["green"], none⟩]
    rw [h3]
    rfl
  refine ⟨h1, ?_⟩
  rw [h1]
  intro hp
  have hle := (List.pairwise_cons.mp hp).1 _ (List.mem_singleton.mpr rfl)
  simp [kindIndex] at hle

theorem decNat_encNat (n : Nat) (r : List Char) : decNat (encNat n ++ r) = some (n, r) := by
  induction n with
  | zero => rfl
  | succ m ih =>
    show decNat ('1' :: (encNat m ++ r)) = some (m + 1, r)
    show (decNat (encNat m ++ r)).map (fun p => (p.1 + 1, p.2)) = some (m + 1, r)
    rw [ih]
    rfl

theorem decInt_encInt (i : Int) (r : List Char) : decInt (encInt i ++ r) = some (i, r) := by
  cases i with
  | ofNat n =>
    show (decNat (encNat n ++ r)).map (fun p => (Int.ofNat p.1, p.2)) =
      some (.ofNat n, r)
    rw [decNat_encNat]
    rfl
  | negSucc n =>
    show (decNat (encNat n ++ r)).map (fun p => (Int.negSucc p.1, p.2)) =
      some (.negSucc n, r)
    rw [decNat_encNat]
    rfl

theorem decStr_encStr (s : String) (r : List Char) :
    decStr (encStr s ++ r) = some (s, r) := by
  unfold decStr encStr
  rw [List.append_assoc, decNat_encNat]
  show (if s.length ≤ (s.data ++ r).length then
      some (⟨(s.data ++ r).take s.length⟩, (s.data ++ r).drop s.length)
    else none) = some (s, r)
  have hlen : s.length = s.data.length := rfl
  rw [if_pos (by rw [List.length_append]; omega), hlen, List.take_left, List.drop_left]

theorem decRat_encRat (q : ℚ) (r : List Char) : decRat (encRat q ++ r) = some (q, r) := by
  unfold decRat encRat
  rw [List.append_assoc, decInt_encInt]
  show (decNat (encNat q.den ++ r)).map (fun p2 => (mkRat q.num p2.1, p2.2)) = some (q, r)
  rw [decNat_encNat]
  show some (mkRat q.num q.den, r) = some (q, r)
  rw [Rat.mkRat_self]

theorem decOpt_encOpt {α : Type} (enc : α → List Char)
    (dec : List Char → Option (α × List Char))
    (h : ∀ a r, dec (enc a ++ r) = some (a, r)) :
    ∀ (o : Option α) (r : List Char), decOpt dec (encOpt enc o ++ r) = some (o, r) := by
  intro o r
  cases o with
  | none => rfl
  | some a =>
    show (dec (enc a ++ r)).map (fun p => (some p.1, p.2)) = some (some a, r)
    rw [h]
    rfl

theorem decListN_encs {α : Type} (enc : α → List Char)
    (dec : List Char → Option (α × List Char))
    (h : ∀ a r, dec (enc a ++ r) = some (a, r)) :
    ∀ (l : List α) (r : List Char),
      decListN dec l.length ((l.map enc).flatten ++ r) = some (l, r) := by
  intro l
  induction l with
  | nil => exact fun r => rfl
  | cons a t ih =>
    intro r
    show decListN dec (t.length + 1) ((enc a ++ (t.map enc).flatten) ++ r) =
      some (a :: t, r)
    rw [List.append_assoc]
    show (dec (enc a ++ ((t.map enc).flatten ++ r))).bind (fun p =>
      (decListN dec t.length p.2).map fun p2 => (p.1 :: p2.1, p2.2)) = some (a :: t, r)
    rw [h]
    show (decListN dec t.length ((t.map enc).flatten ++ r)).map
      (fun p2 => (a :: p2.1, p2.2)) = some (a :: t, r)
    rw [ih]
    rfl

theorem decList_encList {α : Type} (enc : α → List Char)
    (dec : List Char → Option (α × List Char))
    (h : ∀ a r, dec (enc a ++ r) = some (a, r)) :
    ∀ (l : List α) (r : List Char), decList dec (encList enc l ++ r) = some (l, r) := by
  intro l r
  unfold decList encList
  rw [List.append_assoc, decNat_encNat]
  exact decListN_encs enc dec h l r

theorem decKind_encKind (k : FeatureKind) (r : List Char) :
    decKind (encKind k ++ r) = some (k, r) := by
  cases k <;> rfl

theorem decRat2_encRat2 (p : ℚ × ℚ) (r : List Char) :
    decRat2 (encRat2 p ++ r) = some (p, r) := by
  unfold decRat2 encRat2
  rw [List.append_assoc, decRat_encRat]
  show (decRat (encRat p.2 ++ r)).map (fun p2 => ((p.1, p2.1), p2.2)) = some (p, r)
  rw [decRat_encRat]
  rfl

theorem decFeatureSchema_enc (fs : FeatureSchema) (r : List Char) :
    decFeatureSchema (encFeatureSchema fs ++ r) = some (fs, r) := by
  unfold decFeatureSchema encFeatureSchema
  simp only [List.append_assoc]
  rw [decStr_encStr]
  show (decKind (encKind fs.kind ++ _)).bind _ = _
  rw [decKind_encKind]
  show (decOpt decRat (encOpt encRat fs.min_presence_fraction ++ _)).bind _ = _
  rw [decOpt_encOpt encRat decRat decRat_encRat]
  show (decList decStr (encList encStr fs.domain_values ++ _)).bind _ = _
  rw [decList_encList encStr decStr decStr_encStr]
  show (decOpt decRat2 (encOpt encRat2 fs.numeric_domain ++ _)).bind _ = _
  rw [decOpt_encOpt encRat2 decRat2 decRat2_encRat2]
  show (decOpt decRat (encOpt encRat fs.min_domain_mass ++ _)).bind _ = _
  rw [decOpt_encOpt encRat decRat decRat_encRat]
  show (decOpt decRat (encOpt encRat fs.drift_threshold ++ _)).bind _ = _
  rw [decOpt_encOpt encRat decRat decRat_encRat]
  show (decList decStr (encList encStr fs.excluded_environments ++ r)).map _ = _
  rw [decList_encList encStr decStr decStr_encStr]
  rfl

theorem decSchema_enc (s : Schema) (r : List Char) :
    decSchema (encSchema s ++ r) = some (s, r) := by
  unfold decSchema encSchema
  rw [List.append_assoc, decList_encList encFeatureSchema decFeatureSchema
    decFeatureSchema_enc]
  show (decList decStr (encList encStr s.environments ++ r)).map
    (fun p2 => ((⟨s.features, p2.1⟩ : Schema), p2.2)) = some (s, r)
  rw [decList_encList encStr decStr decStr_encStr]
  rfl

theorem deserialize_serialize (s : Schema) : deserialize (serialize s) = .ok s := by
  unfold deserialize serialize
  have h := decSchema_enc s []
  rw [List.append_nil] at h
  show (match decSchema (encSchema s) with
    | some (s2, []) => Except.ok s2
    | _ => Except.error SchemaError.MalformedSchemaError) = .ok s
  rw [h]

/-- C3: every schema constructed via the SchemaStore mutation API (from an
inferred baseline through set_kind, set_numeric_domain,
set_categorical_domain, add_domain_value, set_min_presence,
declare_environment and exclude_feature_from_environment) round-trips:
deserialize(serialize(schema)) = schema. -/
theorem C3_serialize_roundtrip :
    ∀ s : Schema, Built s → deserialize (serialize s) = .ok s :=
  fun s _ => deserialize_serialize s

/-- Witness for C3: the schema inferred from the concrete statistics `dsA`
is reachable through the mutation API and round-trips. -/
theorem C3_serialize_roundtrip_witness :
    deserialize (serialize (infer_schema dsA)) = .ok (infer_schema dsA) :=
  C3_serialize_roundtrip (infer_schema dsA) (Built.infer dsA)

end DV
